import Mathlib

/-!
# RTnet real-time socket buffers (`stack/rtskb.c`)

A shallow embedding of the rtskb allocator.  Pointers are natural numbers,
a pointer that the code compares with `NULL` is an `Option Nat`, and the heap
is a pair of total maps (descriptors, queues).  The two compile-time switches
`CONFIG_RTNET_CHECKED` and `CONFIG_RTNET_ADDON_RTCAP` are fields of `Config`.
Locks are not modelled: every function is one sequential step.
-/

namespace RTnet

/-! ## Data model -/

/-- Build configuration: the preprocessor switches and the constants that
`rtskb.c` takes from its headers. -/
structure Config where
  /-- `CONFIG_RTNET_CHECKED` -/
  checked : Bool
  /-- `CONFIG_RTNET_ADDON_RTCAP` -/
  rtcap : Bool
  /-- `SKB_DATA_ALIGN(RTSKB_SIZE)`, the fixed storage capacity -/
  capacity : Nat
  /-- `ALIGN_RTSKB_STRUCT_LEN`, the offset of the storage behind the header -/
  struct_len : Nat
deriving DecidableEq, Repr

/-- The fields of `struct rtskb` that `rtskb.c` reads or writes. -/
structure Rtskb where
  next : Option Nat
  chain_end : Nat
  pool : Option Nat
  buf_start : Nat
  buf_end : Nat
  data : Nat
  tail : Nat
  end_ : Nat
  len : Nat
  pkt_type : Nat
  xmit_stamp : Option Nat
  cap_flags : Nat
  cap_comp_skb : Nat
  chain_len : Nat
  priority : Nat
  rtdev : Option Nat
  time_stamp : Nat
  mac_raw : Nat
  nh_raw : Nat
  h_raw : Nat
  protocol : Nat
  ip_summed : Nat
  csum : Nat
deriving DecidableEq, Repr

/-- The fields of `struct rtskb_queue`; `pool_balance` is only maintained in
the checked build.  It is a C `int`; the model keeps it as an unbounded
integer, and in every statement below it stays between minus the number of
descriptors of the pool and zero. -/
structure RtskbQueue where
  first : Option Nat
  last : Option Nat
  pool_balance : Int
deriving DecidableEq, Repr

/-- Machine state: the descriptor heap, the queue heap, byte memory and the
four global statistics counters. -/
structure State where
  skb : Nat → Rtskb
  queue : Nat → RtskbQueue
  mem : Nat → Nat
  rtskb_pools : Nat
  rtskb_pools_max : Nat
  rtskb_amount : Nat
  rtskb_amount_max : Nat

/-- Ways a run of the model can stop without a result. -/
inductive Fault where
  | nullDeref
  | outOfFuel
deriving DecidableEq, Repr

/-- `PACKET_HOST` of `linux/if_packet.h`. -/
def PACKET_HOST : Nat := 0

/-- `ENOMEM` of `errno.h`. -/
def ENOMEM : Int := 12

/-- Modelled from the spec: the constant `RTSKB_CAP_SHARED` (rtskb.h is not
among the sources), the bit of `cap_flags` that is the descriptor's
`share_flag`. -/
def RTSKB_CAP_SHARED : Nat := 1

/-- Modelled from the spec: the macro `RTNET_ASSERT(expr, func)`
(rtnet_internal.h is not among the sources).  Contract violations are
"detected only in debug builds via assertions" and "production builds may skip
the checks": in the checked build a false `expr` runs the exit `func`, in the
other build the macro expands to nothing.  The result says whether `func`
runs. -/
def RTNET_ASSERT_fails (cfg : Config) (expr : Bool) : Bool := cfg.checked && !expr

/-- The C expression `x & ~m` on naturals. -/
def clearBits (x m : Nat) : Nat := x ^^^ (x &&& m)

/-! ## Field updates -/

/-- Store `f (old value)` at descriptor `d`. -/
def State.setSkb (s : State) (d : Nat) (f : Rtskb → Rtskb) : State :=
  { s with skb := Function.update s.skb d (f (s.skb d)) }

/-- Store `f (old value)` at queue `q`. -/
def State.setQueue (s : State) (q : Nat) (f : RtskbQueue → RtskbQueue) : State :=
  { s with queue := Function.update s.queue q (f (s.queue q)) }

/-! ## Queue primitives -/

/-- Modelled from the spec: `rtskb_queue_init` (rtskb.h is not among the
sources).  "A Pool is created empty": both ends of the list are cleared. -/
def rtskb_queue_init (q : Nat) (s : State) : State :=
  s.setQueue q (fun Q => { Q with first := none, last := none })

/-- Modelled from the spec: `rtskb_dequeue` (rtskb.h is not among the
sources).  "Removes the head of `pool.free_list`; fails (returns Empty) if the
pool is empty": the head leaves the list, the list continues at the head's
`next`, and the head's own `next` is cleared. -/
def rtskb_dequeue (q : Nat) (s : State) : Option Nat × State :=
  match (s.queue q).first with
  | none => (none, s)
  | some r =>
    (some r,
      (s.setQueue q (fun Q => { Q with first := (s.skb r).next })).setSkb r
        (fun k => { k with next := none }))

/-- Modelled from the spec: `rtskb_queue_tail` (rtskb.h is not among the
sources).  "Append tail": the chain that starts at `skb` and ends at
`skb->chain_end` is linked behind the current last entry in O(1); the chain
end becomes the new last entry and terminates the list. -/
def rtskb_queue_tail (q : Nat) (skb : Nat) (s : State) : Except Fault State :=
  let ce := (s.skb skb).chain_end
  let s1 := s.setSkb ce (fun k => { k with next := none })
  match (s1.queue q).first with
  | none => .ok (s1.setQueue q (fun Q => { Q with first := some skb, last := some ce }))
  | some _ =>
    match (s1.queue q).last with
    | none => .error .nullDeref
    | some l =>
      .ok ((s1.setSkb l (fun k => { k with next := some skb })).setQueue q
        (fun Q => { Q with last := some ce }))

/-! ## `alloc_rtskb` -/

/-- Function `alloc_rtskb(size, pool)`: the returned pointer (`none` is
`NULL`) and the new state. -/
def alloc_rtskb (cfg : Config) (size : Nat) (pool : Nat) (s : State) :
    Option Nat × State :=
  if RTNET_ASSERT_fails cfg (decide (size ≤ cfg.capacity)) then (none, s)
  else
    match rtskb_dequeue pool s with
    | (none, s1) => (none, s1)
    | (some skb, s1) =>
      let s2 :=
        if cfg.checked then
          (s1.setQueue pool
            (fun Q => { Q with pool_balance := Q.pool_balance - 1 })).setSkb skb
            (fun k => { k with chain_len := 1 })
        else s1
      let s3 := s2.setSkb skb (fun k =>
        { k with data := k.buf_start, tail := k.buf_start, end_ := k.buf_start + size })
      let s4 := s3.setSkb skb (fun k =>
        { k with chain_end := skb, len := 0, pkt_type := PACKET_HOST, xmit_stamp := none })
      let s5 := if cfg.rtcap then s4.setSkb skb (fun k => { k with cap_flags := 0 }) else s4
      (some skb, s5)

/-! ## `kfree_rtskb` -/

/-- Add `n` to the debug counter `pool_balance` of queue `q`. -/
def State.addBalance (s : State) (q : Nat) (n : Int) : State :=
  s.setQueue q (fun Q => { Q with pool_balance := Q.pool_balance + n })

/-- One pass through the body of the `do { ... } while` loop of `kfree_rtskb`
in the capture-enabled build, for the descriptor `skb`. -/
def kfree_body (cfg : Config) (skb : Nat) (s : State) : Except Fault State :=
  if (s.skb skb).cap_flags &&& RTSKB_CAP_SHARED ≠ 0 then
    let s1 := s.setSkb skb (fun k => { k with cap_flags := clearBits k.cap_flags RTSKB_CAP_SHARED })
    let comp_skb := (s1.skb skb).cap_comp_skb
    -- skb->pool = xchg(&comp_skb->pool, skb->pool)
    let mine := (s1.skb skb).pool
    let theirs := (s1.skb comp_skb).pool
    let s2 := s1.setSkb comp_skb (fun k => { k with pool := mine })
    let s3 := s2.setSkb skb (fun k => { k with pool := theirs })
    match (s3.skb comp_skb).pool with
    | none => .error .nullDeref
    | some p =>
      match rtskb_queue_tail p comp_skb s3 with
      | .error e => .error e
      | .ok s4 => .ok (if cfg.checked then s4.addBalance p 1 else s4)
  else
    let s1 := s.setSkb skb (fun k => { k with chain_end := skb })
    match (s1.skb skb).pool with
    | none => .error .nullDeref
    | some p =>
      match rtskb_queue_tail p skb s1 with
      | .error e => .error e
      | .ok s2 => .ok (if cfg.checked then s2.addBalance p 1 else s2)

/-- The `do { ... } while (chain_end != skb)` loop of `kfree_rtskb` in the
capture-enabled build; `next_skb` is the loop variable of that name, and one
unit of fuel pays for one pass. -/
def kfree_loop (cfg : Config) : Nat → Nat → Option Nat → State → Except Fault State
  | 0, _, _, _ => .error .outOfFuel
  | fuel + 1, chain_end, next_skb, s =>
    match next_skb with
    | none => .error .nullDeref
    | some skb =>
      let next_skb1 := (s.skb skb).next
      match kfree_body cfg skb s with
      | .error e => .error e
      | .ok s1 =>
        if chain_end = skb then .ok s1 else kfree_loop cfg fuel chain_end next_skb1 s1

/-- Function `kfree_rtskb(skb)` for a non-null `skb` (the type leaves no room
for the first assertion to fail); `fuel` bounds the passes of the loop. -/
def kfree_rtskb (cfg : Config) (fuel : Nat) (skb : Nat) (s : State) : Except Fault State :=
  if RTNET_ASSERT_fails cfg (s.skb skb).pool.isSome then .ok s
  else if cfg.rtcap then
    kfree_loop cfg fuel (s.skb skb).chain_end (some skb) s
  else
    match (s.skb skb).pool with
    | none => .error .nullDeref
    | some p =>
      match rtskb_queue_tail p skb s with
      | .error e => .error e
      | .ok s1 =>
        .ok (if cfg.checked then s1.addBalance p ((s1.skb skb).chain_len : Int) else s1)

/-! ## `rtskb_acquire` -/

/-- Function `rtskb_acquire(rtskb, comp_pool)`; the result is the C return
value with the new state. -/
def rtskb_acquire (cfg : Config) (rtskb : Nat) (comp_pool : Nat) (s : State) :
    Except Fault (Int × State) :=
  match rtskb_dequeue comp_pool s with
  | (none, s1) => .ok (-ENOMEM, s1)
  | (some comp_rtskb, s1) =>
    let s2 := if cfg.checked then s1.addBalance comp_pool (-1) else s1
    let s3 := s2.setSkb comp_rtskb (fun k => { k with chain_end := comp_rtskb })
    let s4 := s3.setSkb comp_rtskb (fun k => { k with pool := (s3.skb rtskb).pool })
    match (s4.skb comp_rtskb).pool with
    | none => .error .nullDeref
    | some p =>
      match rtskb_queue_tail p comp_rtskb s4 with
      | .error e => .error e
      | .ok s5 =>
        let s6 :=
          if cfg.checked then
            (s5.setSkb comp_rtskb (fun k => { k with chain_len := 1 })).addBalance p 1
          else s5
        .ok (0, s6.setSkb rtskb (fun k => { k with pool := some comp_pool }))

/-! ## Free lists as seen through the pointers -/

/-- Walking `next` from pointer `p` visits exactly the descriptors of `L`, in
order, and then arrives at pointer `e`. -/
def chainSeg (nx : Nat → Option Nat) : Option Nat → List Nat → Option Nat → Prop
  | p, [], e => p = e
  | p, d :: L, e => p = some d ∧ chainSeg nx (nx d) L e

/-- The `next` pointers of a state. -/
def State.nextOf (s : State) : Nat → Option Nat := fun d => (s.skb d).next

/-- Queue `q` of state `s` holds the free list `L`: `first` leads through
`next` over exactly `L` to `NULL`, no descriptor is listed twice, and `last`
is the final entry of a non-empty list. -/
def IsQueue (s : State) (q : Nat) (L : List Nat) : Prop :=
  chainSeg s.nextOf (s.queue q).first L none ∧ L.Nodup ∧
    (L ≠ [] → (s.queue q).last = L.getLast?)

/-- The descriptor with its `next` field blanked: what a queue operation must
leave untouched. -/
def Rtskb.noNext (k : Rtskb) : Rtskb := { k with next := none }

/-! ## Sequences of allocate and free on one pool -/

/-- A request of a client of one pool: allocate a buffer of some size, or free
a descriptor. -/
inductive PoolOp where
  | alloc (size : Nat)
  | free (d : Nat)
deriving DecidableEq, Repr

/-- One request against `pool`.  The second component lists the descriptors
currently allocated from the pool.  A request to free a descriptor that is not
in that list is not a step of a client of this pool and is skipped. -/
def poolStep (cfg : Config) (pool : Nat) (op : PoolOp) (st : State × List Nat) :
    Except Fault (State × List Nat) :=
  match op with
  | .alloc size =>
    match alloc_rtskb cfg size pool st.1 with
    | (some d, s1) => .ok (s1, d :: st.2)
    | (none, s1) => .ok (s1, st.2)
  | .free d =>
    if d ∈ st.2 then
      match kfree_rtskb cfg 1 d st.1 with
      | .ok s1 => .ok (s1, st.2.erase d)
      | .error e => .error e
    else .ok st

/-- A finite sequence of requests against `pool`, run from left to right. -/
def runOps (cfg : Config) (pool : Nat) : List PoolOp → State × List Nat →
    Except Fault (State × List Nat)
  | [], st => .ok st
  | op :: ops, st =>
    match poolStep cfg pool op st with
    | .ok st1 => runOps cfg pool ops st1
    | .error e => .error e

/-- The invariant behind the balance check of one pool: the free list `L` and
the allocated descriptors `out` are disjoint and duplicate-free, together they
are the `n` descriptors of the pool, all owned by it, the debug counter is
minus the number allocated, and every allocated descriptor is a single
unshared descriptor. -/
def BalanceInv (cfg : Config) (pool n : Nat) (st : State × List Nat) : Prop :=
  ∃ L, IsQueue st.1 pool L ∧ (L ++ st.2).Nodup ∧ L.length + st.2.length = n ∧
    (∀ d ∈ L ++ st.2, (st.1.skb d).pool = some pool) ∧
    (st.1.queue pool).pool_balance = -(st.2.length : Int) ∧
    (∀ d ∈ st.2, (st.1.skb d).chain_end = d ∧ (st.1.skb d).chain_len = 1 ∧
      (cfg.rtcap = true → (st.1.skb d).cap_flags &&& RTSKB_CAP_SHARED = 0))

/-! ## Decision procedures and sample states -/

/-- `chainSeg` is decidable: it is a finite conjunction of pointer equalities. -/
def chainSeg.decide (nx : Nat → Option Nat) :
    ∀ (p : Option Nat) (L : List Nat) (e : Option Nat), Decidable (chainSeg nx p L e)
  | p, [], e => inferInstanceAs (Decidable (p = e))
  | p, d :: L, e =>
    @instDecidableAnd (p = some d) (chainSeg nx (nx d) L e) inferInstance
      (chainSeg.decide nx (nx d) L e)

instance (nx : Nat → Option Nat) (p : Option Nat) (L : List Nat) (e : Option Nat) :
    Decidable (chainSeg nx p L e) := chainSeg.decide nx p L e

instance (s : State) (q : Nat) (L : List Nat) : Decidable (IsQueue s q L) :=
  inferInstanceAs (Decidable (_ ∧ _ ∧ _))

/-- A descriptor header after `memset(skb, 0, sizeof(struct rtskb))`. -/
def Rtskb.zero : Rtskb :=
  { next := none, chain_end := 0, pool := none, buf_start := 0, buf_end := 0, data := 0,
    tail := 0, end_ := 0, len := 0, pkt_type := 0, xmit_stamp := none, cap_flags := 0,
    cap_comp_skb := 0, chain_len := 0, priority := 0, rtdev := none, time_stamp := 0,
    mac_raw := 0, nh_raw := 0, h_raw := 0, protocol := 0, ip_summed := 0, csum := 0 }

/-- The state with no descriptor in any queue. -/
def State.blank : State :=
  { skb := fun _ => Rtskb.zero, queue := fun _ => { first := none, last := none, pool_balance := 0 },
    mem := fun _ => 0, rtskb_pools := 0, rtskb_pools_max := 0, rtskb_amount := 0,
    rtskb_amount_max := 0 }

/-- A descriptor owned by `pool`, a single-element chain, whose storage starts
at `buf` and which still carries the window `[buf + 16, buf + 116)` of its last
use. -/
def Rtskb.sample (self pool buf : Nat) (next : Option Nat) : Rtskb :=
  { Rtskb.zero with
    next := next
    chain_end := self
    pool := some pool
    buf_start := buf
    data := buf + 16
    tail := buf + 116
    end_ := buf + 1552
    len := 100
    chain_len := 1 }

/-- Sample state: pool 1 holds the free list `[10, 11]` (descriptor 10 still
carries the chain fields of a two-element chain), pool 2 holds `[20]`, pool 3
is empty, pool 4 holds `[40, 41]` with nothing allocated, and the descriptors
30 (owner 1), 31 (owner 2), 32 (owner 1), 33 and 34 (owner 3) are in flight. -/
def sampleState : State :=
  ((((((((((((((State.blank.setSkb 10
    (fun _ => { Rtskb.sample 10 1 10000 (some 11) with chain_end := 11, chain_len := 2 })).setSkb 11
    (fun _ => Rtskb.sample 11 1 11000 none)).setSkb 20
    (fun _ => Rtskb.sample 20 2 20000 none)).setSkb 30
    (fun _ => Rtskb.sample 30 1 30000 none)).setSkb 31
    (fun _ => Rtskb.sample 31 2 31000 none)).setSkb 32
    (fun _ => Rtskb.sample 32 1 32000 none)).setQueue 1
    (fun _ => { first := some 10, last := some 11, pool_balance := -2 })).setQueue 2
    (fun _ => { first := some 20, last := some 20, pool_balance := -1 })).setSkb 40
    (fun _ => Rtskb.sample 40 4 40000 (some 41))).setSkb 41
    (fun _ => Rtskb.sample 41 4 41000 none)).setQueue 4
    (fun _ => { first := some 40, last := some 41, pool_balance := 0 })).setSkb 33
    (fun _ => Rtskb.sample 33 3 33000 none)).setSkb 34
    (fun _ => Rtskb.sample 34 3 34000 none)).setQueue 3
    (fun _ => { first := none, last := none, pool_balance := -2 }))

/-- The sample state after the capture hook has marked descriptor 30 (owner:
pool 1) as shared, with the in-flight descriptor 60 (owner: pool 2) as its
companion. -/
def sampleShared : State :=
  (sampleState.setSkb 60 (fun _ => Rtskb.sample 60 2 60000 none)).setSkb 30
    (fun k => { k with cap_flags := RTSKB_CAP_SHARED, cap_comp_skb := 60 })

/-- The sample state with the in-flight descriptors linked into the chain
`30 -> 31 -> 32`: the head 30 names 32 as its `chain_end`. -/
def sampleChain : State :=
  (sampleState.setSkb 30
    (fun k => { k with next := some 31, chain_end := 32, chain_len := 3 })).setSkb 31
    (fun k => { k with next := some 32 })

/-- The four builds of the sample configuration (capacity 1552 bytes). -/
def sampleCfg (checked rtcap : Bool) : Config :=
  { checked := checked, rtcap := rtcap, capacity := 1552, struct_len := 64 }

/-! ## Pool lifecycle -/

/-- The C statement `x++` on an `unsigned int` statistics counter. -/
def inc32 (x : Nat) : Nat := (x + 1) % 4294967296

/-- The C statement `x--` on an `unsigned int` statistics counter. -/
def dec32 (x : Nat) : Nat := (x + 4294967295) % 4294967296

/-- The statements `rtskb_amount++; if (rtskb_amount > rtskb_amount_max)
rtskb_amount_max = rtskb_amount;`. -/
def State.amountInc (s : State) : State :=
  { s with
    rtskb_amount := inc32 s.rtskb_amount
    rtskb_amount_max :=
      if inc32 s.rtskb_amount > s.rtskb_amount_max then inc32 s.rtskb_amount
      else s.rtskb_amount_max }

/-- The statement `rtskb_amount--`. -/
def State.amountDec (s : State) : State :=
  { s with rtskb_amount := dec32 s.rtskb_amount }

/-- The statements `rtskb_pools++; if (rtskb_pools > rtskb_pools_max)
rtskb_pools_max = rtskb_pools;`. -/
def State.poolsInc (s : State) : State :=
  { s with
    rtskb_pools := inc32 s.rtskb_pools
    rtskb_pools_max :=
      if inc32 s.rtskb_pools > s.rtskb_pools_max then inc32 s.rtskb_pools
      else s.rtskb_pools_max }

/-- The statement `rtskb_pools--`. -/
def State.poolsDec (s : State) : State :=
  { s with rtskb_pools := dec32 s.rtskb_pools }

/-- The address of the static queue `rtskb_cache`, the Reserve Cache. -/
def rtskb_cache : Nat := 0

/-- The kernel call `kmem_cache_alloc(rtskb_slab_pool, GFP_KERNEL)`.  The slab
allocator is not part of the repository; its behaviour is a parameter: `slab`
lists the outcomes of the coming calls, a pointer to a new object or `NULL`,
and a call past the end of the list fails. -/
def kmem_cache_alloc (slab : List (Option Nat)) : Option Nat × List (Option Nat) :=
  match slab with
  | [] => (none, [])
  | r :: rest => (r, rest)

/-- The `for` loop of `rtskb_pool_extend` with `k` passes to go and the loop
counter at `i`. -/
def rtskb_pool_extend_loop (cfg : Config) (pool : Nat) :
    Nat → Nat → List (Option Nat) → State → Except Fault (Nat × List (Option Nat) × State)
  | 0, i, slab, s => .ok (i, slab, s)
  | k + 1, i, slab, s =>
    match kmem_cache_alloc slab with
    | (none, slab1) => .ok (i, slab1, s)
    | (some skb, slab1) =>
      let s1 := s.setSkb skb (fun _ => Rtskb.zero)
      let s2 := s1.setSkb skb (fun k => { k with chain_end := skb })
      let s3 := s2.setSkb skb (fun k => { k with pool := some pool })
      let s4 := s3.setSkb skb (fun k => { k with buf_start := skb + cfg.struct_len })
      let s5 :=
        if cfg.checked then
          s4.setSkb skb (fun k => { k with buf_end := k.buf_start + cfg.capacity - 1 })
        else s4
      match rtskb_queue_tail pool skb s5 with
      | .error e => .error e
      | .ok s6 => rtskb_pool_extend_loop cfg pool k (i + 1) slab1 s6.amountInc

/-- Function `rtskb_pool_extend(pool, add_rtskbs)` for a non-null `pool`: the
return value, the allocator outcomes not yet used, and the new state. -/
def rtskb_pool_extend (cfg : Config) (pool add_rtskbs : Nat) (slab : List (Option Nat))
    (s : State) : Except Fault (Nat × List (Option Nat) × State) :=
  rtskb_pool_extend_loop cfg pool add_rtskbs 0 slab s

/-- The `for` loop of `rtskb_pool_extend_rt` with `k` passes to go and the loop
counter at `i`. -/
def rtskb_pool_extend_rt_loop (pool : Nat) : Nat → Nat → State → Except Fault (Nat × State)
  | 0, i, s => .ok (i, s)
  | k + 1, i, s =>
    match rtskb_dequeue rtskb_cache s with
    | (none, s1) => .ok (i, s1)
    | (some skb, s1) =>
      let s2 := s1.setSkb skb (fun k => { k with chain_end := skb })
      let s3 := s2.setSkb skb (fun k => { k with pool := some pool })
      match rtskb_queue_tail pool skb s3 with
      | .error e => .error e
      | .ok s4 => rtskb_pool_extend_rt_loop pool k (i + 1) s4.amountInc

/-- Function `rtskb_pool_extend_rt(pool, add_rtskbs)` for a non-null `pool`. -/
def rtskb_pool_extend_rt (pool add_rtskbs : Nat) (s : State) : Except Fault (Nat × State) :=
  rtskb_pool_extend_rt_loop pool add_rtskbs 0 s

/-- The first statements of `rtskb_pool_init` and `rtskb_pool_init_rt`: the
queue is initialised and, in the checked build, its balance is cleared. -/
def pool_init_head (cfg : Config) (pool : Nat) (s : State) : State :=
  if cfg.checked then
    (rtskb_queue_init pool s).setQueue pool (fun Q => { Q with pool_balance := 0 })
  else rtskb_queue_init pool s

/-- Function `rtskb_pool_init(pool, initial_size)`. -/
def rtskb_pool_init (cfg : Config) (pool initial_size : Nat) (slab : List (Option Nat))
    (s : State) : Except Fault (Nat × List (Option Nat) × State) :=
  match rtskb_pool_extend cfg pool initial_size slab (pool_init_head cfg pool s) with
  | .error e => .error e
  | .ok (i, slab1, s1) => .ok (i, slab1, s1.poolsInc)

/-- Function `rtskb_pool_init_rt(pool, initial_size)`. -/
def rtskb_pool_init_rt (cfg : Config) (pool initial_size : Nat) (s : State) :
    Except Fault (Nat × State) :=
  match rtskb_pool_extend_rt pool initial_size (pool_init_head cfg pool s) with
  | .error e => .error e
  | .ok (i, s1) => .ok (i, s1.poolsInc)

/-- The `while` loop of `__rtskb_pool_release`; one unit of fuel pays for one
call of `rtskb_dequeue`.  `kmem_cache_free` hands the object back to the
kernel and changes nothing in the state. -/
def rtskb_pool_release_loop (pool : Nat) : Nat → State → Except Fault State
  | 0, _ => .error .outOfFuel
  | fuel + 1, s =>
    match rtskb_dequeue pool s with
    | (none, s1) => .ok s1
    | (some _, s1) => rtskb_pool_release_loop pool fuel s1.amountDec

/-- Function `__rtskb_pool_release(pool)`. -/
def __rtskb_pool_release (fuel pool : Nat) (s : State) : Except Fault State :=
  match rtskb_pool_release_loop pool fuel s with
  | .error e => .error e
  | .ok s1 => .ok s1.poolsDec

/-- The `for` loop of `rtskb_pool_shrink` with `k` passes to go and the loop
counter at `i`. -/
def rtskb_pool_shrink_loop (pool : Nat) : Nat → Nat → State → Nat × State
  | 0, i, s => (i, s)
  | k + 1, i, s =>
    match rtskb_dequeue pool s with
    | (none, s1) => (i, s1)
    | (some _, s1) => rtskb_pool_shrink_loop pool k (i + 1) s1.amountDec

/-- Function `rtskb_pool_shrink(pool, rem_rtskbs)`. -/
def rtskb_pool_shrink (pool rem_rtskbs : Nat) (s : State) : Nat × State :=
  rtskb_pool_shrink_loop pool rem_rtskbs 0 s

/-- The `for` loop of `rtskb_pool_shrink_rt` with `k` passes to go and the loop
counter at `i`. -/
def rtskb_pool_shrink_rt_loop (pool : Nat) : Nat → Nat → State → Except Fault (Nat × State)
  | 0, i, s => .ok (i, s)
  | k + 1, i, s =>
    match rtskb_dequeue pool s with
    | (none, s1) => .ok (i, s1)
    | (some skb, s1) =>
      let s2 := s1.setSkb skb (fun k => { k with chain_end := skb })
      match rtskb_queue_tail rtskb_cache skb s2 with
      | .error e => .error e
      | .ok s3 => rtskb_pool_shrink_rt_loop pool k (i + 1) s3.amountDec

/-- Function `rtskb_pool_shrink_rt(pool, rem_rtskbs)`. -/
def rtskb_pool_shrink_rt (pool rem_rtskbs : Nat) (s : State) : Except Fault (Nat × State) :=
  rtskb_pool_shrink_rt_loop pool rem_rtskbs 0 s

/-- The descriptors a loop of `n` allocation requests obtains from the
allocator outcomes `slab` when it stops at the first failure. -/
def granted : Nat → List (Option Nat) → List Nat
  | 0, _ => []
  | _ + 1, [] => []
  | _ + 1, none :: _ => []
  | n + 1, some d :: rest => d :: granted n rest

/-! ## `rtskb_clone` -/

/-- A pointer moved by a signed difference of pointers. -/
def ptrAdd (p : Nat) (d : Int) : Nat := ((p : Int) + d).toNat

/-- The C library call `memcpy(dst, src, n)` on regions that do not overlap:
byte `i` of the destination becomes the old byte `i` of the source. -/
def memcpy (mem : Nat → Nat) (dst src n : Nat) : Nat → Nat :=
  fun a => if dst ≤ a ∧ a < dst + n then mem (src + (a - dst)) else mem a

/-- The initialiser `data_offs = rtskb->data - rtskb->mac.raw`, a difference of
pointers stored in an `unsigned int`. -/
def clone_data_offs (k : Rtskb) : Nat := (((k.data : Int) - (k.mac_raw : Int)) % 4294967296).toNat

/-- The initialiser `total_len = rtskb->len + data_offs` in `unsigned int`. -/
def clone_total_len (k : Rtskb) : Nat := (k.len + clone_data_offs k) % 4294967296

/-- Function `rtskb_clone(rtskb, pool)` (present under
`CONFIG_RTNET_ETH_P_ALL`): the returned pointer and the new state.  Every
statement reads the state its predecessor left. -/
def rtskb_clone (cfg : Config) (rtskb pool : Nat) (s : State) : Option Nat × State :=
  let data_offs := clone_data_offs (s.skb rtskb)
  let total_len := clone_total_len (s.skb rtskb)
  match alloc_rtskb cfg total_len pool s with
  | (none, s0) => (none, s0)
  | (some c, s0) =>
    let s1 := s0.setSkb c (fun k => { k with priority := (s0.skb rtskb).priority })
    let s2 := s1.setSkb c (fun k => { k with rtdev := (s1.skb rtskb).rtdev })
    let s3 := s2.setSkb c (fun k => { k with time_stamp := (s2.skb rtskb).time_stamp })
    let s4 := s3.setSkb c (fun k => { k with mac_raw := k.data })
    let s5 := s4.setSkb c (fun k => { k with nh_raw := k.data })
    let s6 := s5.setSkb c (fun k => { k with h_raw := k.data })
    let s7 := s6.setSkb c (fun k => { k with data := k.data + data_offs })
    let s8 := s7.setSkb c (fun k =>
      { k with nh_raw := ptrAdd k.nh_raw (((s7.skb rtskb).data : Int) - (s7.skb rtskb).nh_raw) })
    let s9 := s8.setSkb c (fun k =>
      { k with h_raw := ptrAdd k.h_raw (((s8.skb rtskb).data : Int) - (s8.skb rtskb).h_raw) })
    let s10 := s9.setSkb c (fun k => { k with protocol := (s9.skb rtskb).protocol })
    let s11 := s10.setSkb c (fun k => { k with pkt_type := (s10.skb rtskb).pkt_type })
    let s12 := s11.setSkb c (fun k => { k with ip_summed := (s11.skb rtskb).ip_summed })
    let s13 := s12.setSkb c (fun k => { k with csum := (s12.skb rtskb).csum })
    let s14 : State :=
      { s13 with mem := memcpy s13.mem (s13.skb c).mac_raw (s13.skb rtskb).mac_raw total_len }
    (some c, s14.setSkb c (fun k => { k with len := (s14.skb rtskb).len }))

/-- The sample state with a Reserve Cache of four descriptors, `[70, 71, 72,
73]`, each owned by the cache. -/
def sampleCache : State :=
  ((((sampleState.setSkb 70 (fun _ => Rtskb.sample 70 rtskb_cache 70000 (some 71))).setSkb 71
    (fun _ => Rtskb.sample 71 rtskb_cache 71000 (some 72))).setSkb 72
    (fun _ => Rtskb.sample 72 rtskb_cache 72000 (some 73))).setSkb 73
    (fun _ => Rtskb.sample 73 rtskb_cache 73000 none)).setQueue rtskb_cache
    (fun _ => { first := some 70, last := some 73, pool_balance := 0 })

/-- The sample state with its Reserve Cache and with statistics that count the
ten descriptors and four pools outside the cache. -/
def sampleCounted : State :=
  { sampleCache with
    rtskb_pools := 4
    rtskb_pools_max := 4
    rtskb_amount := 10
    rtskb_amount_max := 10 }

/-- The sample state with descriptor 30 holding a received frame: the MAC
header starts at 30002, the payload window is `[30016, 30116)`, and the byte
at address `a` is `a % 251`. -/
def samplePacket : State :=
  { sampleState.setSkb 30
      (fun k => { k with mac_raw := 30002, nh_raw := 30016, h_raw := 30036, priority := 3, time_stamp := 777, protocol := 8, pkt_type := 2 }) with
    mem := fun a => a % 251 }

/-- The address of the exported queue `global_pool`. -/
def global_pool : Nat := 1

/-- Modelled from the spec: the macro `rtskb_pool_release(pool)` (rtskb.h is
not among the sources).  "`pool_release`: drains entire pool back to general
allocator": it is the call `__rtskb_pool_release(pool)`. -/
def rtskb_pool_release (fuel pool : Nat) (s : State) : Except Fault State :=
  __rtskb_pool_release fuel pool s

/-- The four assignments `rtskb_pools = 0; rtskb_pools_max = 0; rtskb_amount =
0; rtskb_amount_max = 0;` of `rtskb_pools_init`. -/
def State.resetStatistics (s : State) : State :=
  { s with rtskb_pools := 0, rtskb_pools_max := 0, rtskb_amount := 0, rtskb_amount_max := 0 }

/-- Function `rtskb_pools_init()`.  The module parameters `rtskb_cache_size`
and `global_rtskbs` and the pointer `rtskb_slab_pool` that
`kmem_cache_create` returns (`none` is `NULL`) are arguments; `slab` lists the
outcomes of the coming calls of `kmem_cache_alloc`, and `fuel` bounds each run
of the release loop on the exit `err_out2`.  The result is the C return value,
the allocator outcomes not yet used, and the new state; `kmem_cache_destroy`
and `rtdm_lock_init` change nothing in the state. -/
def rtskb_pools_init (cfg : Config) (rtskb_cache_size global_rtskbs : Nat)
    (rtskb_slab_pool : Option Nat) (fuel : Nat) (slab : List (Option Nat)) (s : State) :
    Except Fault (Int × List (Option Nat) × State) :=
  match rtskb_slab_pool with
  | none => .ok (-ENOMEM, slab, s)
  | some _ =>
    match rtskb_pool_init cfg rtskb_cache rtskb_cache_size slab s with
    | .error e => .error e
    | .ok (i, slab1, s1) =>
      if i < rtskb_cache_size then
        -- goto err_out1
        .ok (-ENOMEM, slab1, s1)
      else
        let s2 := s1.resetStatistics
        match rtskb_pool_init cfg global_pool global_rtskbs slab1 s2 with
        | .error e => .error e
        | .ok (j, slab2, s3) =>
          if j < global_rtskbs then
            -- goto err_out2
            match rtskb_pool_release fuel global_pool s3 with
            | .error e => .error e
            | .ok s4 =>
              match rtskb_pool_release fuel rtskb_cache s4 with
              | .error e => .error e
              | .ok s5 => .ok (-ENOMEM, slab2, s5)
          else .ok (0, slab2, s3)

/-- Function `rtskb_pools_release()`. -/
def rtskb_pools_release (fuel : Nat) (s : State) : Except Fault State :=
  match rtskb_pool_release fuel global_pool s with
  | .error e => .error e
  | .ok s1 => rtskb_pool_release fuel rtskb_cache s1

/-! ## The allocator and its clients as a transition system -/

/-- The first `k` descriptors met when walking `next` from pointer `p`. -/
def takeChain (nx : Nat → Option Nat) : Nat → Option Nat → List Nat
  | 0, _ => []
  | _ + 1, none => []
  | k + 1, some d => d :: takeChain nx k (nx d)

/-- The allocator together with what its environment knows: the machine state
`s`, the pools created so far, the descriptors in flight (allocated and not
yet freed), and the descriptors currently obtained from the kernel. -/
structure Sys where
  s : State
  pools : List Nat
  out : List Nat
  live : List Nat

/-- The calls the drivers, the stack and the capture consumer make. -/
inductive SysOp where
  | create (pool n : Nat) (slab : List (Option Nat))
  | create_rt (pool n : Nat)
  | alloc (size pool : Nat)
  | free (d : Nat)
  | acquire (d comp_pool : Nat)
  | extend (pool n : Nat) (slab : List (Option Nat))
  | extend_rt (pool n : Nat)
  | shrink (pool n : Nat)
  | shrink_rt (pool n : Nat)

/-- Before any pool exists: no pool, nothing in flight, nothing obtained from
the kernel. -/
def Sys.start (s : State) : Sys := { s := s, pools := [], out := [], live := [] }

/-- What the kernel allocator guarantees for the objects it hands out in one
run of `n` requests: they are distinct, and none is an object it has handed
out before and not got back. -/
def Sys.fresh (st : Sys) (n : Nat) (slab : List (Option Nat)) : Prop :=
  (granted n slab).Nodup ∧ ∀ d ∈ granted n slab, d ∉ st.live

instance (st : Sys) (n : Nat) (slab : List (Option Nat)) : Decidable (st.fresh n slab) :=
  inferInstanceAs (Decidable (_ ∧ _))

/-- One call.  A call outside the contract of the interface is no step and
leaves the system as it is: creating a pool twice, using a pool that was not
created, freeing or acquiring a descriptor that is not in flight, a
real-time variant on the Reserve Cache itself or before the cache exists, and
an allocator outcome that is not fresh.  Function `kfree_rtskb` runs with the
fuel for one pass of its loop, which is what a single descriptor takes. -/
def sysStep (cfg : Config) (op : SysOp) (st : Sys) : Except Fault Sys :=
  match op with
  | .create pool n slab =>
    if pool ∉ st.pools ∧ st.fresh n slab then
      match rtskb_pool_init cfg pool n slab st.s with
      | .ok (_, _, s1) =>
        .ok { st with s := s1, pools := pool :: st.pools, live := st.live ++ granted n slab }
      | .error e => .error e
    else .ok st
  | .create_rt pool n =>
    if pool ∉ st.pools ∧ pool ≠ rtskb_cache ∧ rtskb_cache ∈ st.pools then
      match rtskb_pool_init_rt cfg pool n st.s with
      | .ok (_, s1) => .ok { st with s := s1, pools := pool :: st.pools }
      | .error e => .error e
    else .ok st
  | .alloc size pool =>
    if pool ∈ st.pools then
      match alloc_rtskb cfg size pool st.s with
      | (some d, s1) => .ok { st with s := s1, out := d :: st.out }
      | (none, s1) => .ok { st with s := s1 }
    else .ok st
  | .free d =>
    if d ∈ st.out then
      match kfree_rtskb cfg 1 d st.s with
      | .ok s1 => .ok { st with s := s1, out := st.out.erase d }
      | .error e => .error e
    else .ok st
  | .acquire d comp_pool =>
    if d ∈ st.out ∧ comp_pool ∈ st.pools then
      match rtskb_acquire cfg d comp_pool st.s with
      | .ok (_, s1) => .ok { st with s := s1 }
      | .error e => .error e
    else .ok st
  | .extend pool n slab =>
    if pool ∈ st.pools ∧ st.fresh n slab then
      match rtskb_pool_extend cfg pool n slab st.s with
      | .ok (_, _, s1) => .ok { st with s := s1, live := st.live ++ granted n slab }
      | .error e => .error e
    else .ok st
  | .extend_rt pool n =>
    if pool ∈ st.pools ∧ pool ≠ rtskb_cache ∧ rtskb_cache ∈ st.pools then
      match rtskb_pool_extend_rt pool n st.s with
      | .ok (_, s1) => .ok { st with s := s1 }
      | .error e => .error e
    else .ok st
  | .shrink pool n =>
    if pool ∈ st.pools then
      .ok { st with
        s := (rtskb_pool_shrink pool n st.s).2
        live := st.live.filter
          (fun x => decide (x ∉ takeChain st.s.nextOf n (st.s.queue pool).first)) }
    else .ok st
  | .shrink_rt pool n =>
    if pool ∈ st.pools ∧ pool ≠ rtskb_cache ∧ rtskb_cache ∈ st.pools then
      match rtskb_pool_shrink_rt pool n st.s with
      | .ok (_, s1) => .ok { st with s := s1 }
      | .error e => .error e
    else .ok st

/-- A finite sequence of calls, run from left to right. -/
def runSys (cfg : Config) : List SysOp → Sys → Except Fault Sys
  | [], st => .ok st
  | op :: ops, st =>
    match sysStep cfg op st with
    | .ok st1 => runSys cfg ops st1
    | .error e => .error e

/-- The membership invariant with its supporting facts.  `fl p` is the free
list of pool `p`; the free lists of different pools share no descriptor (each
list is duplicate-free by `IsQueue`); the in-flight descriptors are distinct
and in no free list; the descriptors obtained from the kernel are exactly the
free and the in-flight ones; each of them names a created pool as its owner;
and every in-flight descriptor is a single-element chain whose share flag is
clear. -/
def MemberInv (cfg : Config) (st : Sys) : Prop :=
  ∃ fl : Nat → List Nat,
    (∀ p ∈ st.pools, IsQueue st.s p (fl p)) ∧
    (∀ p ∈ st.pools, ∀ q ∈ st.pools, p ≠ q → ∀ x ∈ fl p, x ∉ fl q) ∧
    st.out.Nodup ∧
    (∀ d ∈ st.out, ∀ p ∈ st.pools, d ∉ fl p) ∧
    (∀ d, d ∈ st.live ↔ (d ∈ st.out ∨ ∃ p ∈ st.pools, d ∈ fl p)) ∧
    (∀ d ∈ st.live, ∃ q ∈ st.pools, (st.s.skb d).pool = some q) ∧
    (∀ d ∈ st.out, (st.s.skb d).chain_end = d ∧
      (cfg.rtcap = true → (st.s.skb d).cap_flags &&& RTSKB_CAP_SHARED = 0))

/-- A sample run: the Reserve Cache `[70, 71, 72]` and pool 5 `[80, 81]` are
created, pool 6 is created from the cache (it takes 70), descriptor 80 is
allocated from pool 5, handed over to pool 6 and freed, descriptor 81 is
allocated, pool 5 returns one descriptor to the cache, and pool 6 grows by
the new descriptor 90 and then gives its head back to the kernel. -/
def sampleRun : List SysOp :=
  [.create rtskb_cache 3 [some 70, some 71, some 72], .create 5 2 [some 80, some 81],
    .create_rt 6 1, .alloc 64 5, .acquire 80 6, .free 80, .alloc 64 5, .shrink_rt 5 1,
    .extend 6 1 [some 90], .shrink 6 1]

/-! ## Basic facts about the field updates -/

@[simp] theorem setSkb_skb (s : State) (d : Nat) (f : Rtskb → Rtskb) (x : Nat) :
    (s.setSkb d f).skb x = if x = d then f (s.skb d) else s.skb x := by
  by_cases h : x = d
  · subst h; simp [State.setSkb]
  · simp [State.setSkb, Function.update_noteq h, h]

@[simp] theorem setSkb_queue (s : State) (d : Nat) (f : Rtskb → Rtskb) :
    (s.setSkb d f).queue = s.queue := rfl

@[simp] theorem setQueue_skb (s : State) (q : Nat) (f : RtskbQueue → RtskbQueue) :
    (s.setQueue q f).skb = s.skb := rfl

@[simp] theorem setQueue_queue (s : State) (q : Nat) (f : RtskbQueue → RtskbQueue) (x : Nat) :
    (s.setQueue q f).queue x = if x = q then f (s.queue q) else s.queue x := by
  by_cases h : x = q
  · subst h; simp [State.setQueue]
  · simp [State.setQueue, Function.update_noteq h, h]

@[simp] theorem addBalance_skb (s : State) (q : Nat) (n : Int) :
    (s.addBalance q n).skb = s.skb := rfl

@[simp] theorem addBalance_queue (s : State) (q : Nat) (n : Int) (x : Nat) :
    (s.addBalance q n).queue x =
      if x = q then { s.queue q with pool_balance := (s.queue q).pool_balance + n }
      else s.queue x := by
  simp [State.addBalance]

@[simp] theorem setSkb_nextOf (s : State) (d : Nat) (f : Rtskb → Rtskb) (x : Nat) :
    (s.setSkb d f).nextOf x = if x = d then (f (s.skb d)).next else s.nextOf x := by
  by_cases h : x = d <;> simp [State.nextOf, h]

@[simp] theorem setQueue_nextOf (s : State) (q : Nat) (f : RtskbQueue → RtskbQueue) :
    (s.setQueue q f).nextOf = s.nextOf := rfl

@[simp] theorem addBalance_nextOf (s : State) (q : Nat) (n : Int) :
    (s.addBalance q n).nextOf = s.nextOf := rfl

/-! ## Pointer chains -/

theorem chainSeg_congr {nx nx1 : Nat → Option Nat} :
    ∀ (L : List Nat) (p e : Option Nat), (∀ d ∈ L, nx1 d = nx d) →
      chainSeg nx p L e → chainSeg nx1 p L e
  | [], _, _, _, h => h
  | d :: L, p, e, hag, h => by
    refine ⟨h.1, ?_⟩
    rw [hag d (List.mem_cons_self d L)]
    exact chainSeg_congr L _ e (fun x hx => hag x (List.mem_cons_of_mem d hx)) h.2

theorem chainSeg_append (nx : Nat → Option Nat) :
    ∀ (L M : List Nat) (p e : Option Nat),
      chainSeg nx p (L ++ M) e ↔ ∃ r, chainSeg nx p L r ∧ chainSeg nx r M e
  | [], M, p, e => by
    constructor
    · intro h; exact ⟨p, rfl, h⟩
    · rintro ⟨r, hr, h⟩
      have : p = r := hr
      subst this; exact h
  | d :: L, M, p, e => by
    have ih := chainSeg_append nx L M (nx d) e
    show (p = some d ∧ chainSeg nx (nx d) (L ++ M) e) ↔
      ∃ r, (p = some d ∧ chainSeg nx (nx d) L r) ∧ chainSeg nx r M e
    rw [ih]
    constructor
    · rintro ⟨hp, r, h1, h2⟩; exact ⟨r, ⟨hp, h1⟩, h2⟩
    · rintro ⟨r, ⟨hp, h1⟩, h2⟩; exact ⟨hp, r, h1, h2⟩

theorem chainSeg_snoc {nx : Nat → Option Nat} (L : List Nat) (l : Nat) (p e : Option Nat) :
    chainSeg nx p (L ++ [l]) e ↔ chainSeg nx p L (some l) ∧ nx l = e := by
  rw [chainSeg_append]
  constructor
  · rintro ⟨r, h1, h2, h3⟩
    have h3 : nx l = e := h3
    subst h2; exact ⟨h1, h3⟩
  · rintro ⟨h1, h2⟩; exact ⟨some l, h1, rfl, h2⟩

/-- A chain determines its list: two lists read off the same pointers from the
same start to `NULL` are equal. -/
theorem chainSeg_unique {nx : Nat → Option Nat} :
    ∀ (L M : List Nat) (p : Option Nat), chainSeg nx p L none → chainSeg nx p M none → L = M
  | [], [], _, _, _ => rfl
  | [], d :: M, p, h1, h2 => by
    have h1 : p = none := h1
    have := h2.1
    rw [h1] at this; cases this
  | d :: L, [], p, h1, h2 => by
    have h2 : p = none := h2
    have := h1.1
    rw [h2] at this; cases this
  | d :: L, d1 :: M, p, h1, h2 => by
    have e : some d = some d1 := h1.1.symm.trans h2.1
    cases e
    rw [chainSeg_unique L M (nx d) h1.2 h2.2]

/-- A chain that reaches `NULL` lists no descriptor twice. -/
theorem chainSeg_nodup {nx : Nat → Option Nat} :
    ∀ (L : List Nat) (p : Option Nat), chainSeg nx p L none → L.Nodup
  | [], _, _ => List.nodup_nil
  | d :: L, p, h => by
    refine List.nodup_cons.mpr ⟨?_, chainSeg_nodup L (nx d) h.2⟩
    intro hd
    obtain ⟨A, B, rfl⟩ := List.append_of_mem hd
    obtain ⟨r, _, hr⟩ := (chainSeg_append nx A (d :: B) (nx d) none).1 h.2
    have hB : chainSeg nx (nx d) B none := hr.2
    have := congrArg List.length (chainSeg_unique B (A ++ d :: B) (nx d) hB h.2)
    simp only [List.length_append, List.length_cons] at this
    omega

/-- Redirecting the `next` of the final entry of a chain. -/
theorem chainSeg_set_last {nx nx1 : Nat → Option Nat} (L : List Nat) (l : Nat)
    (p e e1 : Option Nat) (h : chainSeg nx p (L ++ [l]) e) (hl : nx1 l = e1)
    (ho : ∀ x ∈ L, nx1 x = nx x) : chainSeg nx1 p (L ++ [l]) e1 := by
  rw [chainSeg_snoc] at h ⊢
  exact ⟨chainSeg_congr L p (some l) ho h.1, hl⟩

/-- A non-empty list ends in its `getLast?`. -/
theorem list_snoc_of_getLast {L : List Nat} {l : Nat} (h : L.getLast? = some l) :
    ∃ L0, L = L0 ++ [l] :=
  ⟨L.dropLast, (List.dropLast_append_getLast? l (by simp [h])).symm⟩

/-! ## Free lists and the queue primitives -/

theorem isQueue_nil_iff (s : State) (q : Nat) :
    IsQueue s q [] ↔ (s.queue q).first = none := by
  simp [IsQueue, chainSeg]

/-- The duplicate-freeness recorded in `IsQueue` is no extra assumption: it
follows from the pointers. -/
theorem isQueue_of_pointers {s : State} {q : Nat} {L : List Nat}
    (h : chainSeg s.nextOf (s.queue q).first L none)
    (hl : L ≠ [] → (s.queue q).last = L.getLast?) : IsQueue s q L :=
  ⟨h, chainSeg_nodup L _ h, hl⟩

theorem isQueue_unique {s : State} {q : Nat} {L M : List Nat}
    (h1 : IsQueue s q L) (h2 : IsQueue s q M) : L = M :=
  chainSeg_unique L M _ h1.1 h2.1

/-- A free list survives any step that leaves its queue header and the `next`
of its members alone. -/
theorem isQueue_frame {s s1 : State} {q : Nat} {M : List Nat}
    (hq : s1.queue q = s.queue q) (hn : ∀ d ∈ M, s1.nextOf d = s.nextOf d)
    (h : IsQueue s q M) : IsQueue s1 q M := by
  refine ⟨?_, h.2.1, ?_⟩
  · rw [hq]; exact chainSeg_congr M _ _ hn h.1
  · rw [hq]; exact h.2.2

theorem rtskb_dequeue_cons {s : State} {q d : Nat} {L : List Nat}
    (h : IsQueue s q (d :: L)) :
    rtskb_dequeue q s =
      (some d, (s.setQueue q (fun Q => { Q with first := (s.skb d).next })).setSkb d
        (fun k => { k with next := none })) := by
  have hf : (s.queue q).first = some d := h.1.1
  simp [rtskb_dequeue, hf]

theorem isQueue_dequeue {s : State} {q d : Nat} {L : List Nat}
    (h : IsQueue s q (d :: L)) : IsQueue (rtskb_dequeue q s).2 q L := by
  rw [rtskb_dequeue_cons h]
  have hnd : d ∉ L := (List.nodup_cons.mp h.2.1).1
  refine ⟨?_, (List.nodup_cons.mp h.2.1).2, ?_⟩
  · simp only [setSkb_queue, setQueue_queue, if_true]
    refine chainSeg_congr L _ _ ?_ h.1.2
    intro x hx
    have : x ≠ d := fun e => hnd (e ▸ hx)
    simp [this, State.nextOf]
  · intro hne
    have := h.2.2 (by simp)
    simp only [setSkb_queue, setQueue_queue, if_true]
    rw [this]
    cases L with
    | nil => exact absurd rfl hne
    | cons b L0 => exact List.getLast?_cons_cons

theorem dequeue_frame {s : State} {q d : Nat} {L : List Nat} (h : IsQueue s q (d :: L))
    {q1 : Nat} {M : List Nat} (hne : q1 ≠ q) (hM : IsQueue s q1 M) (hd : d ∉ M) :
    IsQueue (rtskb_dequeue q s).2 q1 M := by
  rw [rtskb_dequeue_cons h]
  refine isQueue_frame ?_ ?_ hM
  · simp [hne]
  · intro x hx
    have : x ≠ d := fun e => hd (e ▸ hx)
    simp [this]

/-- What `rtskb_queue_tail` does to a well-formed queue: the chain `M` that
starts at `d` and ends at `d->chain_end` is appended behind the free list. -/
theorem queue_tail_spec {s : State} {q d : Nat} {L M : List Nat} {e : Option Nat}
    (hq : IsQueue s q L) (hM : chainSeg s.nextOf (some d) M e)
    (hce : M.getLast? = some (s.skb d).chain_end) (hnd : (L ++ M).Nodup) :
    ∃ s1, rtskb_queue_tail q d s = .ok s1 ∧ IsQueue s1 q (L ++ M) ∧
      (∀ x, (s1.skb x).noNext = (s.skb x).noNext) ∧
      (∀ x, x ∉ L → x ≠ (s.skb d).chain_end → s1.nextOf x = s.nextOf x) ∧
      (∀ x, x ≠ q → s1.queue x = s.queue x) ∧
      (s1.queue q).pool_balance = (s.queue q).pool_balance ∧
      s1.nextOf (s.skb d).chain_end = none := by
  obtain ⟨M0, rfl⟩ := list_snoc_of_getLast hce
  generalize hcedef : (s.skb d).chain_end = ce at *
  have hceL : ce ∉ L := by
    intro hx
    exact List.disjoint_of_nodup_append hnd hx (by simp)
  have hceM0 : ce ∉ M0 := by
    have := (List.nodup_append.mp hnd).2.1
    intro hx
    exact List.disjoint_of_nodup_append this hx (by simp)
  by_cases hL : L = []
  · subst hL
    have hf : (s.queue q).first = none := (isQueue_nil_iff s q).1 hq
    refine ⟨(s.setSkb ce (fun k => { k with next := none })).setQueue q
      (fun Q => { Q with first := some d, last := some ce }), ?_, ?_, ?_, ?_, ?_, ?_, ?_⟩
    · simp [rtskb_queue_tail, hcedef, hf]
    · refine ⟨?_, by simpa using hnd, ?_⟩
      · simp only [setQueue_queue, if_true, List.nil_append, setQueue_nextOf]
        refine chainSeg_set_last M0 ce _ e none hM (by simp) ?_
        intro x hx
        have : x ≠ ce := fun h => hceM0 (h ▸ hx)
        simp [this]
      · intro _; simp
    · intro x; by_cases hx : x = ce <;> simp [hx, Rtskb.noNext]
    · intro x _ hx; simp [hx]
    · intro x hx; simp [hx]
    · simp
    · simp
  · obtain ⟨l, hl⟩ : ∃ l, L.getLast? = some l := by
      cases h : L.getLast? with
      | none => exact absurd (List.getLast?_eq_none_iff.mp h) hL
      | some l => exact ⟨l, rfl⟩
    obtain ⟨L0, rfl⟩ := list_snoc_of_getLast hl
    have hlast : (s.queue q).last = some l := by rw [hq.2.2 hL, hl]
    obtain ⟨a, hf⟩ : ∃ a, (s.queue q).first = some a := by
      cases L0 with
      | nil => exact ⟨l, hq.1.1⟩
      | cons a L1 => exact ⟨a, hq.1.1⟩
    have hlce : l ≠ ce := fun h => hceL (by simp [h])
    have hlL0 : l ∉ L0 := by
      have := (List.nodup_append.mp hnd).1
      intro hx
      exact List.disjoint_of_nodup_append this hx (by simp)
    have hlM0 : l ∉ M0 := by
      intro hx
      exact List.disjoint_of_nodup_append hnd (by simp) (List.mem_append_left _ hx)
    refine ⟨((s.setSkb ce (fun k => { k with next := none })).setSkb l
        (fun k => { k with next := some d })).setQueue q (fun Q => { Q with last := some ce }),
      ?_, ?_, ?_, ?_, ?_, ?_, ?_⟩
    · simp [rtskb_queue_tail, hcedef, hf, hlast]
    · refine ⟨?_, hnd, ?_⟩
      · simp only [setQueue_queue, if_true, setQueue_nextOf, setSkb_queue]
        rw [chainSeg_append]
        refine ⟨some d, ?_, ?_⟩
        · refine chainSeg_set_last L0 l _ none (some d) hq.1 (by simp) ?_
          intro x hx
          have h1 : x ≠ l := fun h => hlL0 (h ▸ hx)
          have h2 : x ≠ ce := fun h => hceL (by simp [← h, hx])
          simp [h1, h2]
        · refine chainSeg_set_last M0 ce _ e none hM (by simp [hlce.symm]) ?_
          intro x hx
          have h1 : x ≠ l := fun h => hlM0 (h ▸ hx)
          have h2 : x ≠ ce := fun h => hceM0 (h ▸ hx)
          simp [h1, h2]
      · intro _
        rw [← List.append_assoc, List.getLast?_concat]
        simp
    · intro x
      have hcel : ce ≠ l := fun h => hlce h.symm
      by_cases hx : x = l
      · subst hx; simp [hlce, Rtskb.noNext]
      · by_cases hx2 : x = ce
        · subst hx2; simp [hcel, Rtskb.noNext]
        · simp [hx, hx2, Rtskb.noNext]
    · intro x hxL hx
      have : x ≠ l := fun h => hxL (by simp [h])
      simp [hx, this]
    · intro x hx; simp [hx]
    · simp
    · have hcel : ce ≠ l := fun h => hlce h.symm
      simp [hcel]

/-- A descriptor is determined by its `next` and by all its other fields. -/
theorem Rtskb.eq_of_noNext {a b : Rtskb} (h : a.noNext = b.noNext) (hn : a.next = b.next) :
    a = b := by
  cases a; cases b
  simp only [Rtskb.noNext, Rtskb.mk.injEq] at h hn ⊢
  simp [h, hn]

/-- A free list depends on the state only through the `next` pointers and the
two ends of the queue header. -/
theorem isQueue_congr {s s1 : State} {q : Nat} {M : List Nat}
    (hn : ∀ d, s1.nextOf d = s.nextOf d) (hf : (s1.queue q).first = (s.queue q).first)
    (hl : (s1.queue q).last = (s.queue q).last) (h : IsQueue s q M) : IsQueue s1 q M := by
  refine ⟨?_, h.2.1, ?_⟩
  · rw [hf]; exact chainSeg_congr M _ _ (fun d _ => hn d) h.1
  · rw [hl]; exact h.2.2

/-- The complete effect of a successful `alloc_rtskb`: which descriptor it
returns, and every field of the new state. -/
theorem alloc_rtskb_some {cfg : Config} {size pool d : Nat} {s : State}
    (h : (alloc_rtskb cfg size pool s).1 = some d) :
    (s.queue pool).first = some d ∧ (cfg.checked = true → size ≤ cfg.capacity) ∧
    (alloc_rtskb cfg size pool s).2.skb d =
      { s.skb d with
        next := none
        chain_len := if cfg.checked then 1 else (s.skb d).chain_len
        data := (s.skb d).buf_start
        tail := (s.skb d).buf_start
        end_ := (s.skb d).buf_start + size
        chain_end := d
        len := 0
        pkt_type := PACKET_HOST
        xmit_stamp := none
        cap_flags := if cfg.rtcap then 0 else (s.skb d).cap_flags } ∧
    (∀ x, x ≠ d → (alloc_rtskb cfg size pool s).2.skb x = s.skb x) ∧
    (alloc_rtskb cfg size pool s).2.queue pool =
      { s.queue pool with
        first := (s.skb d).next
        pool_balance :=
          if cfg.checked then (s.queue pool).pool_balance - 1 else (s.queue pool).pool_balance } ∧
    (∀ q, q ≠ pool → (alloc_rtskb cfg size pool s).2.queue q = s.queue q) := by
  unfold alloc_rtskb RTNET_ASSERT_fails at h ⊢
  by_cases hc : (cfg.checked && !(decide (size ≤ cfg.capacity))) = true
  · simp [hc] at h
  · rw [if_neg hc] at h ⊢
    have hcap : cfg.checked = true → size ≤ cfg.capacity := by
      intro hch; simpa [hch] using hc
    unfold rtskb_dequeue at h ⊢
    cases hf : (s.queue pool).first with
    | none => simp [hf] at h
    | some r =>
      simp only [hf] at h ⊢
      have hr : r = d := by simpa using h
      subst hr
      refine ⟨rfl, hcap, ?_, ?_, ?_, ?_⟩
      · cases cfg.checked <;> cases cfg.rtcap <;> simp
      · intro x hx
        cases cfg.checked <;> cases cfg.rtcap <;> simp [hx]
      · cases cfg.checked <;> cases cfg.rtcap <;> simp
      · intro q hq
        cases cfg.checked <;> cases cfg.rtcap <;> simp [hq]

/-- When `alloc_rtskb` hands out nothing it changes nothing. -/
theorem alloc_rtskb_none {cfg : Config} {size pool : Nat} {s : State}
    (h : (alloc_rtskb cfg size pool s).1 = none) : alloc_rtskb cfg size pool s = (none, s) := by
  unfold alloc_rtskb RTNET_ASSERT_fails at h ⊢
  by_cases hc : (cfg.checked && !(decide (size ≤ cfg.capacity))) = true
  · simp [hc]
  · rw [if_neg hc] at h ⊢
    unfold rtskb_dequeue at h ⊢
    cases hf : (s.queue pool).first with
    | none => simp
    | some r => simp [hf] at h

/-- Function `alloc_rtskb` succeeds on a non-empty pool unless the size
assertion of the checked build fires. -/
theorem alloc_rtskb_cons (cfg : Config) (size : Nat) {pool d : Nat} {L : List Nat} {s : State}
    (hq : IsQueue s pool (d :: L)) (hc : cfg.checked = true → size ≤ cfg.capacity) :
    (alloc_rtskb cfg size pool s).1 = some d := by
  have hf : (s.queue pool).first = some d := hq.1.1
  unfold alloc_rtskb RTNET_ASSERT_fails
  have : ¬ ((cfg.checked && !(decide (size ≤ cfg.capacity))) = true) := by
    cases hch : cfg.checked with
    | false => simp
    | true => simp [hc hch]
  rw [if_neg this]
  simp [rtskb_dequeue, hf]

/-- After a successful `alloc_rtskb` the pool holds the rest of its list. -/
theorem isQueue_alloc {cfg : Config} {size pool d : Nat} {L : List Nat} {s : State}
    (hq : IsQueue s pool (d :: L)) (h : (alloc_rtskb cfg size pool s).1 = some d) :
    IsQueue (alloc_rtskb cfg size pool s).2 pool L := by
  obtain ⟨_, _, hd, ho, hp, _⟩ := alloc_rtskb_some h
  have hdq := isQueue_dequeue hq
  rw [rtskb_dequeue_cons hq] at hdq
  refine isQueue_congr ?_ ?_ ?_ hdq
  · intro x
    by_cases hx : x = d
    · subst hx; simp [State.nextOf, hd]
    · simp [State.nextOf, ho x hx, hx]
  · simp [hp]
  · simp [hp]

/-- A successful `alloc_rtskb` leaves alone every free list that does not
hold the descriptor handed out. -/
theorem alloc_frame {cfg : Config} {size pool d : Nat} {s : State}
    (h : (alloc_rtskb cfg size pool s).1 = some d) {q : Nat} {M : List Nat}
    (hne : q ≠ pool) (hM : IsQueue s q M) (hd : d ∉ M) :
    IsQueue (alloc_rtskb cfg size pool s).2 q M := by
  obtain ⟨_, _, _, ho, _, hq⟩ := alloc_rtskb_some h
  refine isQueue_frame (hq q hne) ?_ hM
  intro x hx
  have : x ≠ d := fun e => hd (e ▸ hx)
  simp [State.nextOf, ho x this]

/-! ## One descriptor returned to its pool -/

/-- The `else` branch of the loop body of `kfree_rtskb` (share flag clear):
the descriptor becomes a single-element chain and is appended to the free list
of its owner pool. -/
theorem kfree_body_unshared (cfg : Config) {d P : Nat} {L : List Nat} {s : State}
    (hns : (s.skb d).cap_flags &&& RTSKB_CAP_SHARED = 0) (hP : (s.skb d).pool = some P)
    (hq : IsQueue s P L) (hd : d ∉ L) :
    ∃ s1, kfree_body cfg d s = .ok s1 ∧ IsQueue s1 P (L ++ [d]) ∧
      s1.skb d = { s.skb d with chain_end := d, next := none } ∧
      (∀ x, x ≠ d → (s1.skb x).noNext = (s.skb x).noNext) ∧
      (∀ x, x ≠ d → x ∉ L → s1.skb x = s.skb x) ∧
      (∀ q, q ≠ P → s1.queue q = s.queue q) ∧
      (s1.queue P).pool_balance =
        (s.queue P).pool_balance + (if cfg.checked then 1 else 0) := by
  have hq0 : IsQueue (s.setSkb d (fun k => { k with chain_end := d })) P L := by
    refine isQueue_frame (s := s) rfl ?_ hq
    intro x _
    by_cases hx : x = d <;> simp [hx, State.nextOf]
  have hce0 : ((s.setSkb d (fun k => { k with chain_end := d })).skb d).chain_end = d := by
    simp
  have hM : chainSeg (s.setSkb d (fun k => { k with chain_end := d })).nextOf (some d) [d]
      ((s.setSkb d (fun k => { k with chain_end := d })).nextOf d) := ⟨rfl, rfl⟩
  have hnd : (L ++ [d]).Nodup := by
    rw [List.nodup_append]
    exact ⟨hq.2.1, List.nodup_singleton d, by
      intro x hx hx1
      rw [List.mem_singleton] at hx1
      exact hd (hx1 ▸ hx)⟩
  obtain ⟨s1, hs1, hq1, hnn, hnx, hqo, hbal, hcen⟩ :=
    queue_tail_spec hq0 hM (by rw [hce0]; rfl) hnd
  rw [hce0] at hnx hcen
  have hd1 : s1.skb d = { s.skb d with chain_end := d, next := none } := by
    apply Rtskb.eq_of_noNext
    · rw [hnn d]; simp [Rtskb.noNext]
    · exact hcen
  have hx1 : ∀ x, x ≠ d → (s1.skb x).noNext = (s.skb x).noNext := by
    intro x hx
    rw [hnn x]; simp [hx]
  have hx2 : ∀ x, x ≠ d → x ∉ L → s1.skb x = s.skb x := by
    intro x hx hxL
    apply Rtskb.eq_of_noNext (hx1 x hx)
    have := hnx x hxL hx
    simpa [State.nextOf, hx] using this
  have hbody : kfree_body cfg d s =
      .ok (if cfg.checked then s1.addBalance P 1 else s1) := by
    unfold kfree_body
    rw [if_neg (by simpa using hns)]
    have hp0 : ((s.setSkb d (fun k => { k with chain_end := d })).skb d).pool = some P := by
      simp [hP]
    simp only [hp0, hs1]
  refine ⟨_, hbody, ?_, ?_, ?_, ?_, ?_, ?_⟩
  · cases cfg.checked
    · simpa using hq1
    · simp only [if_true]
      refine isQueue_congr (s := s1) (fun _ => rfl) ?_ ?_ hq1 <;> simp
  · cases cfg.checked <;> simpa using hd1
  · intro x hx; cases cfg.checked <;> simpa using hx1 x hx
  · intro x hx hxL; cases cfg.checked <;> simpa using hx2 x hx hxL
  · intro q hqP
    cases cfg.checked
    · simpa using hqo q hqP
    · simpa [hqP] using hqo q hqP
  · cases cfg.checked
    · simpa using hbal
    · simpa using hbal

/-- Function `kfree_rtskb` on a single descriptor whose share flag is clear:
in both builds the descriptor is appended to the free list of its owner. -/
theorem kfree_rtskb_single (cfg : Config) (fuel : Nat) {d P : Nat} {L : List Nat} {s : State}
    (hfuel : 0 < fuel) (hP : (s.skb d).pool = some P) (hq : IsQueue s P L) (hd : d ∉ L)
    (hsingle : (s.skb d).chain_end = d)
    (hns : cfg.rtcap = true → (s.skb d).cap_flags &&& RTSKB_CAP_SHARED = 0) :
    ∃ s1, kfree_rtskb cfg fuel d s = .ok s1 ∧ IsQueue s1 P (L ++ [d]) ∧
      s1.skb d = { s.skb d with next := none } ∧
      (∀ x, x ≠ d → (s1.skb x).noNext = (s.skb x).noNext) ∧
      (∀ x, x ≠ d → x ∉ L → s1.skb x = s.skb x) ∧
      (∀ q, q ≠ P → s1.queue q = s.queue q) ∧
      (s1.queue P).pool_balance =
        (s.queue P).pool_balance +
          (if cfg.checked then (if cfg.rtcap then 1 else ((s.skb d).chain_len : Int)) else 0) := by
  have hassert : ¬ ((cfg.checked && !(s.skb d).pool.isSome) = true) := by simp [hP]
  cases hr : cfg.rtcap with
  | true =>
    obtain ⟨n, rfl⟩ : ∃ n, fuel = n + 1 := ⟨fuel - 1, by omega⟩
    obtain ⟨s1, hb, hq1, hd1, hx1, hx2, hqo, hbal⟩ :=
      kfree_body_unshared cfg (hns hr) hP hq hd
    refine ⟨s1, ?_, hq1, ?_, hx1, hx2, hqo, ?_⟩
    · unfold kfree_rtskb RTNET_ASSERT_fails
      rw [if_neg hassert]
      simp [hr, kfree_loop, hb, hsingle]
    · rw [hd1]
      cases hk : s.skb d
      rw [hk] at hsingle
      simp at hsingle
      simp [hsingle]
    · rw [hbal]; cases cfg.checked <;> simp
  | false =>
    have hM : chainSeg s.nextOf (some d) [d] (s.nextOf d) := ⟨rfl, rfl⟩
    have hnd : (L ++ [d]).Nodup := by
      rw [List.nodup_append]
      exact ⟨hq.2.1, List.nodup_singleton d, by
        intro x hx hx1
        rw [List.mem_singleton] at hx1
        exact hd (hx1 ▸ hx)⟩
    obtain ⟨s1, hs1, hq1, hnn, hnx, hqo, hbal, hcen⟩ :=
      queue_tail_spec hq hM (by rw [hsingle]; rfl) hnd
    rw [hsingle] at hnx hcen
    have hd1 : s1.skb d = { s.skb d with next := none } := by
      apply Rtskb.eq_of_noNext
      · rw [hnn d]; simp [Rtskb.noNext]
      · exact hcen
    have hx2 : ∀ x, x ≠ d → x ∉ L → s1.skb x = s.skb x := by
      intro x hx hxL
      exact Rtskb.eq_of_noNext (hnn x) (hnx x hxL hx)
    have hres : kfree_rtskb cfg fuel d s =
        .ok (if cfg.checked then s1.addBalance P ((s1.skb d).chain_len : Int) else s1) := by
      unfold kfree_rtskb RTNET_ASSERT_fails
      rw [if_neg hassert]
      simp [hr, hP, hs1]
    refine ⟨_, hres, ?_, ?_, ?_, ?_, ?_, ?_⟩
    · cases cfg.checked
      · simpa using hq1
      · simp only [if_true]
        refine isQueue_congr (s := s1) (fun _ => rfl) ?_ ?_ hq1 <;> simp
    · cases cfg.checked <;> simpa using hd1
    · intro x _; cases cfg.checked <;> simpa using hnn x
    · intro x hx hxL; cases cfg.checked <;> simpa using hx2 x hx hxL
    · intro q hqP
      cases cfg.checked
      · simpa using hqo q hqP
      · simpa [hqP] using hqo q hqP
    · cases cfg.checked
      · simpa using hbal
      · simp [hbal, hd1]

theorem noNext_fields {a b : Rtskb} (h : a.noNext = b.noNext) :
    a.pool = b.pool ∧ a.chain_end = b.chain_end ∧ a.chain_len = b.chain_len ∧
      a.cap_flags = b.cap_flags := by
  cases a; cases b
  simp only [Rtskb.noNext, Rtskb.mk.injEq] at h
  simp [h]

/-! ## A whole chain returned, member by member -/

/-- The loop of `kfree_rtskb` in the capture-enabled build, run on a chain
`h :: rest` of unshared in-flight descriptors whose last member is
`chain_end`: enough fuel gives a result, every pool in `Q` ends with its old
free list followed by its own members of the chain, owners are kept and every
member ends as its own chain end. -/
theorem kfree_loop_chain (cfg : Config) (own : Nat → Nat) (Q : Nat → Prop) (ce : Nat) :
    ∀ (rest : List Nat) (h fuel : Nat) (s : State) (fl : Nat → List Nat) (e : Option Nat),
      rest.length < fuel → (h :: rest).Nodup →
      chainSeg s.nextOf (some h) (h :: rest) e → (h :: rest).getLast? = some ce →
      (∀ c ∈ h :: rest, (s.skb c).pool = some (own c) ∧
        (s.skb c).cap_flags &&& RTSKB_CAP_SHARED = 0 ∧ Q (own c)) →
      (∀ q, Q q → IsQueue s q (fl q)) →
      (∀ q, Q q → ∀ c ∈ h :: rest, c ∉ fl q) →
      (∀ q q1, Q q → Q q1 → q ≠ q1 → ∀ x ∈ fl q, x ∉ fl q1) →
      ∃ s1, kfree_loop cfg fuel ce (some h) s = .ok s1 ∧
        (∀ q, Q q → IsQueue s1 q (fl q ++ (h :: rest).filter (fun x => decide (own x = q)))) ∧
        (∀ x, (s1.skb x).pool = (s.skb x).pool) ∧
        (∀ x ∈ h :: rest, (s1.skb x).chain_end = x) ∧
        (∀ x, x ∉ h :: rest → (s1.skb x).chain_end = (s.skb x).chain_end) ∧
        (∀ q, ¬ Q q → s1.queue q = s.queue q)
  | rest, h, 0, _, _, _, hfuel, _, _, _, _, _, _, _ => absurd hfuel (Nat.not_lt_zero _)
  | rest, h, fuel + 1, s, fl, e, hfuel, hnd, hlink, hlast, hmem, hqs, hfree, hdisj => by
    obtain ⟨hPh, hnsh, hQh⟩ := hmem h (List.mem_cons_self h rest)
    have hhL : h ∉ fl (own h) := hfree (own h) hQh h (List.mem_cons_self h rest)
    obtain ⟨s1, hb, hq1, hd1, hx1, hx2, hqo, _⟩ :=
      kfree_body_unshared cfg hnsh hPh (hqs (own h) hQh) hhL
    -- the free lists after the first pass
    have hqs1 : ∀ q, Q q →
        IsQueue s1 q (if q = own h then fl q ++ [h] else fl q) := by
      intro q hq
      by_cases hqh : q = own h
      · subst hqh; simpa using hq1
      · rw [if_neg hqh]
        refine isQueue_frame (hqo q hqh) ?_ (hqs q hq)
        intro d hd
        have h1 : d ≠ h := fun hx => hfree q hq h (List.mem_cons_self h rest) (hx ▸ hd)
        have h2 : d ∉ fl (own h) := hdisj q (own h) hq hQh hqh d hd
        simp [State.nextOf, hx2 d h1 h2]
    have hpool1 : ∀ x, (s1.skb x).pool = (s.skb x).pool := by
      intro x
      by_cases hx : x = h
      · subst hx; rw [hd1]
      · exact (noNext_fields (hx1 x hx)).1
    have hce1 : ∀ x, x ≠ h → (s1.skb x).chain_end = (s.skb x).chain_end := by
      intro x hx
      exact (noNext_fields (hx1 x hx)).2.1
    have hceh : (s1.skb h).chain_end = h := by rw [hd1]
    have hqn1 : ∀ q, ¬ Q q → s1.queue q = s.queue q := by
      intro q hq
      exact hqo q (fun hx => hq (hx ▸ hQh))
    cases rest with
    | nil =>
      have hceq : ce = h := by
        simpa using hlast.symm
      refine ⟨s1, ?_, ?_, hpool1, ?_, ?_, hqn1⟩
      · simp [kfree_loop, hb, hceq]
      · intro q hq
        have := hqs1 q hq
        by_cases hqh : q = own h
        · subst hqh; simpa using this
        · rw [if_neg hqh] at this
          have hne : ¬ own h = q := fun hx => hqh hx.symm
          simpa [List.filter, hne] using this
      · intro x hx
        have : x = h := by simpa using hx
        subst this; exact hceh
      · intro x hx
        exact hce1 x (by simpa using hx)
    | cons c2 rest1 =>
      have hnd2 : (c2 :: rest1).Nodup := (List.nodup_cons.mp hnd).2
      have hh2 : h ∉ c2 :: rest1 := (List.nodup_cons.mp hnd).1
      have hlast2 : (c2 :: rest1).getLast? = some ce := by
        rw [List.getLast?_cons_cons] at hlast; exact hlast
      have hcene : ¬ ce = h := by
        intro hx
        have : ce ∈ c2 :: rest1 := List.mem_of_getLast?_eq_some hlast2
        exact hh2 (hx ▸ this)
      have hnext : (s.skb h).next = some c2 := hlink.2.1
      have hsame : ∀ c ∈ c2 :: rest1, s1.skb c = s.skb c := by
        intro c hc
        have h1 : c ≠ h := fun hx => hh2 (hx ▸ hc)
        exact hx2 c h1 (hfree (own h) hQh c (List.mem_cons_of_mem h hc))
      have hlink2 : chainSeg s1.nextOf (some c2) (c2 :: rest1) e := by
        have h0 : chainSeg s.nextOf (some c2) (c2 :: rest1) e := by
          have := hlink.2
          rw [show s.nextOf h = some c2 from hnext] at this
          exact this
        refine chainSeg_congr _ _ _ ?_ h0
        intro d hd
        simp [State.nextOf, hsame d hd]
      obtain ⟨s2, hloop, hq2, hpool2, hce2, hceo2, hqn2⟩ :=
        kfree_loop_chain cfg own Q ce rest1 c2 fuel s1
          (fun q => if q = own h then fl q ++ [h] else fl q) e
          (by simp only [List.length_cons] at hfuel; omega) hnd2 hlink2 hlast2
          (by
            intro c hc
            rw [hsame c hc]
            exact hmem c (List.mem_cons_of_mem h hc))
          hqs1
          (by
            intro q hq c hc
            simp only
            have h1 : c ∉ fl q := hfree q hq c (List.mem_cons_of_mem h hc)
            have h2 : c ≠ h := fun hx => hh2 (hx ▸ hc)
            by_cases hqh : q = own h
            · simp [hqh, h2]
              rw [← hqh]; exact h1
            · simpa [hqh] using h1)
          (by
            intro q q1 hq hq1' hne x hx
            simp only at hx ⊢
            by_cases hqh : q = own h
            · have hq1h : ¬ q1 = own h := fun hx => hne (hqh.trans hx.symm)
              rw [if_neg hq1h]
              rw [if_pos hqh] at hx
              rcases List.mem_append.1 hx with hx | hx
              · exact hdisj q q1 hq hq1' hne x hx
              · have : x = h := by simpa using hx
                subst this
                exact hfree q1 hq1' x (List.mem_cons_self x _)
            · rw [if_neg hqh] at hx
              have hxh : x ≠ h := fun hxx => hfree q hq h (List.mem_cons_self h _) (hxx ▸ hx)
              by_cases hq1h : q1 = own h
              · rw [if_pos hq1h]
                intro hx1'
                rcases List.mem_append.1 hx1' with hx1' | hx1'
                · exact hdisj q q1 hq hq1' hne x hx hx1'
                · exact hxh (by simpa using hx1')
              · rw [if_neg hq1h]
                exact hdisj q q1 hq hq1' hne x hx)
      refine ⟨s2, ?_, ?_, ?_, ?_, ?_, ?_⟩
      · simp [kfree_loop, hb, hcene, hnext, hloop]
      · intro q hq
        have := hq2 q hq
        by_cases hqh : q = own h
        · subst hqh
          rw [if_pos rfl, List.append_assoc] at this
          simpa [List.filter_cons] using this
        · rw [if_neg hqh] at this
          have hne : ¬ own h = q := fun hx => hqh hx.symm
          rw [List.filter_cons]
          simpa [hne] using this
      · intro x; rw [hpool2 x, hpool1 x]
      · intro x hx
        rcases List.mem_cons.1 hx with hx | hx
        · subst hx
          rw [hceo2 x hh2]; exact hceh
        · exact hce2 x hx
      · intro x hx
        have h1 : x ≠ h := fun hxx => hx (hxx ▸ List.mem_cons_self h _)
        have h2 : x ∉ c2 :: rest1 := fun hxx => hx (List.mem_cons_of_mem h hxx)
        rw [hceo2 x h2, hce1 x h1]
      · intro q hq; rw [hqn2 q hq, hqn1 q hq]

/-! ## Claims on `alloc_rtskb` -/

/-- C1: on a pool whose free list is empty, `alloc_rtskb` returns `NULL` for
every requested size and in every build, and the whole state (every pool's
free list and balance counter, the asked pool included) is exactly what it
was. -/
theorem alloc_rtskb_empty_pool (cfg : Config) (size pool : Nat) (s : State)
    (h : IsQueue s pool []) : alloc_rtskb cfg size pool s = (none, s) := by
  apply alloc_rtskb_none
  have hf : (s.queue pool).first = none := (isQueue_nil_iff s pool).1 h
  unfold alloc_rtskb RTNET_ASSERT_fails
  by_cases hc : (cfg.checked && !(decide (size ≤ cfg.capacity))) = true
  · simp [hc]
  · rw [if_neg hc]; simp [rtskb_dequeue, hf]

/-- C1 on the sample state: pool 3 is empty. -/
theorem alloc_rtskb_empty_pool_witness :
    IsQueue sampleState 3 [] ∧
      alloc_rtskb (sampleCfg true true) 64 3 sampleState = (none, sampleState) :=
  ⟨by decide, alloc_rtskb_empty_pool (sampleCfg true true) 64 3 sampleState (by decide)⟩

/-- C2: on a pool with free list `d0 :: L` and a size within the capacity,
`alloc_rtskb` returns the head `d0`, the pool's free list afterwards is `L` in
the same order, and every other pool keeps its queue header and its free
list. -/
theorem alloc_rtskb_takes_head (cfg : Config) (size pool d0 : Nat) (L : List Nat) (s : State)
    (hq : IsQueue s pool (d0 :: L)) (hsize : size ≤ cfg.capacity) :
    (alloc_rtskb cfg size pool s).1 = some d0 ∧
      IsQueue (alloc_rtskb cfg size pool s).2 pool L ∧
      (∀ q, q ≠ pool → (alloc_rtskb cfg size pool s).2.queue q = s.queue q) ∧
      (∀ q M, q ≠ pool → IsQueue s q M → d0 ∉ M →
        IsQueue (alloc_rtskb cfg size pool s).2 q M) := by
  have h := alloc_rtskb_cons cfg size hq (fun _ => hsize)
  refine ⟨h, isQueue_alloc hq h, (alloc_rtskb_some h).2.2.2.2.2, ?_⟩
  intro q M hne hM hd
  exact alloc_frame h hne hM hd

/-- C2 on the sample state: pool 1 gives up its head 10 and pool 2 is untouched. -/
theorem alloc_rtskb_takes_head_witness :
    IsQueue sampleState 1 [10, 11] ∧
      (alloc_rtskb (sampleCfg true true) 100 1 sampleState).1 = some 10 ∧
      IsQueue (alloc_rtskb (sampleCfg true true) 100 1 sampleState).2 1 [11] ∧
      IsQueue (alloc_rtskb (sampleCfg true true) 100 1 sampleState).2 2 [20] :=
  have h := alloc_rtskb_takes_head (sampleCfg true true) 100 1 10 [11] sampleState
    (by decide) (by decide)
  ⟨by decide, h.1, h.2.1, h.2.2.2 2 [20] (by decide) (by decide) (by decide)⟩

/-- C3, as the code has it: in the checked build (`CONFIG_RTNET_CHECKED`, where
`RTNET_ASSERT` is active) a request larger than the storage capacity is
rejected for every pool, empty or not: the result is `NULL` and the state is
unchanged, so no descriptor is dequeued. -/
theorem alloc_rtskb_oversize_checked (cfg : Config) (size pool : Nat) (s : State)
    (hc : cfg.checked = true) (hsize : cfg.capacity < size) :
    alloc_rtskb cfg size pool s = (none, s) := by
  unfold alloc_rtskb RTNET_ASSERT_fails
  have : ¬ size ≤ cfg.capacity := Nat.not_le.mpr hsize
  simp [hc, this]

/-- C3 in the checked build on the sample state: 1553 bytes against a capacity of 1552. -/
theorem alloc_rtskb_oversize_checked_witness :
    alloc_rtskb (sampleCfg true false) 1553 1 sampleState = (none, sampleState) :=
  alloc_rtskb_oversize_checked (sampleCfg true false) 1553 1 sampleState rfl (by decide)

/-- C3 fails in the build without `CONFIG_RTNET_CHECKED`: the assertion is
compiled out, a request of 1553 bytes against a capacity of 1552 gets the head
of the pool, and the free list has lost it. -/
theorem alloc_rtskb_oversize_unchecked_counterexample :
    IsQueue sampleState 1 [10, 11] ∧ (sampleCfg false false).capacity < 1553 ∧
      (alloc_rtskb (sampleCfg false false) 1553 1 sampleState).1 = some 10 ∧
      IsQueue (alloc_rtskb (sampleCfg false false) 1553 1 sampleState).2 1 [11] := by
  decide

/-- C4, as the code has it: the descriptor returned by a successful
`alloc_rtskb(size, pool)` has an empty payload window at the start of its
storage (`data = tail = buf_start`, `len = 0`) and its limit `end` is `size`
bytes behind the start of the storage, whatever window it had before; the
storage itself is the one it had. -/
theorem alloc_rtskb_window (cfg : Config) (size pool d : Nat) (s : State)
    (h : (alloc_rtskb cfg size pool s).1 = some d) :
    ((alloc_rtskb cfg size pool s).2.skb d).buf_start = (s.skb d).buf_start ∧
      ((alloc_rtskb cfg size pool s).2.skb d).data = (s.skb d).buf_start ∧
      ((alloc_rtskb cfg size pool s).2.skb d).tail = (s.skb d).buf_start ∧
      ((alloc_rtskb cfg size pool s).2.skb d).end_ = (s.skb d).buf_start + size ∧
      ((alloc_rtskb cfg size pool s).2.skb d).len = 0 := by
  have hd := (alloc_rtskb_some h).2.2.1
  simp [hd]

/-- C4 on the sample state: descriptor 10 comes back with an empty window and a limit of 100 bytes. -/
theorem alloc_rtskb_window_witness :
    ((alloc_rtskb (sampleCfg true true) 100 1 sampleState).2.skb 10).buf_start = 10000 ∧
      ((alloc_rtskb (sampleCfg true true) 100 1 sampleState).2.skb 10).data = 10000 ∧
      ((alloc_rtskb (sampleCfg true true) 100 1 sampleState).2.skb 10).tail = 10000 ∧
      ((alloc_rtskb (sampleCfg true true) 100 1 sampleState).2.skb 10).end_ = 10000 + 100 ∧
      ((alloc_rtskb (sampleCfg true true) 100 1 sampleState).2.skb 10).len = 0 :=
  alloc_rtskb_window (sampleCfg true true) 100 1 10 sampleState (by decide)

/-- C4 fails as stated: after `alloc_rtskb(100, pool)` the payload window of
the returned descriptor, measured from the start of its storage, is `(0, 0)`
and not `(0, 100)`; the requested size only sets the limit `end`. -/
theorem alloc_rtskb_window_counterexample :
    (alloc_rtskb (sampleCfg true true) 100 1 sampleState).1 = some 10 ∧
      (((alloc_rtskb (sampleCfg true true) 100 1 sampleState).2.skb 10).data -
          ((alloc_rtskb (sampleCfg true true) 100 1 sampleState).2.skb 10).buf_start,
        ((alloc_rtskb (sampleCfg true true) 100 1 sampleState).2.skb 10).tail -
          ((alloc_rtskb (sampleCfg true true) 100 1 sampleState).2.skb 10).buf_start) = (0, 0) ∧
      (((alloc_rtskb (sampleCfg true true) 100 1 sampleState).2.skb 10).data -
          ((alloc_rtskb (sampleCfg true true) 100 1 sampleState).2.skb 10).buf_start,
        ((alloc_rtskb (sampleCfg true true) 100 1 sampleState).2.skb 10).tail -
          ((alloc_rtskb (sampleCfg true true) 100 1 sampleState).2.skb 10).buf_start) ≠
        (0, 100) := by
  decide

/-- C5: the descriptor returned by a successful `alloc_rtskb` is a
single-element, self-terminated chain whatever chain state it carried before:
its `chain_end` is the descriptor itself, its `next` is `NULL`, and in the
checked build its `chain_len` is 1. -/
theorem alloc_rtskb_single_chain (cfg : Config) (size pool d : Nat) (s : State)
    (h : (alloc_rtskb cfg size pool s).1 = some d) :
    ((alloc_rtskb cfg size pool s).2.skb d).chain_end = d ∧
      ((alloc_rtskb cfg size pool s).2.skb d).next = none ∧
      (cfg.checked = true → ((alloc_rtskb cfg size pool s).2.skb d).chain_len = 1) := by
  have hd := (alloc_rtskb_some h).2.2.1
  refine ⟨by simp [hd], by simp [hd], ?_⟩
  intro hc
  simp [hd, hc]

/-- C5 on the sample state: descriptor 10 carried the fields of a two-element chain. -/
theorem alloc_rtskb_single_chain_witness :
    ((alloc_rtskb (sampleCfg true true) 100 1 sampleState).2.skb 10).chain_end = 10 ∧
      ((alloc_rtskb (sampleCfg true true) 100 1 sampleState).2.skb 10).next = none ∧
      ((sampleCfg true true).checked = true →
        ((alloc_rtskb (sampleCfg true true) 100 1 sampleState).2.skb 10).chain_len = 1) :=
  alloc_rtskb_single_chain (sampleCfg true true) 100 1 10 sampleState (by decide)

/-! ## Claims on `kfree_rtskb` -/

/-- C6, as the code has it: for a pool with free list `d0 :: L` whose head is
owned by the pool, and a size within the capacity, `alloc_rtskb` followed by
`kfree_rtskb` of the returned descriptor succeeds, restores the pool's balance
counter and leaves every other queue header alone, and the pool holds the
same descriptors again, but with `d0` moved from the head to the tail:
the free list is `L ++ [d0]`. -/
theorem alloc_free_round_trip (cfg : Config) (fuel size pool d0 : Nat) (L : List Nat)
    (s : State) (hfuel : 0 < fuel) (hq : IsQueue s pool (d0 :: L))
    (hown : (s.skb d0).pool = some pool) (hsize : size ≤ cfg.capacity) :
    (alloc_rtskb cfg size pool s).1 = some d0 ∧
      ∃ s2, kfree_rtskb cfg fuel d0 (alloc_rtskb cfg size pool s).2 = .ok s2 ∧
        IsQueue s2 pool (L ++ [d0]) ∧
        (s2.queue pool).pool_balance = (s.queue pool).pool_balance ∧
        (∀ q, q ≠ pool → s2.queue q = s.queue q) := by
  have h := alloc_rtskb_cons cfg size hq (fun _ => hsize)
  obtain ⟨_, _, hd, _, hp, hqo⟩ := alloc_rtskb_some h
  have hq1 := isQueue_alloc hq h
  have hnd : d0 ∉ L := (List.nodup_cons.mp hq.2.1).1
  obtain ⟨s2, hk, hq2, _, _, _, hqo2, hbal⟩ :=
    kfree_rtskb_single cfg fuel hfuel (by rw [hd]; exact hown) hq1 hnd (by rw [hd])
      (by intro hr; rw [hd]; simp [hr])
  refine ⟨h, s2, hk, hq2, ?_, ?_⟩
  · rw [hbal, hp, hd]
    cases cfg.checked <;> cases cfg.rtcap <;> simp
  · intro q hne
    rw [hqo2 q hne, hqo q hne]

/-- C6 on the sample state: pool 1 holds 11 and then 10 after the round trip. -/
theorem alloc_free_round_trip_witness :
    (alloc_rtskb (sampleCfg true false) 100 1 sampleState).1 = some 10 ∧
      ∃ s2, kfree_rtskb (sampleCfg true false) 1 10
          (alloc_rtskb (sampleCfg true false) 100 1 sampleState).2 = .ok s2 ∧
        IsQueue s2 1 ([11] ++ [10]) ∧
        (s2.queue 1).pool_balance = (sampleState.queue 1).pool_balance ∧
        (∀ q, q ≠ 1 → s2.queue q = sampleState.queue q) :=
  alloc_free_round_trip (sampleCfg true false) 1 100 1 10 [11] sampleState (by decide)
    (by decide) (by decide) (by decide)

/-- C6 fails as stated: pool 1 holds `[10, 11]`; after `alloc_rtskb` and
`kfree_rtskb` of the result it holds `[11, 10]`, which is not the
pre-allocation free list. -/
theorem alloc_free_round_trip_counterexample :
    IsQueue sampleState 1 [10, 11] ∧
      (alloc_rtskb (sampleCfg true false) 100 1 sampleState).1 = some 10 ∧
      ∃ s2, kfree_rtskb (sampleCfg true false) 1 10
          (alloc_rtskb (sampleCfg true false) 100 1 sampleState).2 = .ok s2 ∧
        IsQueue s2 1 [11, 10] ∧ ¬ IsQueue s2 1 [10, 11] :=
  ⟨by decide, by decide, _, rfl, by decide, by decide⟩

/-! ## The balance invariant -/

theorem balanceInv_step (cfg : Config) (pool n : Nat) (hc : cfg.checked = true) (op : PoolOp)
    (st : State × List Nat) (hinv : BalanceInv cfg pool n st) :
    ∃ st1, poolStep cfg pool op st = .ok st1 ∧ BalanceInv cfg pool n st1 := by
  obtain ⟨s, out⟩ := st
  obtain ⟨L, hq, hnd, hlen, hown, hbal, hout⟩ := hinv
  simp only at hq hnd hlen hown hbal hout
  cases op with
  | alloc size =>
    cases hres : (alloc_rtskb cfg size pool s).1 with
    | none =>
      have h := alloc_rtskb_none hres
      refine ⟨(s, out), ?_, L, hq, hnd, hlen, hown, hbal, hout⟩
      simp [poolStep, h]
    | some d =>
      obtain ⟨hf, _, hd, ho, hp, _⟩ := alloc_rtskb_some hres
      cases L with
      | nil => rw [(isQueue_nil_iff s pool).1 hq] at hf; cases hf
      | cons d1 L1 =>
        have : d1 = d := by
          have := hq.1.1; rw [hf] at this; exact (Option.some.inj this).symm
        subst this
        have hq1 := isQueue_alloc hq hres
        have hd1out : d1 ∉ out := by
          intro hx
          exact List.disjoint_of_nodup_append hnd (List.mem_cons_self d1 L1) hx
        refine ⟨((alloc_rtskb cfg size pool s).2, d1 :: out), ?_, L1, hq1, ?_, ?_, ?_, ?_, ?_⟩
        · have : alloc_rtskb cfg size pool s = (some d1, (alloc_rtskb cfg size pool s).2) := by
            rw [← hres]
          simp only [poolStep]
          rw [this]
        · exact (List.perm_middle.nodup_iff).2 hnd
        · simp only [List.length_cons] at hlen ⊢; omega
        · intro x hx
          have hx1 : x ∈ (d1 :: L1) ++ out := (List.perm_middle.mem_iff).1 hx
          by_cases hxd : x = d1
          · subst hxd; rw [hd]; exact hown x hx1
          · rw [ho x hxd]; exact hown x hx1
        · simp only [hp, hc, if_true, hbal, List.length_cons]
          push_cast; ring
        · intro x hx
          by_cases hxd : x = d1
          · subst hxd; rw [hd]
            refine ⟨rfl, by simp [hc], ?_⟩
            intro hr; simp [hr]
          · rw [ho x hxd]
            have : x ∈ out := by
              rcases List.mem_cons.1 hx with h | h
              · exact absurd h hxd
              · exact h
            exact hout x this
  | free d =>
    by_cases hmem : d ∈ out
    · have hdL : d ∉ L := fun hx => List.disjoint_of_nodup_append hnd hx hmem
      obtain ⟨hce, hcl, hsh⟩ := hout d hmem
      obtain ⟨s1, hk, hq1, hd1, hx1, _, _, hbal1⟩ :=
        kfree_rtskb_single cfg 1 (by decide)
          (hown d (List.mem_append_right L hmem)) hq hdL hce hsh
      have hperm : ((L ++ [d]) ++ out.erase d).Perm (L ++ out) := by
        rw [List.append_assoc]
        exact List.Perm.append_left L (List.perm_cons_erase hmem).symm
      have hfield : ∀ x, (s1.skb x).pool = (s.skb x).pool ∧
          (s1.skb x).chain_end = (s.skb x).chain_end ∧
          (s1.skb x).chain_len = (s.skb x).chain_len ∧
          (s1.skb x).cap_flags = (s.skb x).cap_flags := by
        intro x
        by_cases hxd : x = d
        · subst hxd; rw [hd1]; simp
        · exact noNext_fields (hx1 x hxd)
      refine ⟨(s1, out.erase d), ?_, L ++ [d], hq1, ?_, ?_, ?_, ?_, ?_⟩
      · simp [poolStep, hmem, hk]
      · exact hperm.nodup_iff.2 hnd
      · have := List.length_erase_of_mem hmem
        have hpos : 0 < out.length := List.length_pos_of_mem hmem
        simp only [List.length_append, List.length_singleton] at hlen ⊢
        omega
      · intro x hx
        rw [(hfield x).1]
        exact hown x (hperm.mem_iff.1 hx)
      · have := List.length_erase_of_mem hmem
        have hpos : 0 < out.length := List.length_pos_of_mem hmem
        simp only [hbal1, hc, if_true, hcl, hbal]
        have h2 : ((out.erase d).length : Int) = (out.length : Int) - 1 := by
          rw [this]; omega
        rw [h2]
        cases cfg.rtcap <;> simp <;> ring
      · intro x hx
        have hxo : x ∈ out := List.mem_of_mem_erase hx
        obtain ⟨h1, h2, h3, h4⟩ := hfield x
        rw [h2, h3, h4]
        exact hout x hxo
    · refine ⟨(s, out), ?_, L, hq, hnd, hlen, hown, hbal, hout⟩
      simp [poolStep, hmem]

theorem balanceInv_run (cfg : Config) (pool n : Nat) (hc : cfg.checked = true) :
    ∀ (ops : List PoolOp) (st : State × List Nat), BalanceInv cfg pool n st →
      ∃ st1, runOps cfg pool ops st = .ok st1 ∧ BalanceInv cfg pool n st1
  | [], st, h => ⟨st, rfl, h⟩
  | op :: ops, st, h => by
    obtain ⟨st1, h1, hinv1⟩ := balanceInv_step cfg pool n hc op st h
    obtain ⟨st2, h2, hinv2⟩ := balanceInv_run cfg pool n hc ops st1 hinv1
    refine ⟨st2, ?_, hinv2⟩
    simp [runOps, h1, h2]

/-- C7: in the checked build, start from a pool whose free list holds `N`
descriptors, all owned by the pool, with `pool_balance = 0` (the state after
`rtskb_pool_init`).  Every finite sequence of `alloc_rtskb` on the pool and
`kfree_rtskb` of descriptors currently allocated from it runs without a
fault, and afterwards `free_list.size + outstanding_count = N`, where
`outstanding_count = -pool_balance` is the number of descriptors currently
allocated.  The sequence is arbitrary, so this holds after each step. -/
theorem pool_balance_invariant (cfg : Config) (pool N : Nat) (L : List Nat) (s : State)
    (ops : List PoolOp) (hc : cfg.checked = true) (hq : IsQueue s pool L)
    (hN : L.length = N) (hown : ∀ d ∈ L, (s.skb d).pool = some pool)
    (hbal : (s.queue pool).pool_balance = 0) :
    ∃ s1 out L1, runOps cfg pool ops (s, []) = .ok (s1, out) ∧ IsQueue s1 pool L1 ∧
      -(s1.queue pool).pool_balance = (out.length : Int) ∧
      (L1.length : Int) + -(s1.queue pool).pool_balance = (N : Int) := by
  have hinv : BalanceInv cfg pool N (s, []) := by
    refine ⟨L, hq, by simpa using hq.2.1, by simpa using hN, ?_, by simpa using hbal, ?_⟩
    · intro d hd; exact hown d (by simpa using hd)
    · intro d hd; cases hd
  obtain ⟨⟨s1, out⟩, hrun, L1, hq1, _, hlen, _, hb, _⟩ :=
    balanceInv_run cfg pool N hc ops (s, []) hinv
  simp only at hq1 hlen hb
  refine ⟨s1, out, L1, hrun, hq1, by rw [hb]; simp, ?_⟩
  rw [hb, ← hlen]; push_cast; ring

/-- C7 on the sample state: seven requests against pool 4, which holds two descriptors. -/
theorem pool_balance_invariant_witness :
    ∃ s1 out L1,
      runOps (sampleCfg true true) 4
          [.alloc 100, .alloc 60, .free 40, .alloc 1552, .alloc 8, .free 41, .free 40]
          (sampleState, []) = .ok (s1, out) ∧
        IsQueue s1 4 L1 ∧ -(s1.queue 4).pool_balance = (out.length : Int) ∧
        (L1.length : Int) + -(s1.queue 4).pool_balance = ((2 : Nat) : Int) :=
  pool_balance_invariant (sampleCfg true true) 4 2 [40, 41] sampleState _ rfl (by decide) rfl
    (by decide) (by decide)

/-- C8, as the code has it: `kfree_rtskb` of a single in-flight descriptor
whose share flag is not set never fails and appends it at the tail of its
owner's free list, behind the entries already there.  So two such descriptors
freed in the order `d1`, `d2` into a pool with free list `L` leave the list
`L ++ [d1, d2]`, and when the pool was empty `alloc_rtskb` hands them out
again in the order `d1`, `d2`. -/
theorem kfree_rtskb_fifo (cfg : Config) (fuel d1 d2 P size1 size2 : Nat) (L : List Nat)
    (s : State) (hfuel : 0 < fuel) (hq : IsQueue s P L) (hne : d1 ≠ d2)
    (hP1 : (s.skb d1).pool = some P) (hP2 : (s.skb d2).pool = some P)
    (hd1 : d1 ∉ L) (hd2 : d2 ∉ L)
    (hs1 : (s.skb d1).chain_end = d1) (hs2 : (s.skb d2).chain_end = d2)
    (hn1 : cfg.rtcap = true → (s.skb d1).cap_flags &&& RTSKB_CAP_SHARED = 0)
    (hn2 : cfg.rtcap = true → (s.skb d2).cap_flags &&& RTSKB_CAP_SHARED = 0)
    (hsz1 : size1 ≤ cfg.capacity) (hsz2 : size2 ≤ cfg.capacity) :
    ∃ s1 s2, kfree_rtskb cfg fuel d1 s = .ok s1 ∧ IsQueue s1 P (L ++ [d1]) ∧
      kfree_rtskb cfg fuel d2 s1 = .ok s2 ∧ IsQueue s2 P (L ++ [d1, d2]) ∧
      (L = [] → (alloc_rtskb cfg size1 P s2).1 = some d1 ∧
        (alloc_rtskb cfg size2 P (alloc_rtskb cfg size1 P s2).2).1 = some d2) := by
  obtain ⟨s1, hk1, hq1, _, _, hsame, _, _⟩ := kfree_rtskb_single cfg fuel hfuel hP1 hq hd1 hs1 hn1
  have h2 : s1.skb d2 = s.skb d2 := hsame d2 (fun h => hne h.symm) hd2
  have hd2' : d2 ∉ L ++ [d1] := by
    intro hx
    rcases List.mem_append.1 hx with h | h
    · exact hd2 h
    · exact hne (List.mem_singleton.1 h).symm
  obtain ⟨s2, hk2, hq2, _, _, _, _, _⟩ :=
    kfree_rtskb_single cfg fuel hfuel (by rw [h2]; exact hP2) hq1 hd2' (by rw [h2]; exact hs2)
      (by rw [h2]; exact hn2)
  rw [List.append_assoc] at hq2
  refine ⟨s1, s2, hk1, hq1, hk2, hq2, ?_⟩
  rintro rfl
  have hq2' : IsQueue s2 P (d1 :: [d2]) := hq2
  have ha := alloc_rtskb_cons cfg size1 hq2' (fun _ => hsz1)
  have hq3 := isQueue_alloc hq2' ha
  exact ⟨ha, alloc_rtskb_cons cfg size2 hq3 (fun _ => hsz2)⟩

/-- C8 on the sample state: descriptors 33 and 34 are freed into the empty pool 3. -/
theorem kfree_rtskb_fifo_witness :
    ∃ s1 s2, kfree_rtskb (sampleCfg true true) 1 33 sampleState = .ok s1 ∧
      IsQueue s1 3 ([] ++ [33]) ∧
      kfree_rtskb (sampleCfg true true) 1 34 s1 = .ok s2 ∧ IsQueue s2 3 ([] ++ [33, 34]) ∧
      (([] : List Nat) = [] → (alloc_rtskb (sampleCfg true true) 100 3 s2).1 = some 33 ∧
        (alloc_rtskb (sampleCfg true true) 200 3
          (alloc_rtskb (sampleCfg true true) 100 3 s2).2).1 = some 34) :=
  kfree_rtskb_fifo (sampleCfg true true) 1 33 34 3 100 200 [] sampleState (by decide)
    (by decide) (by decide) (by decide) (by decide) (by decide) (by decide) (by decide)
    (by decide) (fun _ => by decide) (fun _ => by decide) (by decide) (by decide)

/-- C8 fails as stated in the capture-enabled build: descriptor 30 is a single
in-flight descriptor with owner pool 1, but its share flag is set; freeing it
appends its companion 60 to pool 1, not 30 itself. -/
theorem kfree_rtskb_shared_counterexample :
    (sampleShared.skb 30).pool = some 1 ∧ (sampleShared.skb 30).chain_end = 30 ∧
      IsQueue sampleShared 1 [10, 11] ∧
      ∃ s1, kfree_rtskb (sampleCfg true true) 1 30 sampleShared = .ok s1 ∧
        IsQueue s1 1 [10, 11, 60] ∧ ¬ IsQueue s1 1 [10, 11, 30] :=
  ⟨by decide, by decide, by decide, _, rfl, by decide, by decide⟩

/-- C9, as the code has it: in the capture-enabled build, take a well-formed
chain `h :: rest` of in-flight descriptors (linked through `next`, duplicate
free, the head's `chain_end` naming the last member), none with the share
flag set, member `c` owned by pool `own c`, and pools whose free lists `fl`
are well formed and pairwise disjoint.  With one unit of fuel per member
`kfree_rtskb` on the head returns; every pool ends with its old free list
followed by exactly its own members of the chain, in chain order, so each of
the `k` members is appended once, to the free list of its own owner; every
member keeps its owner and ends as its own `chain_end`; and no other queue is
touched. -/
theorem kfree_rtskb_chain (cfg : Config) (fuel h : Nat) (rest : List Nat) (s : State)
    (own : Nat → Nat) (pools : List Nat) (fl : Nat → List Nat) (e : Option Nat)
    (hr : cfg.rtcap = true) (hfuel : rest.length < fuel) (hnd : (h :: rest).Nodup)
    (hlink : chainSeg s.nextOf (some h) (h :: rest) e)
    (hce : (h :: rest).getLast? = some (s.skb h).chain_end)
    (hmem : ∀ c ∈ h :: rest, (s.skb c).pool = some (own c) ∧
      (s.skb c).cap_flags &&& RTSKB_CAP_SHARED = 0 ∧ own c ∈ pools)
    (hqs : ∀ q ∈ pools, IsQueue s q (fl q))
    (hfree : ∀ q ∈ pools, ∀ c ∈ h :: rest, c ∉ fl q)
    (hdisj : ∀ q ∈ pools, ∀ q1 ∈ pools, q ≠ q1 → ∀ x ∈ fl q, x ∉ fl q1) :
    ∃ s1, kfree_rtskb cfg fuel h s = .ok s1 ∧
      (∀ q ∈ pools,
        IsQueue s1 q (fl q ++ (h :: rest).filter (fun x => decide (own x = q)))) ∧
      (∀ c ∈ h :: rest, (s1.skb c).chain_end = c ∧ (s1.skb c).pool = some (own c)) ∧
      (∀ q, q ∉ pools → s1.queue q = s.queue q) := by
  obtain ⟨s1, hloop, hq1, hpool, hcend, _, hqn⟩ :=
    kfree_loop_chain cfg own (fun q => q ∈ pools) (s.skb h).chain_end rest h fuel s fl e
      hfuel hnd hlink hce hmem hqs hfree
      (fun q q1 hq hq1 hne x hx => hdisj q hq q1 hq1 hne x hx)
  have hPh := (hmem h (List.mem_cons_self h rest)).1
  refine ⟨s1, ?_, hq1, ?_, hqn⟩
  · unfold kfree_rtskb RTNET_ASSERT_fails
    simp [hPh, hr, hloop]
  · intro c hc
    exact ⟨hcend c hc, by rw [hpool c]; exact (hmem c hc).1⟩

/-- C9 on the sample chain of three: 30 and 32 go to pool 1, 31 goes to pool 2. -/
theorem kfree_rtskb_chain_witness :
    ∃ s1, kfree_rtskb (sampleCfg true true) 3 30 sampleChain = .ok s1 ∧
      IsQueue s1 1 [10, 11, 30, 32] ∧ IsQueue s1 2 [20, 31] ∧
      (∀ c ∈ [30, 31, 32], (s1.skb c).chain_end = c ∧
        (s1.skb c).pool = some (if c = 31 then 2 else 1)) := by
  obtain ⟨s1, hk, hq, hc, _⟩ :=
    kfree_rtskb_chain (sampleCfg true true) 3 30 [31, 32] sampleChain
      (fun c => if c = 31 then 2 else 1) [1, 2]
      (fun q => if q = 1 then [10, 11] else if q = 2 then [20] else []) none
      rfl (by decide) (by decide) (by decide) (by decide) (by decide) (by decide)
      (by decide) (by decide)
  exact ⟨s1, hk, hq 1 (by decide), hq 2 (by decide), hc⟩

/-- C9 fails as stated in the build without the capture feature: the chain
`30 -> 31 -> 32` has member 31 owned by pool 2, but `kfree_rtskb` on the head
links all three members behind pool 1's free list, pool 2 receives nothing,
and the head still names 32 as its `chain_end`. -/
theorem kfree_rtskb_chain_counterexample :
    chainSeg sampleChain.nextOf (some 30) [30, 31, 32] none ∧
      (sampleChain.skb 30).chain_end = 32 ∧ (sampleChain.skb 31).pool = some 2 ∧
      IsQueue sampleChain 1 [10, 11] ∧ IsQueue sampleChain 2 [20] ∧
      ∃ s1, kfree_rtskb (sampleCfg true false) 3 30 sampleChain = .ok s1 ∧
        IsQueue s1 1 [10, 11, 30, 31, 32] ∧ IsQueue s1 2 [20] ∧
        (s1.skb 30).chain_end = 32 :=
  ⟨by decide, by decide, by decide, by decide, by decide, _, rfl, by decide, by decide,
    by decide⟩

/-! ## Claims on `rtskb_acquire` -/

/-- C10, as the code has it: for an in-flight descriptor `d` with owner pool
`A` and a companion pool `C` different from `A` whose free list is `c :: LC`,
`rtskb_acquire(d, C)` returns 0, sets `d`'s owner to `C`, removes the head `c`
from `C`'s free list (leaving `LC`, one entry fewer), sets `c`'s owner to `A`
and appends `c` at the tail of `A`'s free list (one entry more). -/
theorem rtskb_acquire_success (cfg : Config) (d A C c : Nat) (LA LC : List Nat) (s : State)
    (hAC : A ≠ C) (hPd : (s.skb d).pool = some A) (hqA : IsQueue s A LA)
    (hqC : IsQueue s C (c :: LC)) (hdA : d ∉ LA) (hdC : d ∉ c :: LC)
    (hdisj : ∀ x ∈ LA, x ∉ c :: LC) :
    ∃ s1, rtskb_acquire cfg d C s = .ok (0, s1) ∧
      (s1.skb d).pool = some C ∧ (s1.skb c).pool = some A ∧
      IsQueue s1 C LC ∧ IsQueue s1 A (LA ++ [c]) ∧
      LC.length + 1 = (c :: LC).length ∧ (LA ++ [c]).length = LA.length + 1 := by
  have hdc : d ≠ c := fun hx => hdC (hx ▸ List.mem_cons_self d LC)
  have hcd : c ≠ d := fun hx => hdc hx.symm
  have hcLA : c ∉ LA := fun hx => hdisj c hx (List.mem_cons_self c LC)
  have hcLC : c ∉ LC := (List.nodup_cons.mp hqC.2.1).1
  -- the state after the dequeue and the preparation of the companion
  have hqC1 := isQueue_dequeue hqC
  have hqA1 := dequeue_frame hqC hAC hqA hcLA
  rw [rtskb_dequeue_cons hqC] at hqC1 hqA1
  generalize hs1 : ((s.setQueue C (fun Q => { Q with first := (s.skb c).next })).setSkb c
    (fun k => { k with next := none })) = s1 at hqC1 hqA1
  have hs1d : s1.skb d = s.skb d := by rw [← hs1]; simp [hdc]
  obtain ⟨s4, hs4⟩ : ∃ s4, s4 =
      ((if cfg.checked then s1.addBalance C (-1) else s1).setSkb c
        (fun k => { k with chain_end := c })).setSkb c
        (fun k => { k with pool := some A }) := ⟨_, rfl⟩
  have hn4 : ∀ x, s4.nextOf x = s1.nextOf x := by
    intro x
    rw [hs4]
    cases cfg.checked <;> by_cases hx : x = c <;> simp [hx, State.nextOf]
  have hf4 : ∀ q, (s4.queue q).first = (s1.queue q).first ∧
      (s4.queue q).last = (s1.queue q).last := by
    intro q
    rw [hs4]
    cases cfg.checked <;> by_cases hx : q = C <;> simp [hx]
  have hqA4 : IsQueue s4 A LA := isQueue_congr hn4 (hf4 A).1 (hf4 A).2 hqA1
  have hqC4 : IsQueue s4 C LC := isQueue_congr hn4 (hf4 C).1 (hf4 C).2 hqC1
  have hce4 : (s4.skb c).chain_end = c := by
    rw [hs4]; cases cfg.checked <;> simp
  have hp4 : (s4.skb c).pool = some A := by
    rw [hs4]; cases cfg.checked <;> simp
  have hd4 : (s4.skb d).pool = some A := by
    rw [hs4]; cases cfg.checked <;> simp [hdc, hs1d, hPd]
  have hnd : (LA ++ [c]).Nodup := by
    rw [List.nodup_append]
    exact ⟨hqA.2.1, List.nodup_singleton c, by
      intro x hx hx1
      rw [List.mem_singleton] at hx1
      exact hcLA (hx1 ▸ hx)⟩
  obtain ⟨s5, hs5, hqA5, hnn5, hnx5, hqo5, _, _⟩ :=
    queue_tail_spec (d := c) (M := [c]) (e := s4.nextOf c) hqA4 ⟨rfl, rfl⟩ (by rw [hce4]; rfl) hnd
  rw [hce4] at hnx5
  have hqC5 : IsQueue s5 C LC := by
    refine isQueue_frame (hqo5 C (fun hx => hAC hx.symm)) ?_ hqC4
    intro x hx
    refine hnx5 x ?_ ?_
    · intro hxA; exact hdisj x hxA (List.mem_cons_of_mem c hx)
    · intro hxc; exact hcLC (hxc ▸ hx)
  have hp5 : ∀ x, (s5.skb x).pool = (s4.skb x).pool := fun x => (noNext_fields (hnn5 x)).1
  -- the result of the call
  have hres : rtskb_acquire cfg d C s =
      .ok (0, ((if cfg.checked then
          (s5.setSkb c (fun k => { k with chain_len := 1 })).addBalance A 1
        else s5).setSkb d (fun k => { k with pool := some C }))) := by
    unfold rtskb_acquire
    rw [rtskb_dequeue_cons hqC]
    simp only [hs1]
    have e1 : ((if cfg.checked then s1.addBalance C (-1) else s1).setSkb c
        (fun k => { k with chain_end := c })).skb d = s.skb d := by
      cases cfg.checked <;> simp [hdc, hs1d]
    simp only [e1, hPd, ← hs4, hp4, hs5]
  refine ⟨_, hres, ?_, ?_, ?_, ?_, by simp, by simp⟩
  · cases cfg.checked <;> simp
  · cases cfg.checked <;> simp [hcd, hp5, hp4]
  · refine isQueue_congr ?_ ?_ ?_ hqC5
    · intro x
      by_cases hx : x = d
      · subst hx; cases cfg.checked <;> simp [hdc, State.nextOf]
      · cases cfg.checked <;> by_cases hx2 : x = c <;> simp [hx, hx2, hcd, State.nextOf]
    · cases cfg.checked <;> simp [hAC.symm]
    · cases cfg.checked <;> simp [hAC.symm]
  · refine isQueue_congr ?_ ?_ ?_ hqA5
    · intro x
      by_cases hx : x = d
      · subst hx; cases cfg.checked <;> simp [hdc, State.nextOf]
      · cases cfg.checked <;> by_cases hx2 : x = c <;> simp [hx, hx2, hcd, State.nextOf]
    · cases cfg.checked <;> simp
    · cases cfg.checked <;> simp

/-- C10 on the sample state: descriptor 30 of pool 1 is acquired with pool 2 as companion. -/
theorem rtskb_acquire_success_witness :
    ∃ s1, rtskb_acquire (sampleCfg true true) 30 2 sampleState = .ok (0, s1) ∧
      (s1.skb 30).pool = some 2 ∧ (s1.skb 20).pool = some 1 ∧
      IsQueue s1 2 [] ∧ IsQueue s1 1 ([10, 11] ++ [20]) ∧
      ([] : List Nat).length + 1 = [20].length ∧
      ([10, 11] ++ [20]).length = [10, 11].length + 1 :=
  rtskb_acquire_success (sampleCfg true true) 30 1 2 20 [10, 11] [] sampleState (by decide)
    (by decide) (by decide) (by decide) (by decide) (by decide) (by decide)

/-- C10 fails as stated when the companion pool is the descriptor's own pool:
descriptor 30 is owned by pool 1, which holds `[10, 11]`; `rtskb_acquire(30,
pool 1)` returns 0 and pool 1 then holds `[11, 10]`, so its free count has
neither decreased nor increased by one. -/
theorem rtskb_acquire_same_pool_counterexample :
    (sampleState.skb 30).pool = some 1 ∧ IsQueue sampleState 1 [10, 11] ∧
      ∃ s1, rtskb_acquire (sampleCfg true true) 30 1 sampleState = .ok (0, s1) ∧
        IsQueue s1 1 [11, 10] ∧ [11, 10].length = [10, 11].length :=
  ⟨by decide, by decide, _, rfl, by decide, by decide⟩

/-- C11: when the companion pool's free list is empty, `rtskb_acquire` returns
`-ENOMEM` and the state is exactly what it was: the descriptor keeps its
owner, and the free lists and balance counters of both pools are unchanged. -/
theorem rtskb_acquire_empty (cfg : Config) (d C : Nat) (s : State) (h : IsQueue s C []) :
    rtskb_acquire cfg d C s = .ok (-ENOMEM, s) := by
  have hf : (s.queue C).first = none := (isQueue_nil_iff s C).1 h
  simp [rtskb_acquire, rtskb_dequeue, hf]

/-- C11 on the sample state: descriptor 30 with the empty pool 3 as companion. -/
theorem rtskb_acquire_empty_witness :
    IsQueue sampleState 3 [] ∧
      rtskb_acquire (sampleCfg true true) 30 3 sampleState = .ok (-12, sampleState) :=
  ⟨by decide, rtskb_acquire_empty (sampleCfg true true) 30 3 sampleState (by decide)⟩

/-! ## Facts for the lifecycle loops -/

/-- A free list only depends on the two heaps. -/
theorem isQueue_of_heaps {s s1 : State} {q : Nat} {M : List Nat}
    (hs : s1.skb = s.skb) (hq : s1.queue = s.queue) (h : IsQueue s q M) : IsQueue s1 q M :=
  isQueue_congr (fun d => by simp [State.nextOf, hs]) (by rw [hq]) (by rw [hq]) h

/-- Appending one single-descriptor chain: the effect of `rtskb_queue_tail` on
the queue, on every descriptor, on the other queues and on the rest of the
state. -/
theorem queue_tail_single {s : State} {q d : Nat} {L : List Nat} (hq : IsQueue s q L)
    (hce : (s.skb d).chain_end = d) (hd : d ∉ L) :
    ∃ s1, rtskb_queue_tail q d s = .ok s1 ∧ IsQueue s1 q (L ++ [d]) ∧
      s1.skb d = { s.skb d with next := none } ∧
      (∀ x, x ≠ d → (s1.skb x).noNext = (s.skb x).noNext) ∧
      (∀ x, x ≠ d → x ∉ L → s1.skb x = s.skb x) ∧
      (∀ x, x ≠ q → s1.queue x = s.queue x) ∧
      (s1.queue q).pool_balance = (s.queue q).pool_balance ∧
      (∀ q1 M, q1 ≠ q → IsQueue s q1 M → d ∉ M → (∀ x ∈ L, x ∉ M) → IsQueue s1 q1 M) := by
  have hM : chainSeg s.nextOf (some d) [d] (s.nextOf d) := ⟨rfl, rfl⟩
  have hnd : (L ++ [d]).Nodup := by
    rw [List.nodup_append]
    exact ⟨hq.2.1, List.nodup_singleton d, by
      intro x hx hx1
      rw [List.mem_singleton] at hx1
      exact hd (hx1 ▸ hx)⟩
  obtain ⟨s1, hs1, hq1, hnn, hnx, hqo, hbal, hcen⟩ :=
    queue_tail_spec hq hM (by rw [hce]; rfl) hnd
  rw [hce] at hnx hcen
  have hd1 : s1.skb d = { s.skb d with next := none } := by
    apply Rtskb.eq_of_noNext
    · rw [hnn d]; simp [Rtskb.noNext]
    · exact hcen
  refine ⟨s1, hs1, hq1, hd1, fun x _ => hnn x, ?_, hqo, hbal, ?_⟩
  · intro x hx hxL
    exact Rtskb.eq_of_noNext (hnn x) (hnx x hxL hx)
  · intro q1 M hne hM1 hdM hLM
    refine isQueue_frame (hqo q1 hne) ?_ hM1
    intro x hx
    refine hnx x ?_ ?_
    · intro hxL; exact hLM x hxL hx
    · intro hxd; exact hdM (hxd ▸ hx)

/-- Function `rtskb_queue_tail` touches neither the byte memory nor the
statistics. -/
theorem queue_tail_globals {s s1 : State} {q d : Nat} (h : rtskb_queue_tail q d s = .ok s1) :
    s1.mem = s.mem ∧ s1.rtskb_pools = s.rtskb_pools ∧ s1.rtskb_pools_max = s.rtskb_pools_max ∧
      s1.rtskb_amount = s.rtskb_amount ∧ s1.rtskb_amount_max = s.rtskb_amount_max := by
  unfold rtskb_queue_tail at h
  simp only at h
  split at h
  · cases h; simp [State.setSkb, State.setQueue]
  · split at h
    · cases h
    · cases h; simp [State.setSkb, State.setQueue]

@[simp] theorem amountInc_skb (s : State) : s.amountInc.skb = s.skb := rfl
@[simp] theorem amountInc_queue (s : State) : s.amountInc.queue = s.queue := rfl
@[simp] theorem amountInc_mem (s : State) : s.amountInc.mem = s.mem := rfl
@[simp] theorem amountInc_pools (s : State) : s.amountInc.rtskb_pools = s.rtskb_pools := rfl
@[simp] theorem amountInc_amount (s : State) :
    s.amountInc.rtskb_amount = inc32 s.rtskb_amount := rfl
@[simp] theorem amountDec_skb (s : State) : s.amountDec.skb = s.skb := by
  unfold State.amountDec
  rfl
@[simp] theorem amountDec_queue (s : State) : s.amountDec.queue = s.queue := by
  unfold State.amountDec
  rfl
@[simp] theorem amountDec_mem (s : State) : s.amountDec.mem = s.mem := by
  unfold State.amountDec
  rfl
@[simp] theorem amountDec_pools (s : State) : s.amountDec.rtskb_pools = s.rtskb_pools := by
  unfold State.amountDec
  rfl
@[simp] theorem amountDec_amount (s : State) :
    s.amountDec.rtskb_amount = dec32 s.rtskb_amount := by
  unfold State.amountDec
  rfl
@[simp] theorem poolsInc_skb (s : State) : s.poolsInc.skb = s.skb := rfl
@[simp] theorem poolsInc_queue (s : State) : s.poolsInc.queue = s.queue := rfl
@[simp] theorem poolsInc_pools (s : State) : s.poolsInc.rtskb_pools = inc32 s.rtskb_pools := rfl
@[simp] theorem poolsInc_amount (s : State) : s.poolsInc.rtskb_amount = s.rtskb_amount := rfl
@[simp] theorem poolsDec_skb (s : State) : s.poolsDec.skb = s.skb := by
  unfold State.poolsDec
  rfl
@[simp] theorem poolsDec_queue (s : State) : s.poolsDec.queue = s.queue := by
  unfold State.poolsDec
  rfl
@[simp] theorem poolsDec_pools (s : State) : s.poolsDec.rtskb_pools = dec32 s.rtskb_pools := by
  unfold State.poolsDec
  rfl
@[simp] theorem poolsDec_amount (s : State) : s.poolsDec.rtskb_amount = s.rtskb_amount := by
  unfold State.poolsDec
  rfl

/-- Counting up without wrap-around: `c` increments add exactly `c`. -/
theorem iterate_inc32_exact : ∀ (c a : Nat), a + c < 4294967296 → inc32^[c] a = a + c
  | 0, _, _ => rfl
  | c + 1, a, h => by
    rw [Function.iterate_succ_apply]
    have h1 : inc32 a = a + 1 := by unfold inc32; omega
    rw [h1, iterate_inc32_exact c (a + 1) (by omega)]
    omega

/-- Counting down without wrap-around: `r` decrements take exactly `r`. -/
theorem iterate_dec32_exact : ∀ (r a : Nat), r ≤ a → a < 4294967296 → dec32^[r] a = a - r
  | 0, _, _, _ => rfl
  | r + 1, a, h, ha => by
    rw [Function.iterate_succ_apply]
    have h1 : dec32 a = a - 1 := by unfold dec32; omega
    rw [h1, iterate_dec32_exact r (a - 1) (by omega) (by omega)]
    omega

/-- The loop of `rtskb_pool_extend_rt`: `k` passes move the first `k`
descriptors of the Reserve Cache (all of them, if it holds fewer) to the tail
of the pool, in cache order, and make the pool their owner. -/
theorem extend_rt_loop_spec (pool : Nat) (hne : pool ≠ rtskb_cache) :
    ∀ (k i : Nat) (s : State) (Lc Lp : List Nat),
      IsQueue s rtskb_cache Lc → IsQueue s pool Lp → (∀ x ∈ Lp, x ∉ Lc) →
      ∃ s1, rtskb_pool_extend_rt_loop pool k i s = .ok (i + (Lc.take k).length, s1) ∧
        IsQueue s1 rtskb_cache (Lc.drop k) ∧ IsQueue s1 pool (Lp ++ Lc.take k) ∧
        (∀ d ∈ Lc.take k, (s1.skb d).pool = some pool ∧ (s1.skb d).chain_end = d) ∧
        (∀ x, x ∉ Lc.take k → (s1.skb x).noNext = (s.skb x).noNext) ∧
        (∀ x, x ∉ Lc.take k → x ∉ Lp → s1.skb x = s.skb x) ∧
        (∀ q, q ≠ pool → q ≠ rtskb_cache → s1.queue q = s.queue q) ∧
        (s1.queue pool).pool_balance = (s.queue pool).pool_balance ∧
        (s1.queue rtskb_cache).pool_balance = (s.queue rtskb_cache).pool_balance ∧
        s1.rtskb_amount = inc32^[(Lc.take k).length] s.rtskb_amount ∧
        s1.rtskb_pools = s.rtskb_pools ∧ s1.mem = s.mem
  | 0, i, s, Lc, Lp, hqc, hqp, _ => by
    refine ⟨s, ?_, ?_, ?_, ?_, ?_, ?_, ?_, rfl, rfl, ?_, rfl, rfl⟩
    · simp [rtskb_pool_extend_rt_loop]
    · simpa using hqc
    · simpa using hqp
    · intro d hd; simp at hd
    · intro x _; rfl
    · intro x _ _; rfl
    · intro q _ _; rfl
    · simp
  | k + 1, i, s, [], Lp, hqc, hqp, _ => by
    have hf : (s.queue rtskb_cache).first = none := (isQueue_nil_iff s rtskb_cache).1 hqc
    refine ⟨s, ?_, ?_, ?_, ?_, ?_, ?_, ?_, rfl, rfl, ?_, rfl, rfl⟩
    · simp [rtskb_pool_extend_rt_loop, rtskb_dequeue, hf]
    · simpa using hqc
    · simpa using hqp
    · intro d hd; simp at hd
    · intro x _; rfl
    · intro x _ _; rfl
    · intro q _ _; rfl
    · simp
  | k + 1, i, s, c :: Lc1, Lp, hqc, hqp, hdisj => by
    have hcLp : c ∉ Lp := fun hx => hdisj c hx (List.mem_cons_self c Lc1)
    have hcLc1 : c ∉ Lc1 := (List.nodup_cons.mp hqc.2.1).1
    have hdeq := rtskb_dequeue_cons hqc
    have hq0c := isQueue_dequeue hqc
    have hq0p := dequeue_frame hqc hne hqp hcLp
    obtain ⟨s0, hs0⟩ : ∃ s0, s0 = (rtskb_dequeue rtskb_cache s).2 := ⟨_, rfl⟩
    rw [← hs0] at hq0c hq0p
    have hdeq1 : rtskb_dequeue rtskb_cache s = (some c, s0) := by rw [hs0, hdeq]
    have hs0skb : ∀ x, x ≠ c → s0.skb x = s.skb x := by
      intro x hx; rw [hs0, hdeq]; simp [hx]
    have hs0c : (s0.skb c).noNext = (s.skb c).noNext := by
      rw [hs0, hdeq]; simp [Rtskb.noNext]
    have hs0q : ∀ q, q ≠ rtskb_cache → s0.queue q = s.queue q := by
      intro q hq; rw [hs0, hdeq]; simp [hq]
    have hs0b : (s0.queue rtskb_cache).pool_balance = (s.queue rtskb_cache).pool_balance := by
      rw [hs0, hdeq]; simp
    have hs0g : s0.rtskb_amount = s.rtskb_amount ∧ s0.rtskb_pools = s.rtskb_pools ∧
        s0.mem = s.mem := by
      rw [hs0, hdeq]; simp [State.setSkb, State.setQueue]
    obtain ⟨s3, hs3⟩ : ∃ s3, s3 = (s0.setSkb c (fun k => { k with chain_end := c })).setSkb c
        (fun k => { k with pool := some pool }) := ⟨_, rfl⟩
    have hn3 : ∀ x, s3.nextOf x = s0.nextOf x := by
      intro x; rw [hs3]; by_cases hx : x = c <;> simp [hx, State.nextOf]
    have hq3 : s3.queue = s0.queue := by rw [hs3]; rfl
    have hq3c : IsQueue s3 rtskb_cache Lc1 := isQueue_congr hn3 (by rw [hq3]) (by rw [hq3]) hq0c
    have hq3p : IsQueue s3 pool Lp := isQueue_congr hn3 (by rw [hq3]) (by rw [hq3]) hq0p
    have hce3 : (s3.skb c).chain_end = c := by rw [hs3]; simp
    have hp3 : (s3.skb c).pool = some pool := by rw [hs3]; simp
    have hs3skb : ∀ x, x ≠ c → s3.skb x = s0.skb x := by
      intro x hx; rw [hs3]; simp [hx]
    have hs3g : s3.rtskb_amount = s0.rtskb_amount ∧ s3.rtskb_pools = s0.rtskb_pools ∧
        s3.mem = s0.mem := by
      rw [hs3]; simp [State.setSkb]
    obtain ⟨s4, hs4, hq4p, hd4, hx4, hy4, hqo4, hbal4, hfr4⟩ :=
      queue_tail_single hq3p hce3 hcLp
    have hq4c : IsQueue s4 rtskb_cache Lc1 :=
      hfr4 rtskb_cache Lc1 (fun h => hne h.symm) hq3c hcLc1
        (fun x hx hx1 => hdisj x hx (List.mem_cons_of_mem c hx1))
    obtain ⟨hg4m, hg4p, _, hg4a, _⟩ := queue_tail_globals hs4
    obtain ⟨s1, hloop, h1c, h1p, h1f, h1o, h1e, h1q, h1bp, h1bc, h1a, h1pl, h1m⟩ :=
      extend_rt_loop_spec pool hne k (i + 1) s4.amountInc Lc1 (Lp ++ [c])
        (isQueue_of_heaps rfl rfl hq4c) (isQueue_of_heaps rfl rfl hq4p)
        (by
          intro x hx
          rcases List.mem_append.1 hx with hx | hx
          · exact fun hx1 => hdisj x hx (List.mem_cons_of_mem c hx1)
          · rw [List.mem_singleton.1 hx]; exact hcLc1)
    have hcnot : c ∉ Lc1.take k := fun hx => hcLc1 (List.mem_of_mem_take hx)
    refine ⟨s1, ?_, ?_, ?_, ?_, ?_, ?_, ?_, ?_, ?_, ?_, ?_, ?_⟩
    · rw [rtskb_pool_extend_rt_loop, hdeq1]
      simp only [← hs3, hs4, hloop, List.take_succ_cons, List.length_cons]
      congr 2; omega
    · simpa using h1c
    · simpa [List.append_assoc] using h1p
    · intro d hd
      rw [List.take_succ_cons] at hd
      rcases List.mem_cons.1 hd with hd | hd
      · subst hd
        have := noNext_fields (h1o d hcnot)
        simp only [amountInc_skb] at this
        rw [this.1, this.2.1, hd4]
        exact ⟨hp3, hce3⟩
      · exact h1f d hd
    · intro x hx
      rw [List.take_succ_cons] at hx
      have hxc : x ≠ c := fun h => hx (h ▸ List.mem_cons_self c _)
      have hxt : x ∉ Lc1.take k := fun h => hx (List.mem_cons_of_mem c h)
      rw [h1o x hxt]
      simp only [amountInc_skb]
      rw [hx4 x hxc, hs3skb x hxc, hs0skb x hxc]
    · intro x hx hxp
      rw [List.take_succ_cons] at hx
      have hxc : x ≠ c := fun h => hx (h ▸ List.mem_cons_self c _)
      have hxt : x ∉ Lc1.take k := fun h => hx (List.mem_cons_of_mem c h)
      have hxp1 : x ∉ Lp ++ [c] := by
        intro h
        rcases List.mem_append.1 h with h | h
        · exact hxp h
        · exact hxc (List.mem_singleton.1 h)
      rw [h1e x hxt hxp1]
      simp only [amountInc_skb]
      rw [hy4 x hxc hxp, hs3skb x hxc, hs0skb x hxc]
    · intro q hq1 hq2
      rw [h1q q hq1 hq2]
      simp only [amountInc_queue]
      rw [hqo4 q hq1, hq3, hs0q q hq2]
    · rw [h1bp]; simp only [amountInc_queue]
      rw [hbal4, hq3, hs0q pool hne]
    · rw [h1bc]; simp only [amountInc_queue]
      rw [hqo4 rtskb_cache (fun h => hne h.symm), hq3, hs0b]
    · rw [h1a, List.take_succ_cons, List.length_cons, Function.iterate_succ_apply]
      simp only [amountInc_amount]
      rw [hg4a, hs3g.1, hs0g.1]
    · rw [h1pl]; simp only [amountInc_pools]; rw [hg4p, hs3g.2.1, hs0g.2.1]
    · rw [h1m]; simp only [amountInc_mem]; rw [hg4m, hs3g.2.2, hs0g.2.2]

/-- The first statements of the two init functions leave an empty pool and
touch no other queue and no descriptor. -/
theorem pool_init_head_spec (cfg : Config) (pool : Nat) (s : State) :
    IsQueue (pool_init_head cfg pool s) pool [] ∧
      (pool_init_head cfg pool s).skb = s.skb ∧
      (∀ q, q ≠ pool → (pool_init_head cfg pool s).queue q = s.queue q) ∧
      (cfg.checked = true → ((pool_init_head cfg pool s).queue pool).pool_balance = 0) ∧
      (pool_init_head cfg pool s).rtskb_amount = s.rtskb_amount ∧
      (pool_init_head cfg pool s).rtskb_pools = s.rtskb_pools ∧
      (pool_init_head cfg pool s).mem = s.mem := by
  unfold pool_init_head rtskb_queue_init
  cases cfg.checked
  · refine ⟨?_, rfl, ?_, by simp, rfl, rfl, rfl⟩
    · rw [isQueue_nil_iff]; simp
    · intro q hq; simp [hq]
  · refine ⟨?_, rfl, ?_, by simp, rfl, rfl, rfl⟩
    · rw [isQueue_nil_iff]; simp
    · intro q hq; simp [hq]

/-- What `granted` collects: its entries are the first outcomes of the
allocator, all of them successes; there are at most `n`; and when there are
fewer than `n`, the next outcome is a failure. -/
theorem granted_spec : ∀ (n : Nat) (slab : List (Option Nat)),
    (granted n slab).map some = slab.take (granted n slab).length ∧
      (granted n slab).length ≤ n ∧
      ((granted n slab).length < n → slab.getD (granted n slab).length none = none)
  | 0, _ => by simp [granted]
  | _ + 1, [] => by simp [granted]
  | _ + 1, none :: _ => by simp [granted]
  | n + 1, some d :: rest => by
    obtain ⟨h1, h2, h3⟩ := granted_spec n rest
    refine ⟨by simp [granted, h1], by simp [granted, h2], ?_⟩
    intro h
    simp only [granted, List.length_cons] at h ⊢
    simpa using h3 (by omega)

/-- All `n` requests are granted exactly when the first `n` outcomes of the
allocator are successes. -/
theorem granted_full_iff : ∀ (n : Nat) (slab : List (Option Nat)),
    (granted n slab).length = n ↔ ∀ j, j < n → (slab.getD j none).isSome = true
  | 0, _ => by simp [granted]
  | n + 1, [] => by
    simp only [granted, List.length_nil]
    constructor
    · intro h; omega
    · intro h; have := h 0 (by omega); simp at this
  | n + 1, none :: rest => by
    simp only [granted, List.length_nil]
    constructor
    · intro h; omega
    · intro h; have := h 0 (by omega); simp at this
  | n + 1, some d :: rest => by
    simp only [granted, List.length_cons, Nat.add_right_cancel_iff]
    rw [granted_full_iff n rest]
    constructor
    · intro h j hj
      cases j with
      | zero => simp
      | succ j => simpa using h j (by omega)
    · intro h j hj
      simpa using h (j + 1) (by omega)

/-- The loop of `rtskb_pool_extend`: the descriptors obtained before the first
failure of the allocator are initialised and appended to the pool in the
order of their allocation; nothing else changes but the statistics. -/
theorem extend_loop_spec (cfg : Config) (pool : Nat) :
    ∀ (k i : Nat) (slab : List (Option Nat)) (s : State) (L : List Nat),
      IsQueue s pool L → (L ++ granted k slab).Nodup →
      ∃ s1, rtskb_pool_extend_loop cfg pool k i slab s =
          .ok (i + (granted k slab).length,
            slab.drop (min k ((granted k slab).length + 1)), s1) ∧
        IsQueue s1 pool (L ++ granted k slab) ∧
        (∀ d ∈ granted k slab, (s1.skb d).pool = some pool ∧ (s1.skb d).chain_end = d ∧
          (s1.skb d).buf_start = d + cfg.struct_len) ∧
        (∀ x, x ∉ granted k slab → (s1.skb x).noNext = (s.skb x).noNext) ∧
        (∀ x, x ∉ granted k slab → x ∉ L → s1.skb x = s.skb x) ∧
        (∀ q, q ≠ pool → s1.queue q = s.queue q) ∧
        (s1.queue pool).pool_balance = (s.queue pool).pool_balance ∧
        s1.rtskb_amount = inc32^[(granted k slab).length] s.rtskb_amount ∧
        s1.rtskb_pools = s.rtskb_pools ∧ s1.mem = s.mem
  | 0, i, slab, s, L, hq, _ => by
    refine ⟨s, ?_, by simpa [granted] using hq, ?_, ?_, ?_, ?_, rfl, rfl, rfl, rfl⟩
    · simp [rtskb_pool_extend_loop, granted]
    · intro d hd; simp [granted] at hd
    · intro x _; rfl
    · intro x _ _; rfl
    · intro q _; rfl
  | k + 1, i, [], s, L, hq, _ => by
    refine ⟨s, ?_, by simpa [granted] using hq, ?_, ?_, ?_, ?_, rfl, rfl, rfl, rfl⟩
    · simp [rtskb_pool_extend_loop, granted, kmem_cache_alloc]
    · intro d hd; simp [granted] at hd
    · intro x _; rfl
    · intro x _ _; rfl
    · intro q _; rfl
  | k + 1, i, none :: rest, s, L, hq, _ => by
    refine ⟨s, ?_, by simpa [granted] using hq, ?_, ?_, ?_, ?_, rfl, rfl, rfl, rfl⟩
    · simp [rtskb_pool_extend_loop, granted, kmem_cache_alloc]
    · intro d hd; simp [granted] at hd
    · intro x _; rfl
    · intro x _ _; rfl
    · intro q _; rfl
  | k + 1, i, some d :: rest, s, L, hq, hnd => by
    have hnd1 : (L ++ d :: granted k rest).Nodup := by simpa [granted] using hnd
    have hdL : d ∉ L := by
      intro hx
      exact List.disjoint_of_nodup_append hnd1 hx (List.mem_cons_self d _)
    have hdG : d ∉ granted k rest :=
      (List.nodup_cons.mp (List.nodup_append.mp hnd1).2.1).1
    obtain ⟨s5, hs5⟩ : ∃ s5, s5 =
        (if cfg.checked then
          ((((s.setSkb d (fun _ => Rtskb.zero)).setSkb d
            (fun k => { k with chain_end := d })).setSkb d
            (fun k => { k with pool := some pool })).setSkb d
            (fun k => { k with buf_start := d + cfg.struct_len })).setSkb d
            (fun k => { k with buf_end := k.buf_start + cfg.capacity - 1 })
        else
          (((s.setSkb d (fun _ => Rtskb.zero)).setSkb d
            (fun k => { k with chain_end := d })).setSkb d
            (fun k => { k with pool := some pool })).setSkb d
            (fun k => { k with buf_start := d + cfg.struct_len })) := ⟨_, rfl⟩
    have h5q : s5.queue = s.queue := by rw [hs5]; cases cfg.checked <;> rfl
    have h5x : ∀ x, x ≠ d → s5.skb x = s.skb x := by
      intro x hx; rw [hs5]; cases cfg.checked <;> simp [hx]
    have h5d : (s5.skb d).pool = some pool ∧ (s5.skb d).chain_end = d ∧
        (s5.skb d).buf_start = d + cfg.struct_len := by
      rw [hs5]; cases cfg.checked <;> simp
    have h5g : s5.rtskb_amount = s.rtskb_amount ∧ s5.rtskb_pools = s.rtskb_pools ∧
        s5.mem = s.mem := by
      rw [hs5]; cases cfg.checked <;> simp [State.setSkb]
    have hq5 : IsQueue s5 pool L := by
      refine isQueue_frame (by rw [h5q]) ?_ hq
      intro x hx
      have : x ≠ d := fun h => hdL (h ▸ hx)
      simp [State.nextOf, h5x x this]
    obtain ⟨s6, hs6, hq6, hd6, hx6, hy6, hqo6, hbal6, _⟩ := queue_tail_single hq5 h5d.2.1 hdL
    obtain ⟨hg6m, hg6p, _, hg6a, _⟩ := queue_tail_globals hs6
    obtain ⟨s1, hloop, h1q, h1f, h1o, h1e, h1qo, h1b, h1a, h1p, h1m⟩ :=
      extend_loop_spec cfg pool k (i + 1) rest s6.amountInc (L ++ [d])
        (isQueue_of_heaps rfl rfl hq6) (by simpa [List.append_assoc] using hnd1)
    refine ⟨s1, ?_, ?_, ?_, ?_, ?_, ?_, ?_, ?_, ?_, ?_⟩
    · rw [rtskb_pool_extend_loop]
      simp only [kmem_cache_alloc]
      have hs5' : (if cfg.checked = true then
          ((((s.setSkb d (fun _ => Rtskb.zero)).setSkb d
            (fun k => { k with chain_end := d })).setSkb d
            (fun k => { k with pool := some pool })).setSkb d
            (fun k => { k with buf_start := d + cfg.struct_len })).setSkb d
            (fun k => { k with buf_end := k.buf_start + cfg.capacity - 1 })
        else
          (((s.setSkb d (fun _ => Rtskb.zero)).setSkb d
            (fun k => { k with chain_end := d })).setSkb d
            (fun k => { k with pool := some pool })).setSkb d
            (fun k => { k with buf_start := d + cfg.struct_len })) = s5 := hs5.symm
      rw [hs5', hs6]
      simp only [hloop, granted, List.length_cons]
      have e1 : i + 1 + (granted k rest).length = i + ((granted k rest).length + 1) := by omega
      have e2 : min (k + 1) ((granted k rest).length + 1 + 1) =
          min k ((granted k rest).length + 1) + 1 := by omega
      rw [e1, e2, List.drop_succ_cons]
    · simpa [granted, List.append_assoc] using h1q
    · intro x hx
      simp only [granted] at hx
      rcases List.mem_cons.1 hx with hx | hx
      · subst hx
        have := noNext_fields (h1o x hdG)
        simp only [amountInc_skb] at this
        have hb : (s1.skb x).buf_start = (s6.skb x).buf_start := by
          have := congrArg Rtskb.buf_start (h1o x hdG)
          simpa [Rtskb.noNext] using this
        rw [this.1, this.2.1, hb, hd6]
        exact h5d
      · exact h1f x hx
    · intro x hx
      simp only [granted] at hx
      have hxd : x ≠ d := fun h => hx (h ▸ List.mem_cons_self d _)
      have hxG : x ∉ granted k rest := fun h => hx (List.mem_cons_of_mem d h)
      rw [h1o x hxG]
      simp only [amountInc_skb]
      rw [hx6 x hxd, h5x x hxd]
    · intro x hx hxL
      simp only [granted] at hx
      have hxd : x ≠ d := fun h => hx (h ▸ List.mem_cons_self d _)
      have hxG : x ∉ granted k rest := fun h => hx (List.mem_cons_of_mem d h)
      have hxL1 : x ∉ L ++ [d] := by
        intro h
        rcases List.mem_append.1 h with h | h
        · exact hxL h
        · exact hxd (List.mem_singleton.1 h)
      rw [h1e x hxG hxL1]
      simp only [amountInc_skb]
      rw [hy6 x hxd hxL, h5x x hxd]
    · intro q hq1
      rw [h1qo q hq1]
      simp only [amountInc_queue]
      rw [hqo6 q hq1, h5q]
    · rw [h1b]; simp only [amountInc_queue]
      rw [hbal6, h5q]
    · rw [h1a]
      simp only [granted, List.length_cons, Function.iterate_succ_apply, amountInc_amount]
      rw [hg6a, h5g.1]
    · rw [h1p]; simp only [amountInc_pools]; rw [hg6p, h5g.2.1]
    · rw [h1m]; simp only [amountInc_mem]; rw [hg6m, h5g.2.2]

/-- What one successful `rtskb_dequeue` changes besides the free list. -/
theorem dequeue_effect {s : State} {q c : Nat} {L : List Nat} (hq : IsQueue s q (c :: L)) :
    rtskb_dequeue q s = (some c, (rtskb_dequeue q s).2) ∧
      (∀ x, x ≠ c → (rtskb_dequeue q s).2.skb x = s.skb x) ∧
      ((rtskb_dequeue q s).2.skb c).noNext = (s.skb c).noNext ∧
      (∀ x, x ≠ q → (rtskb_dequeue q s).2.queue x = s.queue x) ∧
      ((rtskb_dequeue q s).2.queue q).pool_balance = (s.queue q).pool_balance ∧
      (rtskb_dequeue q s).2.rtskb_amount = s.rtskb_amount ∧
      (rtskb_dequeue q s).2.rtskb_pools = s.rtskb_pools ∧
      (rtskb_dequeue q s).2.mem = s.mem := by
  rw [rtskb_dequeue_cons hq]
  refine ⟨rfl, ?_, ?_, ?_, ?_, rfl, rfl, rfl⟩
  · intro x hx; simp [hx]
  · simp [Rtskb.noNext]
  · intro x hx; simp [hx]
  · simp

/-- The loop of `rtskb_pool_shrink`: `k` passes take the first `k` descriptors
off the free list (all of them, if it holds fewer); descriptors outside the
free list are not touched. -/
theorem shrink_loop_spec (pool : Nat) :
    ∀ (k i : Nat) (s : State) (L : List Nat), IsQueue s pool L →
      (rtskb_pool_shrink_loop pool k i s).1 = i + (L.take k).length ∧
        IsQueue (rtskb_pool_shrink_loop pool k i s).2 pool (L.drop k) ∧
        (∀ x, x ∉ L.take k → (rtskb_pool_shrink_loop pool k i s).2.skb x = s.skb x) ∧
        (∀ x, ((rtskb_pool_shrink_loop pool k i s).2.skb x).noNext = (s.skb x).noNext) ∧
        (∀ q, q ≠ pool → (rtskb_pool_shrink_loop pool k i s).2.queue q = s.queue q) ∧
        ((rtskb_pool_shrink_loop pool k i s).2.queue pool).pool_balance =
          (s.queue pool).pool_balance ∧
        (rtskb_pool_shrink_loop pool k i s).2.rtskb_amount =
          dec32^[(L.take k).length] s.rtskb_amount ∧
        (rtskb_pool_shrink_loop pool k i s).2.rtskb_pools = s.rtskb_pools ∧
        (rtskb_pool_shrink_loop pool k i s).2.mem = s.mem
  | 0, i, s, L, hq => by
    have : rtskb_pool_shrink_loop pool 0 i s = (i, s) := by simp [rtskb_pool_shrink_loop]
    rw [this]
    exact ⟨by simp, by simpa using hq, fun _ _ => rfl, fun _ => rfl, fun _ _ => rfl, rfl,
      by simp, rfl, rfl⟩
  | k + 1, i, s, [], hq => by
    have hf : (s.queue pool).first = none := (isQueue_nil_iff s pool).1 hq
    have : rtskb_pool_shrink_loop pool (k + 1) i s = (i, s) := by
      simp [rtskb_pool_shrink_loop, rtskb_dequeue, hf]
    rw [this]
    exact ⟨by simp, by simpa using hq, fun _ _ => rfl, fun _ => rfl, fun _ _ => rfl, rfl,
      by simp, rfl, rfl⟩
  | k + 1, i, s, c :: L1, hq => by
    obtain ⟨hdeq, h0x, h0c, h0q, h0b, h0a, h0p, h0m⟩ := dequeue_effect hq
    have hq0 := isQueue_dequeue hq
    have hcL1 : c ∉ L1 := (List.nodup_cons.mp hq.2.1).1
    have hstep : rtskb_pool_shrink_loop pool (k + 1) i s =
        rtskb_pool_shrink_loop pool k (i + 1) (rtskb_dequeue pool s).2.amountDec := by
      rw [rtskb_pool_shrink_loop, hdeq]
    obtain ⟨h1, h2, h3, h4, h5, h6, h7, h8, h9⟩ :=
      shrink_loop_spec pool k (i + 1) (rtskb_dequeue pool s).2.amountDec L1
        (isQueue_of_heaps (amountDec_skb _) (amountDec_queue _) hq0)
    rw [hstep]
    refine ⟨?_, ?_, ?_, ?_, ?_, ?_, ?_, ?_, ?_⟩
    · rw [h1]; simp only [List.take_succ_cons, List.length_cons]; omega
    · simpa using h2
    · intro x hx
      rw [List.take_succ_cons] at hx
      have hxc : x ≠ c := fun h => hx (h ▸ List.mem_cons_self c _)
      have hxt : x ∉ L1.take k := fun h => hx (List.mem_cons_of_mem c h)
      rw [h3 x hxt, amountDec_skb, h0x x hxc]
    · intro x
      rw [h4 x, amountDec_skb]
      by_cases hxc : x = c
      · subst hxc; exact h0c
      · rw [h0x x hxc]
    · intro q hq1
      rw [h5 q hq1, amountDec_queue, h0q q hq1]
    · rw [h6, amountDec_queue, h0b]
    · rw [h7, List.take_succ_cons, List.length_cons, Function.iterate_succ_apply,
        amountDec_amount, h0a]
    · rw [h8, amountDec_pools, h0p]
    · rw [h9, amountDec_mem, h0m]

/-- The loop of `__rtskb_pool_release`: with more fuel than descriptors it
returns, the free list is empty afterwards, and the live-buffer counter has
been decremented once per descriptor. -/
theorem release_loop_spec (pool : Nat) :
    ∀ (L : List Nat) (fuel : Nat) (s : State), IsQueue s pool L → L.length < fuel →
      ∃ s1, rtskb_pool_release_loop pool fuel s = .ok s1 ∧ IsQueue s1 pool [] ∧
        (∀ x, x ∉ L → s1.skb x = s.skb x) ∧
        (∀ q, q ≠ pool → s1.queue q = s.queue q) ∧
        s1.rtskb_amount = dec32^[L.length] s.rtskb_amount ∧
        s1.rtskb_pools = s.rtskb_pools ∧ s1.mem = s.mem
  | _, 0, _, _, hfuel => absurd hfuel (Nat.not_lt_zero _)
  | [], fuel + 1, s, hq, _ => by
    have hf : (s.queue pool).first = none := (isQueue_nil_iff s pool).1 hq
    refine ⟨s, ?_, hq, fun _ _ => rfl, fun _ _ => rfl, rfl, rfl, rfl⟩
    simp [rtskb_pool_release_loop, rtskb_dequeue, hf]
  | c :: L1, fuel + 1, s, hq, hfuel => by
    obtain ⟨hdeq, h0x, _, h0q, _, h0a, h0p, h0m⟩ := dequeue_effect hq
    have hq0 := isQueue_dequeue hq
    obtain ⟨s1, hloop, h1q, h1x, h1o, h1a, h1p, h1m⟩ :=
      release_loop_spec pool L1 fuel (rtskb_dequeue pool s).2.amountDec
        (isQueue_of_heaps (amountDec_skb _) (amountDec_queue _) hq0)
        (by simp only [List.length_cons] at hfuel; omega)
    refine ⟨s1, ?_, h1q, ?_, ?_, ?_, ?_, ?_⟩
    · rw [rtskb_pool_release_loop, hdeq]
      exact hloop
    · intro x hx
      have hxc : x ≠ c := fun h => hx (h ▸ List.mem_cons_self c _)
      have hxt : x ∉ L1 := fun h => hx (List.mem_cons_of_mem c h)
      rw [h1x x hxt, amountDec_skb, h0x x hxc]
    · intro q hq1
      rw [h1o q hq1, amountDec_queue, h0q q hq1]
    · rw [h1a, List.length_cons, Function.iterate_succ_apply, amountDec_amount, h0a]
    · rw [h1p, amountDec_pools, h0p]
    · rw [h1m, amountDec_mem, h0m]

/-- The loop of `rtskb_pool_shrink_rt`: `k` passes move the first `k`
descriptors of the pool (all of them, if it holds fewer) to the tail of the
Reserve Cache, in the order of their removal. -/
theorem shrink_rt_loop_spec (pool : Nat) (hne : pool ≠ rtskb_cache) :
    ∀ (k i : Nat) (s : State) (L Lc : List Nat),
      IsQueue s pool L → IsQueue s rtskb_cache Lc → (∀ x ∈ Lc, x ∉ L) →
      ∃ s1, rtskb_pool_shrink_rt_loop pool k i s = .ok (i + (L.take k).length, s1) ∧
        IsQueue s1 pool (L.drop k) ∧ IsQueue s1 rtskb_cache (Lc ++ L.take k) ∧
        (∀ d ∈ L.take k, (s1.skb d).chain_end = d ∧ (s1.skb d).pool = (s.skb d).pool) ∧
        (∀ x, x ∉ L.take k → (s1.skb x).noNext = (s.skb x).noNext) ∧
        (∀ x, x ∉ L.take k → x ∉ Lc → s1.skb x = s.skb x) ∧
        (∀ q, q ≠ pool → q ≠ rtskb_cache → s1.queue q = s.queue q) ∧
        (s1.queue pool).pool_balance = (s.queue pool).pool_balance ∧
        (s1.queue rtskb_cache).pool_balance = (s.queue rtskb_cache).pool_balance ∧
        s1.rtskb_amount = dec32^[(L.take k).length] s.rtskb_amount ∧
        s1.rtskb_pools = s.rtskb_pools ∧ s1.mem = s.mem
  | 0, i, s, L, Lc, hqp, hqc, _ => by
    refine ⟨s, ?_, ?_, ?_, ?_, ?_, ?_, ?_, rfl, rfl, ?_, rfl, rfl⟩
    · simp [rtskb_pool_shrink_rt_loop]
    · simpa using hqp
    · simpa using hqc
    · intro d hd; simp at hd
    · intro x _; rfl
    · intro x _ _; rfl
    · intro q _ _; rfl
    · simp
  | k + 1, i, s, [], Lc, hqp, hqc, _ => by
    have hf : (s.queue pool).first = none := (isQueue_nil_iff s pool).1 hqp
    refine ⟨s, ?_, ?_, ?_, ?_, ?_, ?_, ?_, rfl, rfl, ?_, rfl, rfl⟩
    · simp [rtskb_pool_shrink_rt_loop, rtskb_dequeue, hf]
    · simpa using hqp
    · simpa using hqc
    · intro d hd; simp at hd
    · intro x _; rfl
    · intro x _ _; rfl
    · intro q _ _; rfl
    · simp
  | k + 1, i, s, c :: L1, Lc, hqp, hqc, hdisj => by
    have hcLc : c ∉ Lc := fun hx => hdisj c hx (List.mem_cons_self c L1)
    have hcL1 : c ∉ L1 := (List.nodup_cons.mp hqp.2.1).1
    obtain ⟨hdeq, h0x, h0c, h0q, h0b, h0a, h0p, h0m⟩ := dequeue_effect hqp
    have hq0p := isQueue_dequeue hqp
    have hq0c := dequeue_frame hqp (fun h => hne h.symm) hqc hcLc
    obtain ⟨s0, hs0⟩ : ∃ s0, s0 = (rtskb_dequeue pool s).2 := ⟨_, rfl⟩
    rw [← hs0] at hq0p hq0c hdeq h0x h0c h0q h0b h0a h0p h0m
    obtain ⟨s2, hs2⟩ : ∃ s2, s2 = s0.setSkb c (fun k => { k with chain_end := c }) := ⟨_, rfl⟩
    have hn2 : ∀ x, s2.nextOf x = s0.nextOf x := by
      intro x; rw [hs2]; by_cases hx : x = c <;> simp [hx, State.nextOf]
    have hq2 : s2.queue = s0.queue := by rw [hs2]; rfl
    have hq2p : IsQueue s2 pool L1 := isQueue_congr hn2 (by rw [hq2]) (by rw [hq2]) hq0p
    have hq2c : IsQueue s2 rtskb_cache Lc := isQueue_congr hn2 (by rw [hq2]) (by rw [hq2]) hq0c
    have hce2 : (s2.skb c).chain_end = c := by rw [hs2]; simp
    have hp2 : (s2.skb c).pool = (s0.skb c).pool := by rw [hs2]; simp
    have hs2skb : ∀ x, x ≠ c → s2.skb x = s0.skb x := by
      intro x hx; rw [hs2]; simp [hx]
    have hs2g : s2.rtskb_amount = s0.rtskb_amount ∧ s2.rtskb_pools = s0.rtskb_pools ∧
        s2.mem = s0.mem := by
      rw [hs2]; simp [State.setSkb]
    obtain ⟨s3, hs3, hq3c, hd3, hx3, hy3, hqo3, hbal3, hfr3⟩ :=
      queue_tail_single hq2c hce2 hcLc
    have hq3p : IsQueue s3 pool L1 :=
      hfr3 pool L1 hne hq2p hcL1 (fun x hx hx1 => hdisj x hx (List.mem_cons_of_mem c hx1))
    obtain ⟨hg3m, hg3p, _, hg3a, _⟩ := queue_tail_globals hs3
    obtain ⟨s1, hloop, h1p, h1c, h1f, h1o, h1e, h1q, h1bp, h1bc, h1a, h1pl, h1m⟩ :=
      shrink_rt_loop_spec pool hne k (i + 1) s3.amountDec L1 (Lc ++ [c])
        (isQueue_of_heaps (amountDec_skb _) (amountDec_queue _) hq3p)
        (isQueue_of_heaps (amountDec_skb _) (amountDec_queue _) hq3c)
        (by
          intro x hx
          rcases List.mem_append.1 hx with hx | hx
          · exact fun hx1 => hdisj x hx (List.mem_cons_of_mem c hx1)
          · rw [List.mem_singleton.1 hx]; exact hcL1)
    have hcnot : c ∉ L1.take k := fun hx => hcL1 (List.mem_of_mem_take hx)
    have hpc : (s0.skb c).pool = (s.skb c).pool := (noNext_fields h0c).1
    refine ⟨s1, ?_, ?_, ?_, ?_, ?_, ?_, ?_, ?_, ?_, ?_, ?_, ?_⟩
    · rw [rtskb_pool_shrink_rt_loop, hdeq]
      simp only [← hs2, hs3, hloop, List.take_succ_cons, List.length_cons]
      congr 2; omega
    · simpa using h1p
    · simpa [List.append_assoc] using h1c
    · intro d hd
      rw [List.take_succ_cons] at hd
      rcases List.mem_cons.1 hd with hd | hd
      · subst hd
        have := noNext_fields (h1o d hcnot)
        rw [amountDec_skb] at this
        rw [this.1, this.2.1, hd3]
        exact ⟨hce2, by simpa using hp2.trans hpc⟩
      · have hdc : d ≠ c := fun h => hcnot (h ▸ hd)
        obtain ⟨e1, e2⟩ := h1f d hd
        refine ⟨e1, ?_⟩
        rw [e2, amountDec_skb, (noNext_fields (hx3 d hdc)).1, hs2skb d hdc, h0x d hdc]
    · intro x hx
      rw [List.take_succ_cons] at hx
      have hxc : x ≠ c := fun h => hx (h ▸ List.mem_cons_self c _)
      have hxt : x ∉ L1.take k := fun h => hx (List.mem_cons_of_mem c h)
      rw [h1o x hxt, amountDec_skb, hx3 x hxc, hs2skb x hxc, h0x x hxc]
    · intro x hx hxc1
      rw [List.take_succ_cons] at hx
      have hxc : x ≠ c := fun h => hx (h ▸ List.mem_cons_self c _)
      have hxt : x ∉ L1.take k := fun h => hx (List.mem_cons_of_mem c h)
      have hxc2 : x ∉ Lc ++ [c] := by
        intro h
        rcases List.mem_append.1 h with h | h
        · exact hxc1 h
        · exact hxc (List.mem_singleton.1 h)
      rw [h1e x hxt hxc2, amountDec_skb, hy3 x hxc hxc1, hs2skb x hxc, h0x x hxc]
    · intro q hq1 hq2'
      rw [h1q q hq1 hq2', amountDec_queue, hqo3 q hq2', hq2, h0q q hq1]
    · rw [h1bp, amountDec_queue, hqo3 pool hne, hq2, h0b]
    · rw [h1bc, amountDec_queue, hbal3, hq2, h0q rtskb_cache (fun h => hne h.symm)]
    · rw [h1a, List.take_succ_cons, List.length_cons, Function.iterate_succ_apply,
        amountDec_amount, hg3a, hs2g.1, h0a]
    · rw [h1pl, amountDec_pools, hg3p, hs2g.2.1, h0p]
    · rw [h1m, amountDec_mem, hg3m, hs2g.2.2, h0m]

/-! ## Claims on the pool lifecycle -/

/-- C12: with the Reserve Cache holding the `m` descriptors `Lc`, for a pool
other than the cache itself `rtskb_pool_init_rt(pool, n)` returns `min n m`,
leaves the cache with the remaining `m - min n m` descriptors and the pool
with exactly the first `min n m` descriptors of the cache, in cache order,
each with the pool as its owner. -/
theorem rtskb_pool_init_rt_spec (cfg : Config) (pool n : Nat) (Lc : List Nat) (s : State)
    (hne : pool ≠ rtskb_cache) (hqc : IsQueue s rtskb_cache Lc) :
    ∃ s1, rtskb_pool_init_rt cfg pool n s = .ok (min n Lc.length, s1) ∧
      IsQueue s1 rtskb_cache (Lc.drop n) ∧
      (Lc.drop n).length = Lc.length - min n Lc.length ∧
      IsQueue s1 pool (Lc.take n) ∧ (Lc.take n).length = min n Lc.length ∧
      (∀ d ∈ Lc.take n, (s1.skb d).pool = some pool) := by
  obtain ⟨hp0, hskb0, hq0, _, _, _, _⟩ := pool_init_head_spec cfg pool s
  have hc0 : IsQueue (pool_init_head cfg pool s) rtskb_cache Lc :=
    isQueue_frame (hq0 rtskb_cache (fun h => hne h.symm))
      (fun d _ => by simp [State.nextOf, hskb0]) hqc
  obtain ⟨s1, hloop, h1c, h1p, h1f, _⟩ :=
    extend_rt_loop_spec pool hne n 0 (pool_init_head cfg pool s) Lc [] hc0 hp0
      (fun x hx => by cases hx)
  refine ⟨s1.poolsInc, ?_, isQueue_of_heaps rfl rfl h1c, ?_,
    isQueue_of_heaps rfl rfl (by simpa using h1p), List.length_take n Lc, ?_⟩
  · unfold rtskb_pool_init_rt rtskb_pool_extend_rt
    rw [hloop]
    simp [List.length_take]
  · rw [List.length_drop]; omega
  · intro d hd; exact (h1f d hd).1

/-- C12 on the sample cache: ten descriptors are requested, four are there. -/
theorem rtskb_pool_init_rt_spec_witness :
    ∃ s1, rtskb_pool_init_rt (sampleCfg true true) 5 10 sampleCache = .ok (4, s1) ∧
      IsQueue s1 rtskb_cache [] ∧ ([] : List Nat).length = 4 - 4 ∧
      IsQueue s1 5 [70, 71, 72, 73] ∧ [70, 71, 72, 73].length = 4 ∧
      (∀ d ∈ [70, 71, 72, 73], (s1.skb d).pool = some 5) :=
  rtskb_pool_init_rt_spec (sampleCfg true true) 5 10 [70, 71, 72, 73] sampleCache
    (by decide) (by decide)

/-- C13: for every count `n` and every behaviour `slab` of the allocator that
hands out distinct objects, `rtskb_pool_init(pool, n)` starts from an empty
pool and returns a count `c ≤ n` with `c < n` exactly when one of the first
`n` allocations failed; afterwards the pool's free list holds exactly the `c`
descriptors allocated, each its own chain end and owned by the pool; and the
live-pool counter has been incremented once, as an `unsigned int` (by exactly
one when it does not wrap). -/
theorem rtskb_pool_init_spec (cfg : Config) (pool n : Nat) (slab : List (Option Nat))
    (s : State) (hfresh : (granted n slab).Nodup) :
    IsQueue (pool_init_head cfg pool s) pool [] ∧
      ∃ s1 slab1, rtskb_pool_init cfg pool n slab s =
          .ok ((granted n slab).length, slab1, s1) ∧
        (granted n slab).length ≤ n ∧
        ((granted n slab).length < n ↔ ∃ j, j < n ∧ slab.getD j none = none) ∧
        IsQueue s1 pool (granted n slab) ∧
        (∀ d ∈ granted n slab, (s1.skb d).chain_end = d ∧ (s1.skb d).pool = some pool) ∧
        s1.rtskb_pools = inc32 s.rtskb_pools ∧
        (s.rtskb_pools + 1 < 4294967296 → s1.rtskb_pools = s.rtskb_pools + 1) := by
  obtain ⟨hp0, _, _, _, _, hpl0, _⟩ := pool_init_head_spec cfg pool s
  obtain ⟨s1, hloop, h1q, h1f, _, _, _, _, _, h1p, _⟩ :=
    extend_loop_spec cfg pool n 0 slab (pool_init_head cfg pool s) [] hp0
      (by simpa using hfresh)
  obtain ⟨_, hle, _⟩ := granted_spec n slab
  refine ⟨hp0, s1.poolsInc, slab.drop (min n ((granted n slab).length + 1)), ?_, hle, ?_,
    isQueue_of_heaps rfl rfl (by simpa using h1q),
    ?_, ?_, ?_⟩
  · unfold rtskb_pool_init rtskb_pool_extend
    rw [hloop]
    simp
  · have hiff := granted_full_iff n slab
    constructor
    · intro hlt
      by_contra hno
      have : ∀ j, j < n → (slab.getD j none).isSome = true := by
        intro j hj
        cases hj2 : slab.getD j none with
        | none => exact absurd ⟨j, hj, hj2⟩ hno
        | some v => rfl
      have := hiff.2 this
      omega
    · rintro ⟨j, hj, hnone⟩
      have hne : (granted n slab).length ≠ n := by
        intro heq
        have := hiff.1 heq j hj
        rw [hnone] at this
        cases this
      omega
  · intro d hd
    exact ⟨(h1f d hd).2.1, (h1f d hd).1⟩
  · simp only [poolsInc_pools]; rw [h1p, hpl0]
  · intro hlt
    simp only [poolsInc_pools]; rw [h1p, hpl0]
    unfold inc32; omega

/-- C13 on the sample state: three descriptors are requested for pool 5 and
the third allocation fails. -/
theorem rtskb_pool_init_spec_witness :
    IsQueue (pool_init_head (sampleCfg true true) 5 sampleState) 5 [] ∧
      ∃ s1 slab1, rtskb_pool_init (sampleCfg true true) 5 3 [some 80, some 81, none]
          sampleState = .ok (2, slab1, s1) ∧
        2 ≤ 3 ∧
        (2 < 3 ↔ ∃ j, j < 3 ∧ [some 80, some 81, none].getD j none = none) ∧
        IsQueue s1 5 [80, 81] ∧
        (∀ d ∈ [80, 81], (s1.skb d).chain_end = d ∧ (s1.skb d).pool = some 5) ∧
        s1.rtskb_pools = inc32 sampleState.rtskb_pools ∧
        (sampleState.rtskb_pools + 1 < 4294967296 →
          s1.rtskb_pools = sampleState.rtskb_pools + 1) :=
  rtskb_pool_init_spec (sampleCfg true true) 5 3 [some 80, some 81, none] sampleState
    (by decide)

/-- C14: for an existing pool with free list `L`, every count `n` and every
behaviour `slab` of the allocator that hands out new, distinct objects,
`rtskb_pool_extend(pool, n)` returns the number `c ≤ n` of allocations that
succeeded before the first failure (the first `c` outcomes are successes, and
when `c < n` outcome number `c` is the failure at which the loop stops); the
free list afterwards is `L` followed by exactly the `c` new descriptors; the
entries of `L` are unchanged apart from the link behind the last one; and the
live-buffer counter has been incremented `c` times as an `unsigned int`
(it has grown by exactly `c` when it does not wrap). -/
theorem rtskb_pool_extend_spec (cfg : Config) (pool n : Nat) (slab : List (Option Nat))
    (L : List Nat) (s : State) (hq : IsQueue s pool L)
    (hfresh : (L ++ granted n slab).Nodup) :
    ∃ s1 slab1, rtskb_pool_extend cfg pool n slab s =
        .ok ((granted n slab).length, slab1, s1) ∧
      (granted n slab).length ≤ n ∧
      (granted n slab).map some = slab.take (granted n slab).length ∧
      ((granted n slab).length < n → slab.getD (granted n slab).length none = none) ∧
      IsQueue s1 pool (L ++ granted n slab) ∧
      (∀ x ∈ L, (s1.skb x).noNext = (s.skb x).noNext) ∧
      s1.rtskb_amount = inc32^[(granted n slab).length] s.rtskb_amount ∧
      (s.rtskb_amount + (granted n slab).length < 4294967296 →
        s1.rtskb_amount = s.rtskb_amount + (granted n slab).length) := by
  obtain ⟨s1, hloop, h1q, _, h1o, _, _, _, h1a, _, _⟩ :=
    extend_loop_spec cfg pool n 0 slab s L hq hfresh
  obtain ⟨hmap, hle, hfail⟩ := granted_spec n slab
  refine ⟨s1, slab.drop (min n ((granted n slab).length + 1)), ?_, hle, hmap, hfail, h1q,
    ?_, h1a, ?_⟩
  · unfold rtskb_pool_extend
    rw [hloop]
    simp
  · intro x hx
    refine h1o x ?_
    intro hxg
    exact List.disjoint_of_nodup_append hfresh hx hxg
  · intro hlt
    rw [h1a, iterate_inc32_exact _ _ hlt]

/-- C14 on the sample state: five descriptors are requested for pool 1 and the
third allocation fails. -/
theorem rtskb_pool_extend_spec_witness :
    ∃ s1 slab1, rtskb_pool_extend (sampleCfg true true) 1 5
        [some 80, some 81, none, some 82] sampleState = .ok (2, slab1, s1) ∧
      2 ≤ 5 ∧
      [some 80, some 81] = [some 80, some 81, none, some 82].take 2 ∧
      (2 < 5 → [some 80, some 81, none, some 82].getD 2 none = none) ∧
      IsQueue s1 1 ([10, 11] ++ [80, 81]) ∧
      (∀ x ∈ [10, 11], (s1.skb x).noNext = (sampleState.skb x).noNext) ∧
      s1.rtskb_amount = inc32^[2] sampleState.rtskb_amount ∧
      (sampleState.rtskb_amount + 2 < 4294967296 →
        s1.rtskb_amount = sampleState.rtskb_amount + 2) :=
  rtskb_pool_extend_spec (sampleCfg true true) 1 5 [some 80, some 81, none, some 82]
    [10, 11] sampleState (by decide) (by decide)

/-- C15: for a pool with free list `L` (`f` descriptors) and every count `n`,
`rtskb_pool_shrink(pool, n)` returns exactly `min n f`, removes that many
descriptors from the head of the free list and leaves the remaining
`f - min n f` in order, decrements the live-buffer counter once per removed
descriptor as an `unsigned int` (so it falls by exactly the returned count
when it was at least that large), and leaves every descriptor outside the
free list, in particular every descriptor in flight, untouched. -/
theorem rtskb_pool_shrink_spec (pool n : Nat) (L : List Nat) (s : State)
    (hq : IsQueue s pool L) :
    (rtskb_pool_shrink pool n s).1 = min n L.length ∧
      IsQueue (rtskb_pool_shrink pool n s).2 pool (L.drop n) ∧
      (L.drop n).length = L.length - min n L.length ∧
      (rtskb_pool_shrink pool n s).2.rtskb_amount = dec32^[min n L.length] s.rtskb_amount ∧
      (min n L.length ≤ s.rtskb_amount → s.rtskb_amount < 4294967296 →
        (rtskb_pool_shrink pool n s).2.rtskb_amount = s.rtskb_amount - min n L.length) ∧
      (∀ x, x ∉ L → (rtskb_pool_shrink pool n s).2.skb x = s.skb x) := by
  obtain ⟨h1, h2, h3, _, _, _, h7, _, _⟩ := shrink_loop_spec pool n 0 s L hq
  have hlen : (L.take n).length = min n L.length := List.length_take n L
  unfold rtskb_pool_shrink
  refine ⟨by rw [h1, hlen]; omega, h2, by rw [List.length_drop]; omega, by rw [h7, hlen], ?_, ?_⟩
  · intro hle hlt
    rw [h7, hlen, iterate_dec32_exact _ _ hle hlt]
  · intro x hx
    exact h3 x (fun h => hx (List.mem_of_mem_take h))

/-- C15 on the counted sample state: five descriptors are asked of pool 1,
which holds two. -/
theorem rtskb_pool_shrink_spec_witness :
    (rtskb_pool_shrink 1 5 sampleCounted).1 = 2 ∧
      IsQueue (rtskb_pool_shrink 1 5 sampleCounted).2 1 [] ∧
      ([] : List Nat).length = 2 - 2 ∧
      (rtskb_pool_shrink 1 5 sampleCounted).2.rtskb_amount =
        dec32^[2] sampleCounted.rtskb_amount ∧
      (2 ≤ sampleCounted.rtskb_amount → sampleCounted.rtskb_amount < 4294967296 →
        (rtskb_pool_shrink 1 5 sampleCounted).2.rtskb_amount =
          sampleCounted.rtskb_amount - 2) ∧
      (∀ x, x ∉ [10, 11] → (rtskb_pool_shrink 1 5 sampleCounted).2.skb x =
        sampleCounted.skb x) :=
  rtskb_pool_shrink_spec 1 5 [10, 11] sampleCounted (by decide)

/-- C16: for a pool other than the Reserve Cache with free list `L` (`f`
descriptors), a cache holding `Lc` (`m` descriptors) and every count `n`,
`rtskb_pool_shrink_rt(pool, n)` returns `r = min n f`, leaves the pool with
the remaining `f - r` descriptors and the cache with `m + r`, the removed
descriptors appended at the cache tail in the order of their removal; the
pool's free count plus the cache size is unchanged. -/
theorem rtskb_pool_shrink_rt_spec (pool n : Nat) (L Lc : List Nat) (s : State)
    (hne : pool ≠ rtskb_cache) (hqp : IsQueue s pool L) (hqc : IsQueue s rtskb_cache Lc)
    (hdisj : ∀ x ∈ Lc, x ∉ L) :
    ∃ s1, rtskb_pool_shrink_rt pool n s = .ok (min n L.length, s1) ∧
      IsQueue s1 pool (L.drop n) ∧ (L.drop n).length = L.length - min n L.length ∧
      IsQueue s1 rtskb_cache (Lc ++ L.take n) ∧
      (Lc ++ L.take n).length = Lc.length + min n L.length ∧
      (L.drop n).length + (Lc ++ L.take n).length = L.length + Lc.length := by
  obtain ⟨s1, hloop, h1p, h1c, _⟩ := shrink_rt_loop_spec pool hne n 0 s L Lc hqp hqc hdisj
  have hlen : (L.take n).length = min n L.length := List.length_take n L
  refine ⟨s1, ?_, h1p, by rw [List.length_drop]; omega, h1c,
    by rw [List.length_append, hlen], ?_⟩
  · unfold rtskb_pool_shrink_rt
    rw [hloop, hlen]
    simp
  · rw [List.length_append, hlen, List.length_drop]; omega

/-- C16 on the sample cache: one descriptor of pool 1 goes back to the
cache. -/
theorem rtskb_pool_shrink_rt_spec_witness :
    ∃ s1, rtskb_pool_shrink_rt 1 1 sampleCache = .ok (1, s1) ∧
      IsQueue s1 1 [11] ∧ [11].length = 2 - 1 ∧
      IsQueue s1 rtskb_cache ([70, 71, 72, 73] ++ [10]) ∧
      ([70, 71, 72, 73] ++ [10]).length = 4 + 1 ∧
      [11].length + ([70, 71, 72, 73] ++ [10]).length = 2 + 4 :=
  rtskb_pool_shrink_rt_spec 1 1 [10, 11] [70, 71, 72, 73] sampleCache (by decide)
    (by decide) (by decide) (by decide)

/-- C17: for a pool with free list `L` (`f` descriptors), with more fuel than
descriptors `__rtskb_pool_release(pool)` returns and has drained the whole
pool: the free list is empty, the live-buffer counter has been decremented
`f` times and the live-pool counter once, as `unsigned int` values (so they
have fallen by exactly `f` and by exactly one whenever they were at least
that large). -/
theorem rtskb_pool_release_spec (fuel pool : Nat) (L : List Nat) (s : State)
    (hq : IsQueue s pool L) (hfuel : L.length < fuel) :
    ∃ s1, __rtskb_pool_release fuel pool s = .ok s1 ∧ IsQueue s1 pool [] ∧
      s1.rtskb_amount = dec32^[L.length] s.rtskb_amount ∧
      s1.rtskb_pools = dec32 s.rtskb_pools ∧
      (L.length ≤ s.rtskb_amount → s.rtskb_amount < 4294967296 →
        s1.rtskb_amount = s.rtskb_amount - L.length) ∧
      (1 ≤ s.rtskb_pools → s.rtskb_pools < 4294967296 →
        s1.rtskb_pools = s.rtskb_pools - 1) := by
  obtain ⟨s1, hloop, h1q, _, _, h1a, h1p, _⟩ := release_loop_spec pool L fuel s hq hfuel
  refine ⟨s1.poolsDec, ?_, isQueue_of_heaps (poolsDec_skb _) (poolsDec_queue _) h1q, ?_, ?_,
    ?_, ?_⟩
  · unfold __rtskb_pool_release
    rw [hloop]
  · rw [poolsDec_amount, h1a]
  · rw [poolsDec_pools, h1p]
  · intro hle hlt
    rw [poolsDec_amount, h1a, iterate_dec32_exact _ _ hle hlt]
  · intro hle hlt
    rw [poolsDec_pools, h1p]
    unfold dec32; omega

/-- C17 on the counted sample state: pool 4 with its two descriptors is
released. -/
theorem rtskb_pool_release_spec_witness :
    ∃ s1, __rtskb_pool_release 3 4 sampleCounted = .ok s1 ∧ IsQueue s1 4 [] ∧
      s1.rtskb_amount = dec32^[2] sampleCounted.rtskb_amount ∧
      s1.rtskb_pools = dec32 sampleCounted.rtskb_pools ∧
      (2 ≤ sampleCounted.rtskb_amount → sampleCounted.rtskb_amount < 4294967296 →
        s1.rtskb_amount = sampleCounted.rtskb_amount - 2) ∧
      (1 ≤ sampleCounted.rtskb_pools → sampleCounted.rtskb_pools < 4294967296 →
        s1.rtskb_pools = sampleCounted.rtskb_pools - 1) :=
  rtskb_pool_release_spec 3 4 [40, 41] sampleCounted (by decide) (by decide)

/-! ## `rtskb_clone` -/

/-- The complete effect of a successful `rtskb_clone` whose source is not the
descriptor handed out by the allocation: every field of the clone, the other
descriptors, the queues and the byte memory. -/
theorem rtskb_clone_of_alloc {cfg : Config} {rtskb pool c : Nat} {s s0 : State}
    (ha : alloc_rtskb cfg (clone_total_len (s.skb rtskb)) pool s = (some c, s0))
    (hne : rtskb ≠ c) (hsrc : s0.skb rtskb = s.skb rtskb) :
    (rtskb_clone cfg rtskb pool s).1 = some c ∧
      (rtskb_clone cfg rtskb pool s).2.skb c =
        { s0.skb c with
          priority := (s.skb rtskb).priority
          rtdev := (s.skb rtskb).rtdev
          time_stamp := (s.skb rtskb).time_stamp
          mac_raw := (s0.skb c).data
          nh_raw := ptrAdd (s0.skb c).data (((s.skb rtskb).data : Int) - (s.skb rtskb).nh_raw)
          h_raw := ptrAdd (s0.skb c).data (((s.skb rtskb).data : Int) - (s.skb rtskb).h_raw)
          data := (s0.skb c).data + clone_data_offs (s.skb rtskb)
          protocol := (s.skb rtskb).protocol
          pkt_type := (s.skb rtskb).pkt_type
          ip_summed := (s.skb rtskb).ip_summed
          csum := (s.skb rtskb).csum
          len := (s.skb rtskb).len } ∧
      (∀ x, x ≠ c → (rtskb_clone cfg rtskb pool s).2.skb x = s0.skb x) ∧
      (rtskb_clone cfg rtskb pool s).2.queue = s0.queue ∧
      (rtskb_clone cfg rtskb pool s).2.mem =
        memcpy s0.mem (s0.skb c).data (s.skb rtskb).mac_raw (clone_total_len (s.skb rtskb)) := by
  unfold rtskb_clone
  simp only [ha]
  refine ⟨trivial, ?_, ?_, ?_, ?_⟩
  · simp [hne, hsrc, State.setSkb]
  · intro x hx; simp [hx, State.setSkb]
  · simp [State.setSkb]
  · simp [hne, hsrc, State.setSkb]

/-- The result pointer of `rtskb_clone` is the one of its allocation. -/
theorem rtskb_clone_fst (cfg : Config) (rtskb pool : Nat) (s : State) :
    (rtskb_clone cfg rtskb pool s).1 =
      (alloc_rtskb cfg (clone_total_len (s.skb rtskb)) pool s).1 := by
  cases ha : alloc_rtskb cfg (clone_total_len (s.skb rtskb)) pool s with
  | mk r s0 =>
    unfold rtskb_clone
    simp only [ha]
    cases r <;> rfl

/-- Function `alloc_rtskb` does not write to the byte memory. -/
theorem alloc_rtskb_mem (cfg : Config) (size pool : Nat) (s : State) :
    (alloc_rtskb cfg size pool s).2.mem = s.mem := by
  unfold alloc_rtskb RTNET_ASSERT_fails rtskb_dequeue
  by_cases hc : (cfg.checked && !(decide (size ≤ cfg.capacity))) = true
  · simp [hc]
  · rw [if_neg hc]
    cases hf : (s.queue pool).first with
    | none => simp
    | some r => cases cfg.checked <;> cases cfg.rtcap <;> simp [State.setSkb, State.setQueue]

/-- The offset of the payload behind the MAC header, when the header pointer
lies at or before the payload and the distance fits an `unsigned int`. -/
theorem clone_data_offs_eq (k : Rtskb) (h1 : k.mac_raw ≤ k.data)
    (h2 : k.data - k.mac_raw < 4294967296) : clone_data_offs k = k.data - k.mac_raw := by
  unfold clone_data_offs
  have e : ((k.data : Int) - (k.mac_raw : Int)) = ((k.data - k.mac_raw : Nat) : Int) := by
    omega
  rw [e, Int.emod_eq_of_lt (by omega) (by omega)]
  simp

/-- The size `rtskb_clone` asks of the allocator, under the same conditions. -/
theorem clone_total_len_eq (k : Rtskb) (h1 : k.mac_raw ≤ k.data)
    (h2 : k.len + (k.data - k.mac_raw) < 4294967296) :
    clone_total_len k = k.len + (k.data - k.mac_raw) := by
  unfold clone_total_len
  rw [clone_data_offs_eq k h1 (by omega)]
  omega

/-! ## Claims on `rtskb_clone` -/

/-- C19, as the code has it: take a source whose `mac.raw` lies at or before
its `data` pointer, with payload length `n` and `n + (data - mac.raw)` within
the storage capacity, and a target pool whose free list starts with a
descriptor `c` other than the source and owned by the pool.  Then
`rtskb_clone` returns `c`, distinct from the source; its length is `n`; its
`n` payload bytes from its `data` pointer on equal the source's payload
bytes; its storage is the one it had, and its payload window lies inside it;
and its owner is the target pool. -/
theorem rtskb_clone_payload (cfg : Config) (rtskb pool c : Nat) (L : List Nat) (s : State)
    (hq : IsQueue s pool (c :: L)) (hown : (s.skb c).pool = some pool) (hsrc : rtskb ≠ c)
    (hmac : (s.skb rtskb).mac_raw ≤ (s.skb rtskb).data)
    (hcap : (s.skb rtskb).len + ((s.skb rtskb).data - (s.skb rtskb).mac_raw) ≤ cfg.capacity)
    (hcap32 : cfg.capacity < 4294967296) :
    (rtskb_clone cfg rtskb pool s).1 = some c ∧ c ≠ rtskb ∧
      ((rtskb_clone cfg rtskb pool s).2.skb c).len = (s.skb rtskb).len ∧
      (∀ i, i < (s.skb rtskb).len →
        (rtskb_clone cfg rtskb pool s).2.mem (((rtskb_clone cfg rtskb pool s).2.skb c).data + i) =
          s.mem ((s.skb rtskb).data + i)) ∧
      ((rtskb_clone cfg rtskb pool s).2.skb c).buf_start = (s.skb c).buf_start ∧
      (s.skb c).buf_start ≤ ((rtskb_clone cfg rtskb pool s).2.skb c).data ∧
      ((rtskb_clone cfg rtskb pool s).2.skb c).data +
          ((rtskb_clone cfg rtskb pool s).2.skb c).len ≤ (s.skb c).buf_start + cfg.capacity ∧
      ((rtskb_clone cfg rtskb pool s).2.skb c).pool = some pool := by
  have htl := clone_total_len_eq (s.skb rtskb) hmac (by omega)
  have hdo := clone_data_offs_eq (s.skb rtskb) hmac (by omega)
  have hal := alloc_rtskb_cons cfg (clone_total_len (s.skb rtskb)) hq
    (fun _ => by rw [htl]; exact hcap)
  obtain ⟨_, _, hd, ho, _, _⟩ := alloc_rtskb_some hal
  have ha : alloc_rtskb cfg (clone_total_len (s.skb rtskb)) pool s =
      (some c, (alloc_rtskb cfg (clone_total_len (s.skb rtskb)) pool s).2) := by
    rw [← hal]
  obtain ⟨h1, hrec, _, _, hm⟩ := rtskb_clone_of_alloc ha hsrc (ho rtskb hsrc)
  have hdata : ((rtskb_clone cfg rtskb pool s).2.skb c).data =
      (s.skb c).buf_start + ((s.skb rtskb).data - (s.skb rtskb).mac_raw) := by
    rw [hrec, hd, hdo]
  have hlen : ((rtskb_clone cfg rtskb pool s).2.skb c).len = (s.skb rtskb).len := by
    rw [hrec]
  refine ⟨h1, fun h => hsrc h.symm, hlen, ?_, by rw [hrec, hd], by rw [hdata]; omega,
    by rw [hdata, hlen]; omega, by rw [hrec, hd]; exact hown⟩
  intro i hi
  rw [hm, alloc_rtskb_mem, hdata, hd, htl]
  unfold memcpy
  simp only
  rw [if_pos (by omega)]
  congr 1
  omega

/-- C19 on the sample packet: the clone of descriptor 30 is descriptor 10 of
pool 1, with the 100 payload bytes behind the 14 bytes of the MAC header. -/
theorem rtskb_clone_payload_witness :
    (rtskb_clone (sampleCfg true true) 30 1 samplePacket).1 = some 10 ∧ 10 ≠ 30 ∧
      ((rtskb_clone (sampleCfg true true) 30 1 samplePacket).2.skb 10).len = 100 ∧
      (∀ i, i < 100 →
        (rtskb_clone (sampleCfg true true) 30 1 samplePacket).2.mem
            (((rtskb_clone (sampleCfg true true) 30 1 samplePacket).2.skb 10).data + i) =
          samplePacket.mem (30016 + i)) ∧
      ((rtskb_clone (sampleCfg true true) 30 1 samplePacket).2.skb 10).buf_start = 10000 ∧
      10000 ≤ ((rtskb_clone (sampleCfg true true) 30 1 samplePacket).2.skb 10).data ∧
      ((rtskb_clone (sampleCfg true true) 30 1 samplePacket).2.skb 10).data +
          ((rtskb_clone (sampleCfg true true) 30 1 samplePacket).2.skb 10).len ≤
        10000 + 1552 ∧
      ((rtskb_clone (sampleCfg true true) 30 1 samplePacket).2.skb 10).pool = some 1 :=
  rtskb_clone_payload (sampleCfg true true) 30 1 10 [11] samplePacket (by decide) (by decide)
    (by decide) (by decide) (by decide) (by decide)

/-- C19 fails as stated for a source whose `mac.raw` was never set: descriptor
30 of the sample state has payload length 100 and `mac.raw = NULL`, pool 1
holds two free descriptors, and in the checked build `rtskb_clone` returns
`NULL`, because the size it asks for is the length plus the whole address of
the payload. -/
theorem rtskb_clone_payload_counterexample :
    IsQueue sampleState 1 [10, 11] ∧ (sampleState.skb 30).len = 100 ∧
      (sampleState.skb 30).mac_raw = 0 ∧
      clone_total_len (sampleState.skb 30) = 30116 ∧
      (rtskb_clone (sampleCfg true true) 30 1 sampleState).1 = none := by
  decide

/-- C20, as the code has it: a successful `rtskb_clone` whose result `c` is
not the source and was owned by the target pool has allocated `c` with the
size `total_len`, the source's payload length plus the offset of its `data`
pointer behind `mac.raw` (in `unsigned int` arithmetic), which becomes the
limit `end` of the clone.  The clone carries the source's time stamp,
priority, protocol and packet type, and none of its chain or ownership
state: its `chain_end` is itself and its owner is the target pool, whatever
chain the source is a member of and whichever pool owns it. -/
theorem rtskb_clone_metadata (cfg : Config) (rtskb pool c : Nat) (s : State)
    (h : (rtskb_clone cfg rtskb pool s).1 = some c) (hsrc : rtskb ≠ c)
    (hown : (s.skb c).pool = some pool) :
    (alloc_rtskb cfg (clone_total_len (s.skb rtskb)) pool s).1 = some c ∧
      clone_total_len (s.skb rtskb) =
        ((s.skb rtskb).len + clone_data_offs (s.skb rtskb)) % 4294967296 ∧
      ((rtskb_clone cfg rtskb pool s).2.skb c).end_ =
        (s.skb c).buf_start + clone_total_len (s.skb rtskb) ∧
      ((rtskb_clone cfg rtskb pool s).2.skb c).time_stamp = (s.skb rtskb).time_stamp ∧
      ((rtskb_clone cfg rtskb pool s).2.skb c).priority = (s.skb rtskb).priority ∧
      ((rtskb_clone cfg rtskb pool s).2.skb c).protocol = (s.skb rtskb).protocol ∧
      ((rtskb_clone cfg rtskb pool s).2.skb c).pkt_type = (s.skb rtskb).pkt_type ∧
      ((rtskb_clone cfg rtskb pool s).2.skb c).chain_end = c ∧
      ((rtskb_clone cfg rtskb pool s).2.skb c).pool = some pool := by
  have hal : (alloc_rtskb cfg (clone_total_len (s.skb rtskb)) pool s).1 = some c := by
    rw [← rtskb_clone_fst]; exact h
  obtain ⟨_, _, hd, ho, _, _⟩ := alloc_rtskb_some hal
  have ha : alloc_rtskb cfg (clone_total_len (s.skb rtskb)) pool s =
      (some c, (alloc_rtskb cfg (clone_total_len (s.skb rtskb)) pool s).2) := by
    rw [← hal]
  obtain ⟨_, hrec, _, _, _⟩ := rtskb_clone_of_alloc ha hsrc (ho rtskb hsrc)
  refine ⟨hal, rfl, by rw [hrec, hd], by rw [hrec], by rw [hrec], by rw [hrec], by rw [hrec],
    by rw [hrec, hd], by rw [hrec, hd]; exact hown⟩

/-- C20 on the sample packet: the clone of descriptor 30 (owner: pool 1 too,
but in flight) taken from pool 1. -/
theorem rtskb_clone_metadata_witness :
    (alloc_rtskb (sampleCfg true true) (clone_total_len (samplePacket.skb 30)) 1
        samplePacket).1 = some 10 ∧
      clone_total_len (samplePacket.skb 30) =
        ((samplePacket.skb 30).len + clone_data_offs (samplePacket.skb 30)) % 4294967296 ∧
      ((rtskb_clone (sampleCfg true true) 30 1 samplePacket).2.skb 10).end_ =
        (samplePacket.skb 10).buf_start + clone_total_len (samplePacket.skb 30) ∧
      ((rtskb_clone (sampleCfg true true) 30 1 samplePacket).2.skb 10).time_stamp = 777 ∧
      ((rtskb_clone (sampleCfg true true) 30 1 samplePacket).2.skb 10).priority = 3 ∧
      ((rtskb_clone (sampleCfg true true) 30 1 samplePacket).2.skb 10).protocol = 8 ∧
      ((rtskb_clone (sampleCfg true true) 30 1 samplePacket).2.skb 10).pkt_type = 2 ∧
      ((rtskb_clone (sampleCfg true true) 30 1 samplePacket).2.skb 10).chain_end = 10 ∧
      ((rtskb_clone (sampleCfg true true) 30 1 samplePacket).2.skb 10).pool = some 1 :=
  rtskb_clone_metadata (sampleCfg true true) 30 1 10 samplePacket (by decide) (by decide)
    (by decide)

/-- C20 fails as stated: the source 30 of the sample packet has payload length
100 with its `data` pointer 14 bytes behind `mac.raw`; its clone is allocated
with size 114, not 100, as the limit `end` of the clone shows. -/
theorem rtskb_clone_metadata_counterexample :
    (samplePacket.skb 30).len = 100 ∧
      (samplePacket.skb 30).tail - (samplePacket.skb 30).data = 100 ∧
      (rtskb_clone (sampleCfg true true) 30 1 samplePacket).1 = some 10 ∧
      clone_total_len (samplePacket.skb 30) = 114 ∧
      ((rtskb_clone (sampleCfg true true) 30 1 samplePacket).2.skb 10).end_ =
        ((rtskb_clone (sampleCfg true true) 30 1 samplePacket).2.skb 10).buf_start + 114 := by
  decide

/-! ## Owners under allocate and free -/

/-- Function `alloc_rtskb` writes no `pool` field. -/
theorem alloc_rtskb_pool_frame (cfg : Config) (size pool : Nat) (s : State) (x : Nat) :
    ((alloc_rtskb cfg size pool s).2.skb x).pool = (s.skb x).pool := by
  cases h : (alloc_rtskb cfg size pool s).1 with
  | none => rw [alloc_rtskb_none h]
  | some d =>
    obtain ⟨_, _, hd, ho, _, _⟩ := alloc_rtskb_some h
    by_cases hx : x = d
    · subst hx; rw [hd]
    · rw [ho x hx]

/-- The build without the capture feature: `kfree_rtskb` on the head of a
chain links the whole chain behind the free list of the head's owner. -/
theorem kfree_rtskb_unit (cfg : Config) (fuel : Nat) {h P : Nat} {rest L : List Nat}
    {e : Option Nat} {s : State} (hr : cfg.rtcap = false) (hP : (s.skb h).pool = some P)
    (hq : IsQueue s P L) (hlink : chainSeg s.nextOf (some h) (h :: rest) e)
    (hce : (h :: rest).getLast? = some (s.skb h).chain_end) (hnd : (L ++ h :: rest).Nodup) :
    ∃ s1, kfree_rtskb cfg fuel h s = .ok s1 ∧ IsQueue s1 P (L ++ h :: rest) ∧
      (∀ x, (s1.skb x).noNext = (s.skb x).noNext) ∧
      (∀ x, x ∉ L → x ≠ (s.skb h).chain_end → s1.skb x = s.skb x) ∧
      (∀ q, q ≠ P → s1.queue q = s.queue q) ∧
      (s1.queue P).pool_balance =
        (s.queue P).pool_balance + (if cfg.checked then ((s.skb h).chain_len : Int) else 0) := by
  have hassert : ¬ ((cfg.checked && !(s.skb h).pool.isSome) = true) := by simp [hP]
  obtain ⟨s1, hs1, hq1, hnn, hnx, hqo, hbal, _⟩ := queue_tail_spec hq hlink hce hnd
  have hlen : (s1.skb h).chain_len = (s.skb h).chain_len := (noNext_fields (hnn h)).2.2.1
  have hres : kfree_rtskb cfg fuel h s =
      .ok (if cfg.checked then s1.addBalance P ((s1.skb h).chain_len : Int) else s1) := by
    unfold kfree_rtskb RTNET_ASSERT_fails
    rw [if_neg hassert]
    simp [hr, hP, hs1]
  refine ⟨_, hres, ?_, ?_, ?_, ?_, ?_⟩
  · cases cfg.checked
    · simpa using hq1
    · simp only [if_true]
      refine isQueue_congr (s := s1) (fun _ => rfl) ?_ ?_ hq1 <;> simp
  · intro x; cases cfg.checked <;> simpa using hnn x
  · intro x hxL hx
    have : s1.skb x = s.skb x := Rtskb.eq_of_noNext (hnn x) (hnx x hxL hx)
    cases cfg.checked <;> simpa using this
  · intro q hqP
    cases cfg.checked
    · simpa using hqo q hqP
    · simpa [hqP] using hqo q hqP
  · cases cfg.checked
    · simpa using hbal
    · simp [hbal, hlen]

/-- C24, as the code has it: `alloc_rtskb` never changes the owner pool of
any descriptor, in any state.  `kfree_rtskb` on the head of a well-formed
in-flight chain `h :: rest`, none of whose members has the share flag set in
the capture-enabled build, returns and leaves the owner pool of every
descriptor as it was. -/
theorem owner_frame (cfg : Config) (size pool fuel h : Nat) (rest : List Nat) (s : State)
    (own : Nat → Nat) (pools : List Nat) (fl : Nat → List Nat) (e : Option Nat)
    (hfuel : rest.length < fuel) (hnd : (h :: rest).Nodup)
    (hlink : chainSeg s.nextOf (some h) (h :: rest) e)
    (hce : (h :: rest).getLast? = some (s.skb h).chain_end)
    (hmem : ∀ c ∈ h :: rest, (s.skb c).pool = some (own c) ∧ own c ∈ pools ∧
      (cfg.rtcap = true → (s.skb c).cap_flags &&& RTSKB_CAP_SHARED = 0))
    (hqs : ∀ q ∈ pools, IsQueue s q (fl q))
    (hfree : ∀ q ∈ pools, ∀ c ∈ h :: rest, c ∉ fl q)
    (hdisj : ∀ q ∈ pools, ∀ q1 ∈ pools, q ≠ q1 → ∀ x ∈ fl q, x ∉ fl q1) :
    (∀ x, ((alloc_rtskb cfg size pool s).2.skb x).pool = (s.skb x).pool) ∧
      ∃ s1, kfree_rtskb cfg fuel h s = .ok s1 ∧ ∀ x, (s1.skb x).pool = (s.skb x).pool := by
  refine ⟨alloc_rtskb_pool_frame cfg size pool s, ?_⟩
  obtain ⟨hPh, hownh, _⟩ := hmem h (List.mem_cons_self h rest)
  cases hr : cfg.rtcap with
  | true =>
    obtain ⟨s1, hloop, _, hpool, _, _, _⟩ :=
      kfree_loop_chain cfg own (fun q => q ∈ pools) (s.skb h).chain_end rest h fuel s fl e
        hfuel hnd hlink hce (fun c hc => ⟨(hmem c hc).1, (hmem c hc).2.2 hr, (hmem c hc).2.1⟩)
        hqs hfree (fun q q1 hq hq1 hne x hx => hdisj q hq q1 hq1 hne x hx)
    refine ⟨s1, ?_, hpool⟩
    unfold kfree_rtskb RTNET_ASSERT_fails
    simp [hPh, hr, hloop]
  | false =>
    have hnd2 : (fl (own h) ++ h :: rest).Nodup := by
      rw [List.nodup_append]
      exact ⟨(hqs _ hownh).2.1, hnd, fun x hx hx1 => hfree _ hownh x hx1 hx⟩
    obtain ⟨s1, hk, _, hnn, _⟩ := kfree_rtskb_unit cfg fuel hr hPh (hqs _ hownh) hlink hce hnd2
    exact ⟨s1, hk, fun x => (noNext_fields (hnn x)).1⟩

/-- C24 on the sample chain `30 -> 31 -> 32`, whose members are owned by the
pools 1, 2 and 1. -/
theorem owner_frame_witness :
    (∀ x, ((alloc_rtskb (sampleCfg true true) 100 1 sampleChain).2.skb x).pool =
        (sampleChain.skb x).pool) ∧
      ∃ s1, kfree_rtskb (sampleCfg true true) 3 30 sampleChain = .ok s1 ∧
        ∀ x, (s1.skb x).pool = (sampleChain.skb x).pool :=
  owner_frame (sampleCfg true true) 100 1 3 30 [31, 32] sampleChain
    (fun c => if c = 31 then 2 else 1) [1, 2]
    (fun q => if q = 1 then [10, 11] else if q = 2 then [20] else []) none
    (by decide) (by decide) (by decide) (by decide) (by decide) (by decide) (by decide)
    (by decide)

/-- C24 fails as stated for a descriptor with the share flag set: in the
capture-enabled build `kfree_rtskb` on descriptor 30 (owner: pool 1, companion
60 owned by pool 2) exchanges the two owners. -/
theorem owner_frame_counterexample :
    (sampleShared.skb 30).cap_flags &&& RTSKB_CAP_SHARED ≠ 0 ∧
      (sampleShared.skb 30).pool = some 1 ∧ (sampleShared.skb 60).pool = some 2 ∧
      ∃ s1, kfree_rtskb (sampleCfg true true) 1 30 sampleShared = .ok s1 ∧
        (s1.skb 30).pool = some 2 ∧ (s1.skb 60).pool = some 1 ∧
        (s1.skb 30).pool ≠ (sampleShared.skb 30).pool :=
  ⟨by decide, by decide, by decide, _, rfl, by decide, by decide, by decide⟩

/-! ## The share flag -/

/-- Clearing the bits of a mask leaves none of them set. -/
theorem clearBits_and (x m : Nat) : clearBits x m &&& m = 0 := by
  apply Nat.eq_of_testBit_eq
  intro i
  simp only [clearBits, Nat.testBit_and, Nat.testBit_xor, Nat.zero_testBit]
  cases x.testBit i <;> cases m.testBit i <;> rfl

/-- The `if` branch of the loop body of `kfree_rtskb` (share flag set): the
flag is cleared, the descriptor and its companion exchange owners, and the
companion is appended to the free list of the descriptor's old owner. -/
theorem kfree_body_shared (cfg : Config) {d c A C : Nat} {L : List Nat} {s : State}
    (hsh : (s.skb d).cap_flags &&& RTSKB_CAP_SHARED ≠ 0) (hA : (s.skb d).pool = some A)
    (hc : (s.skb d).cap_comp_skb = c) (hC : (s.skb c).pool = some C)
    (hcs : (s.skb c).chain_end = c) (hcd : c ≠ d) (hq : IsQueue s A L) (hcL : c ∉ L)
    (hdL : d ∉ L) :
    ∃ s1, kfree_body cfg d s = .ok s1 ∧ IsQueue s1 A (L ++ [c]) ∧
      s1.skb d = { s.skb d with
        cap_flags := clearBits (s.skb d).cap_flags RTSKB_CAP_SHARED
        pool := some C } ∧
      s1.skb c = { s.skb c with pool := some A, next := none } ∧
      (∀ x, x ≠ d → x ≠ c → (s1.skb x).noNext = (s.skb x).noNext) ∧
      (∀ x, x ≠ d → x ≠ c → x ∉ L → s1.skb x = s.skb x) ∧
      (∀ q, q ≠ A → s1.queue q = s.queue q) ∧
      (s1.queue A).pool_balance = (s.queue A).pool_balance + (if cfg.checked then 1 else 0) ∧
      (∀ q M, q ≠ A → IsQueue s q M → c ∉ M → (∀ x ∈ L, x ∉ M) → IsQueue s1 q M) := by
  have hdc : d ≠ c := fun h => hcd h.symm
  obtain ⟨s3, hs3⟩ : ∃ s3, s3 =
      ((s.setSkb d (fun k => { k with cap_flags := clearBits k.cap_flags RTSKB_CAP_SHARED })).setSkb
        c (fun k => { k with pool := some A })).setSkb d (fun k => { k with pool := some C }) :=
    ⟨_, rfl⟩
  have h3d : s3.skb d = { s.skb d with
      cap_flags := clearBits (s.skb d).cap_flags RTSKB_CAP_SHARED
      pool := some C } := by
    rw [hs3]; simp [hdc]
  have h3c : s3.skb c = { s.skb c with pool := some A } := by
    rw [hs3]; simp [hcd]
  have h3x : ∀ x, x ≠ d → x ≠ c → s3.skb x = s.skb x := by
    intro x h1 h2; rw [hs3]; simp [h1, h2]
  have h3n : ∀ x, s3.nextOf x = s.nextOf x := by
    intro x
    by_cases h1 : x = d
    · subst h1; simp [State.nextOf, h3d]
    · by_cases h2 : x = c
      · subst h2; simp [State.nextOf, h3c]
      · simp [State.nextOf, h3x x h1 h2]
  have h3q : s3.queue = s.queue := by rw [hs3]; rfl
  have hq3 : ∀ q M, IsQueue s q M → IsQueue s3 q M := fun q M h =>
    isQueue_congr h3n (by rw [h3q]) (by rw [h3q]) h
  have hce3 : (s3.skb c).chain_end = c := by rw [h3c]; exact hcs
  obtain ⟨s4, hs4, hq4, h4c, h4n, h4x, h4q, h4b, h4f⟩ := queue_tail_single (hq3 A L hq) hce3 hcL
  have hbody : kfree_body cfg d s = .ok (if cfg.checked then s4.addBalance A 1 else s4) := by
    unfold kfree_body
    rw [if_pos hsh]
    have e1 : ((s.setSkb d
        (fun k => { k with cap_flags := clearBits k.cap_flags RTSKB_CAP_SHARED })).skb d).cap_comp_skb
        = c := by simp [hc]
    have e2 : ((s.setSkb d
        (fun k => { k with cap_flags := clearBits k.cap_flags RTSKB_CAP_SHARED })).skb d).pool
        = some A := by simp [hA]
    have e3 : ((s.setSkb d
        (fun k => { k with cap_flags := clearBits k.cap_flags RTSKB_CAP_SHARED })).skb c).pool
        = some C := by simp [hcd, hC]
    simp only [e1, e2, e3, ← hs3]
    have e4 : (s3.skb c).pool = some A := by rw [h3c]
    simp only [e4, hs4]
  have hfin : ∀ s5 : State, s5.skb = s4.skb → (∀ q, q ≠ A → s5.queue q = s4.queue q) →
      (s5.queue A).first = (s4.queue A).first → (s5.queue A).last = (s4.queue A).last →
      IsQueue s5 A (L ++ [c]) ∧
      s5.skb d = { s.skb d with
        cap_flags := clearBits (s.skb d).cap_flags RTSKB_CAP_SHARED
        pool := some C } ∧
      s5.skb c = { s.skb c with pool := some A, next := none } ∧
      (∀ x, x ≠ d → x ≠ c → (s5.skb x).noNext = (s.skb x).noNext) ∧
      (∀ x, x ≠ d → x ≠ c → x ∉ L → s5.skb x = s.skb x) ∧
      (∀ q, q ≠ A → s5.queue q = s.queue q) ∧
      (∀ q M, q ≠ A → IsQueue s q M → c ∉ M → (∀ x ∈ L, x ∉ M) → IsQueue s5 q M) := by
    intro s5 hk hqo hf hl
    have hn5 : ∀ x, s5.nextOf x = s4.nextOf x := fun x => by simp [State.nextOf, hk]
    refine ⟨isQueue_congr hn5 hf hl hq4, ?_, ?_, ?_, ?_, ?_, ?_⟩
    · rw [hk, h4x d hdc hdL, h3d]
    · rw [hk, h4c, h3c]
    · intro x h1 h2; rw [hk, h4n x h2, h3x x h1 h2]
    · intro x h1 h2 h3; rw [hk, h4x x h2 h3, h3x x h1 h2]
    · intro q hqA; rw [hqo q hqA, h4q q hqA, h3q]
    · intro q M hqA hM hcM hLM
      have := h4f q M hqA (hq3 q M hM) hcM hLM
      exact isQueue_congr hn5 (by rw [hqo q hqA]) (by rw [hqo q hqA]) this
  cases hch : cfg.checked with
  | false =>
    obtain ⟨g1, g2, g3, g4, g5, g6, g7⟩ := hfin s4 rfl (fun _ _ => rfl) rfl rfl
    refine ⟨s4, by rw [hbody, hch]; rfl, g1, g2, g3, g4, g5, g6, ?_, g7⟩
    simp [h4b, h3q]
  | true =>
    obtain ⟨g1, g2, g3, g4, g5, g6, g7⟩ := hfin (s4.addBalance A 1) rfl
      (fun q hqA => by simp [hqA]) (by simp) (by simp)
    refine ⟨s4.addBalance A 1, by rw [hbody, hch]; rfl, g1, g2, g3, g4, g5, g6, ?_, g7⟩
    simp [h4b, h3q]

/-- C28: in the capture-enabled build, `kfree_rtskb` on a single in-flight
descriptor `d` that has `RTSKB_CAP_SHARED` set, owner pool `A` and companion
descriptor `c` (a single in-flight descriptor with owner pool `C`) returns; it
clears the share flag of `d`, makes `C` the owner of `d` and `A` the owner of
`c`, and appends `c` at the tail of `A`'s free list, which grows by exactly one
entry and does not hold `d`; every other free list is what it was, so `d` is
appended to none. -/
theorem kfree_rtskb_share_flag (cfg : Config) (fuel d c A C : Nat) (L : List Nat) (s : State)
    (hr : cfg.rtcap = true) (hfuel : 0 < fuel) (hsingle : (s.skb d).chain_end = d)
    (hsh : (s.skb d).cap_flags &&& RTSKB_CAP_SHARED ≠ 0) (hA : (s.skb d).pool = some A)
    (hc : (s.skb d).cap_comp_skb = c) (hC : (s.skb c).pool = some C)
    (hcs : (s.skb c).chain_end = c) (hcd : c ≠ d) (hq : IsQueue s A L) (hcL : c ∉ L)
    (hdL : d ∉ L) :
    ∃ s1, kfree_rtskb cfg fuel d s = .ok s1 ∧
      (s1.skb d).cap_flags &&& RTSKB_CAP_SHARED = 0 ∧
      (s1.skb d).pool = some C ∧ (s1.skb c).pool = some A ∧
      IsQueue s1 A (L ++ [c]) ∧ (L ++ [c]).length = L.length + 1 ∧ d ∉ L ++ [c] ∧
      (∀ q M, q ≠ A → IsQueue s q M → c ∉ M → (∀ x ∈ L, x ∉ M) → IsQueue s1 q M) ∧
      (cfg.checked = true → (s1.queue A).pool_balance = (s.queue A).pool_balance + 1) := by
  obtain ⟨n, rfl⟩ : ∃ n, fuel = n + 1 := ⟨fuel - 1, by omega⟩
  obtain ⟨s1, hb, hq1, hd1, hc1, _, _, _, hbal, hfr⟩ :=
    kfree_body_shared cfg hsh hA hc hC hcs hcd hq hcL hdL
  refine ⟨s1, ?_, ?_, ?_, ?_, hq1, by simp, ?_, hfr, ?_⟩
  · unfold kfree_rtskb RTNET_ASSERT_fails
    simp [hA, hr, kfree_loop, hb, hsingle]
  · rw [hd1]; exact clearBits_and _ _
  · rw [hd1]
  · rw [hc1]
  · simp only [List.mem_append, List.mem_singleton, not_or]
    exact ⟨hdL, fun h => hcd h.symm⟩
  · intro hch; rw [hbal, hch]; rfl

/-- C28 on the shared sample: descriptor 30 (owner: pool 1) with companion 60
(owner: pool 2). -/
theorem kfree_rtskb_share_flag_witness :
    ∃ s1, kfree_rtskb (sampleCfg true true) 1 30 sampleShared = .ok s1 ∧
      (s1.skb 30).cap_flags &&& RTSKB_CAP_SHARED = 0 ∧
      (s1.skb 30).pool = some 2 ∧ (s1.skb 60).pool = some 1 ∧
      IsQueue s1 1 ([10, 11] ++ [60]) ∧ ([10, 11] ++ [60]).length = [10, 11].length + 1 ∧
      30 ∉ [10, 11] ++ [60] ∧
      (∀ q M, q ≠ 1 → IsQueue sampleShared q M → 60 ∉ M → (∀ x ∈ [10, 11], x ∉ M) →
        IsQueue s1 q M) ∧
      ((sampleCfg true true).checked = true →
        (s1.queue 1).pool_balance = (sampleShared.queue 1).pool_balance + 1) :=
  kfree_rtskb_share_flag (sampleCfg true true) 1 30 60 1 2 [10, 11] sampleShared rfl (by decide)
    (by decide) (by decide) (by decide) (by decide) (by decide) (by decide) (by decide)
    (by decide) (by decide) (by decide)

/-! ## The two builds of `kfree_rtskb` -/

/-- A write of the value a field already has changes nothing. -/
theorem setSkb_chain_end_self {s : State} {d : Nat} (h : (s.skb d).chain_end = d) :
    s.setSkb d (fun k => { k with chain_end := d }) = s := by
  have e : ({ s.skb d with chain_end := d } : Rtskb) = s.skb d := by
    cases hk : s.skb d
    rw [hk] at h
    simp only at h
    simp [h]
  cases s with
  | mk skb queue mem a b c1 d1 =>
    simp only [State.setSkb, State.mk.injEq, and_true]
    exact Function.update_eq_iff.mpr ⟨e, fun _ _ => rfl⟩

/-- Function `rtskb_queue_tail` writes no field of a descriptor but `next`,
whatever the state of the queue. -/
theorem queue_tail_noNext {s s1 : State} {q d : Nat} (h : rtskb_queue_tail q d s = .ok s1)
    (x : Nat) : (s1.skb x).noNext = (s.skb x).noNext := by
  unfold rtskb_queue_tail at h
  simp only at h
  generalize (s.skb d).chain_end = ce at h
  split at h
  · cases h
    by_cases hx : x = ce <;> simp [hx, Rtskb.noNext]
  · split at h
    · cases h
    · cases h
      rename_i l _
      by_cases hx3 : ce = l
      · subst hx3
        by_cases hx : x = ce <;> simp [hx, Rtskb.noNext]
      · by_cases hx : x = l
        · subst hx
          have hx4 : ¬ x = ce := fun h => hx3 h.symm
          simp [hx4, Rtskb.noNext]
        · by_cases hx2 : x = ce
          · subst hx2; simp [hx3, Rtskb.noNext]
          · simp [hx, hx2, Rtskb.noNext]

/-- On a single descriptor whose share flag is clear and whose `chain_len` is
1, the capture-enabled build of `kfree_rtskb` computes what the other build
computes. -/
theorem kfree_rtskb_builds_agree (cfg : Config) (fuel fuel1 h : Nat) (s : State)
    (hr : cfg.rtcap = false) (hfuel : 0 < fuel1) (hsingle : (s.skb h).chain_end = h)
    (hns : (s.skb h).cap_flags &&& RTSKB_CAP_SHARED = 0)
    (hlen : cfg.checked = true → (s.skb h).chain_len = 1) :
    kfree_rtskb { cfg with rtcap := true } fuel1 h s = kfree_rtskb cfg fuel h s := by
  obtain ⟨n, rfl⟩ : ∃ n, fuel1 = n + 1 := ⟨fuel1 - 1, by omega⟩
  unfold kfree_rtskb RTNET_ASSERT_fails
  simp only [hr]
  split
  · rfl
  · simp only [if_true, kfree_loop, hsingle]
    unfold kfree_body
    rw [if_neg (by simpa using hns), setSkb_chain_end_self hsingle]
    cases hp : (s.skb h).pool with
    | none => simp [hp]
    | some p =>
      cases ht : rtskb_queue_tail p h s with
      | error e => simp [hp, ht]
      | ok s1 =>
        cases hch : cfg.checked with
        | false => simp [hp, ht]
        | true =>
          have : (s1.skb h).chain_len = 1 := by
            rw [(noNext_fields (queue_tail_noNext ht h)).2.2.1]
            exact hlen hch
          simp [hp, ht, this]

/-- C30, as the code has it: in the build without the capture feature,
`kfree_rtskb` on the head `h` of a chain `h :: rest` (linked through `next`,
the head's `chain_end` naming the last member) returns and appends the whole
chain as one unit, in chain order, to the tail of the free list of `h`'s owner
pool; no owner is consulted but the head's and none is changed; in the checked
build the pool's balance counter grows by `h`'s `chain_len`.  For a single
descriptor (`rest = []`) with `chain_len` 1 whose share flag is not set, the
capture-enabled build returns the very same state. -/
theorem kfree_rtskb_whole_chain (cfg : Config) (fuel h P : Nat) (rest L : List Nat)
    (e : Option Nat) (s : State) (hr : cfg.rtcap = false) (hP : (s.skb h).pool = some P)
    (hq : IsQueue s P L) (hlink : chainSeg s.nextOf (some h) (h :: rest) e)
    (hce : (h :: rest).getLast? = some (s.skb h).chain_end) (hnd : (L ++ h :: rest).Nodup) :
    ∃ s1, kfree_rtskb cfg fuel h s = .ok s1 ∧ IsQueue s1 P (L ++ h :: rest) ∧
      (∀ x, (s1.skb x).pool = (s.skb x).pool) ∧
      (∀ q, q ≠ P → s1.queue q = s.queue q) ∧
      (cfg.checked = true →
        (s1.queue P).pool_balance = (s.queue P).pool_balance + ((s.skb h).chain_len : Int)) ∧
      (rest = [] → (s.skb h).cap_flags &&& RTSKB_CAP_SHARED = 0 →
        (cfg.checked = true → (s.skb h).chain_len = 1) →
        ∀ fuel1, 0 < fuel1 → kfree_rtskb { cfg with rtcap := true } fuel1 h s = .ok s1) := by
  obtain ⟨s1, hk, hq1, hnn, _, hqo, hbal⟩ := kfree_rtskb_unit cfg fuel hr hP hq hlink hce hnd
  refine ⟨s1, hk, hq1, fun x => (noNext_fields (hnn x)).1, hqo, ?_, ?_⟩
  · intro hch; rw [hbal, hch]; rfl
  · intro hrest hns hlen fuel1 hfuel1
    subst hrest
    have hsingle : (s.skb h).chain_end = h := by
      have : some h = some (s.skb h).chain_end := by simpa using hce
      exact (Option.some.inj this).symm
    rw [kfree_rtskb_builds_agree cfg fuel fuel1 h s hr hfuel1 hsingle hns hlen, hk]

/-- C30 on the sample chain `30 -> 31 -> 32` (member 31 is owned by pool 2),
and on the single descriptor 30 of the sample state, where the two builds
agree. -/
theorem kfree_rtskb_whole_chain_witness :
    (∃ s1, kfree_rtskb (sampleCfg true false) 0 30 sampleChain = .ok s1 ∧
      IsQueue s1 1 ([10, 11] ++ [30, 31, 32]) ∧
      (∀ x, (s1.skb x).pool = (sampleChain.skb x).pool) ∧
      (∀ q, q ≠ 1 → s1.queue q = sampleChain.queue q) ∧
      (s1.queue 1).pool_balance =
        (sampleChain.queue 1).pool_balance + ((sampleChain.skb 30).chain_len : Int)) ∧
    (∃ s1, kfree_rtskb (sampleCfg true false) 0 30 sampleState = .ok s1 ∧
      IsQueue s1 1 ([10, 11] ++ [30]) ∧
      kfree_rtskb (sampleCfg true true) 1 30 sampleState = .ok s1) := by
  constructor
  · obtain ⟨s1, h1, h2, h3, h4, h5, _⟩ :=
      kfree_rtskb_whole_chain (sampleCfg true false) 0 30 1 [31, 32] [10, 11] none sampleChain
        rfl (by decide) (by decide) (by decide) (by decide) (by decide)
    exact ⟨s1, h1, h2, h3, h4, h5 rfl⟩
  · obtain ⟨s1, h1, h2, _, _, _, h6⟩ :=
      kfree_rtskb_whole_chain (sampleCfg true false) 0 30 1 [] [10, 11] none sampleState
        rfl (by decide) (by decide) (by decide) (by decide) (by decide)
    exact ⟨s1, h1, h2, h6 rfl (by decide) (by decide) 1 (by decide)⟩

/-- C30 fails as stated for a single descriptor with the share flag set:
descriptor 30 (owner: pool 1, companion 60) is appended to pool 1 by the build
without the capture feature, while the capture-enabled build appends the
companion 60 instead. -/
theorem kfree_rtskb_whole_chain_counterexample :
    (sampleShared.skb 30).chain_end = 30 ∧ (sampleShared.skb 30).chain_len = 1 ∧
      (sampleShared.skb 30).pool = some 1 ∧ IsQueue sampleShared 1 [10, 11] ∧
      ∃ s1 s2, kfree_rtskb (sampleCfg true false) 1 30 sampleShared = .ok s1 ∧
        kfree_rtskb (sampleCfg true true) 1 30 sampleShared = .ok s2 ∧
        IsQueue s1 1 [10, 11, 30] ∧ IsQueue s2 1 [10, 11, 60] ∧
        (s1.queue 1).last ≠ (s2.queue 1).last :=
  ⟨by decide, by decide, by decide, by decide, _, _, rfl, rfl, by decide, by decide, by decide⟩

/-! ## The hand-off in full -/

/-- Writing the owner commutes with blanking `next`. -/
theorem noNext_set_pool {a b : Rtskb} (h : a.noNext = b.noNext) (p : Option Nat) :
    ({ a with pool := p } : Rtskb).noNext = ({ b with pool := p } : Rtskb).noNext := by
  cases a; cases b
  simp only [Rtskb.noNext, Rtskb.mk.injEq] at h ⊢
  simp [h]

/-- The complete effect of a successful `rtskb_acquire(d, C)`: the head `c` of
`C` goes to the tail of the free list of `d`'s owner `A` (which may be `C`
itself), `c` becomes a single descriptor owned by `A`, `d` becomes owned by
`C`, and no other free list changes.  The free lists are given as they stand
once `c` has left `C`. -/
theorem rtskb_acquire_spec (cfg : Config) {d A C c : Nat} {LA LC : List Nat} {s : State}
    (hPd : (s.skb d).pool = some A) (hqC : IsQueue s C (c :: LC)) (hdc : d ≠ c)
    (hqA : IsQueue (rtskb_dequeue C s).2 A LA) (hcLA : c ∉ LA) :
    ∃ s1, rtskb_acquire cfg d C s = .ok (0, s1) ∧ IsQueue s1 A (LA ++ [c]) ∧
      (s1.skb d).noNext = ({ s.skb d with pool := some C } : Rtskb).noNext ∧
      (d ∉ LA → s1.skb d = { s.skb d with pool := some C }) ∧
      (s1.skb c).pool = some A ∧ (s1.skb c).chain_end = c ∧
      (∀ x, x ≠ d → x ≠ c → (s1.skb x).noNext = (s.skb x).noNext) ∧
      (∀ q M, q ≠ A → IsQueue (rtskb_dequeue C s).2 q M → c ∉ M → (∀ x ∈ LA, x ∉ M) →
        IsQueue s1 q M) := by
  have hcd : c ≠ d := fun h => hdc h.symm
  obtain ⟨hdeq, h0x, h0c, _, _, _, _, _⟩ := dequeue_effect hqC
  generalize hs1 : (rtskb_dequeue C s).2 = s1 at hdeq h0x h0c hqA
  obtain ⟨s4, hs4⟩ : ∃ s4, s4 =
      ((if cfg.checked then s1.addBalance C (-1) else s1).setSkb c
        (fun k => { k with chain_end := c })).setSkb c
        (fun k => { k with pool := some A }) := ⟨_, rfl⟩
  have hn4 : ∀ x, s4.nextOf x = s1.nextOf x := by
    intro x
    rw [hs4]
    cases cfg.checked <;> by_cases hx : x = c <;> simp [hx, State.nextOf]
  have hf4 : ∀ q, (s4.queue q).first = (s1.queue q).first ∧
      (s4.queue q).last = (s1.queue q).last := by
    intro q
    rw [hs4]
    cases cfg.checked <;> by_cases hx : q = C <;> simp [hx]
  have hq4 : ∀ q M, IsQueue s1 q M → IsQueue s4 q M := fun q M h =>
    isQueue_congr hn4 (hf4 q).1 (hf4 q).2 h
  have hce4 : (s4.skb c).chain_end = c := by
    rw [hs4]; cases cfg.checked <;> simp
  have hp4 : (s4.skb c).pool = some A := by
    rw [hs4]; cases cfg.checked <;> simp
  have h4x : ∀ x, x ≠ c → s4.skb x = s.skb x := by
    intro x hx
    rw [hs4]; cases cfg.checked <;> simp [hx, h0x x hx]
  obtain ⟨s5, hs5, hq5, h5c, h5n, h5x, _, _, h5f⟩ := queue_tail_single (hq4 A LA hqA) hce4 hcLA
  have hres : rtskb_acquire cfg d C s =
      .ok (0, ((if cfg.checked then
          (s5.setSkb c (fun k => { k with chain_len := 1 })).addBalance A 1
        else s5).setSkb d (fun k => { k with pool := some C }))) := by
    unfold rtskb_acquire
    rw [hdeq]
    have e1 : ((if cfg.checked then s1.addBalance C (-1) else s1).setSkb c
        (fun k => { k with chain_end := c })).skb d = s.skb d := by
      cases cfg.checked <;> simp [hdc, h0x d hdc]
    simp only [e1, hPd, ← hs4, hp4, hs5]
  have hfin : ∀ s6 : State, (∀ x, x ≠ c → s6.skb x = s5.skb x) →
      (s6.skb c).noNext = ({ s5.skb c with chain_len := (s6.skb c).chain_len } : Rtskb).noNext →
      (s6.skb c).next = (s5.skb c).next →
      (∀ q, (s6.queue q).first = (s5.queue q).first ∧ (s6.queue q).last = (s5.queue q).last) →
      IsQueue (s6.setSkb d (fun k => { k with pool := some C })) A (LA ++ [c]) ∧
      ((s6.setSkb d (fun k => { k with pool := some C })).skb d).noNext =
        ({ s.skb d with pool := some C } : Rtskb).noNext ∧
      (d ∉ LA → (s6.setSkb d (fun k => { k with pool := some C })).skb d =
        { s.skb d with pool := some C }) ∧
      ((s6.setSkb d (fun k => { k with pool := some C })).skb c).pool = some A ∧
      ((s6.setSkb d (fun k => { k with pool := some C })).skb c).chain_end = c ∧
      (∀ x, x ≠ d → x ≠ c →
        ((s6.setSkb d (fun k => { k with pool := some C })).skb x).noNext = (s.skb x).noNext) ∧
      (∀ q M, q ≠ A → IsQueue s1 q M → c ∉ M → (∀ x ∈ LA, x ∉ M) →
        IsQueue (s6.setSkb d (fun k => { k with pool := some C })) q M) := by
    intro s6 h6x h6c h6n h6q
    have hn6 : ∀ x, (s6.setSkb d (fun k => { k with pool := some C })).nextOf x = s5.nextOf x := by
      intro x
      by_cases hx : x = d
      · subst hx; simp [State.nextOf, h6x x hdc]
      · by_cases hx2 : x = c
        · subst hx2; simp [State.nextOf, hx, h6n]
        · simp [State.nextOf, hx, h6x x hx2]
    have hq6 : ∀ q M, IsQueue s5 q M →
        IsQueue (s6.setSkb d (fun k => { k with pool := some C })) q M := fun q M h =>
      isQueue_congr hn6 (by simpa using (h6q q).1) (by simpa using (h6q q).2) h
    have h5d : (s5.skb d).noNext = (s.skb d).noNext := by
      rw [h5n d hdc, h4x d hdc]
    refine ⟨hq6 A _ hq5, ?_, ?_, ?_, ?_, ?_, ?_⟩
    · simp only [setSkb_skb, if_true, h6x d hdc]
      exact noNext_set_pool h5d _
    · intro hdLA
      simp only [setSkb_skb, if_true, h6x d hdc, h5x d hdc hdLA, h4x d hdc]
    · simp only [setSkb_skb, if_neg hcd]
      rw [(noNext_fields h6c).1, h5c]
      exact hp4
    · simp only [setSkb_skb, if_neg hcd]
      rw [(noNext_fields h6c).2.1, h5c]
      exact hce4
    · intro x h1 h2
      simp only [setSkb_skb, if_neg h1, h6x x h2]
      rw [h5n x h2, h4x x h2]
    · intro q M hqA hM hcM hLM
      exact hq6 q M (h5f q M hqA (hq4 q M hM) hcM hLM)
  cases hch : cfg.checked with
  | false =>
    rw [hch] at hres
    exact ⟨_, hres, hfin s5 (fun _ _ => rfl) (by cases s5.skb c; rfl) rfl (fun _ => ⟨rfl, rfl⟩)⟩
  | true =>
    rw [hch] at hres
    refine ⟨_, hres, hfin ((s5.setSkb c (fun k => { k with chain_len := 1 })).addBalance A 1)
      ?_ ?_ ?_ ?_⟩
    · intro x hx; simp [hx]
    · simp [Rtskb.noNext]
    · simp
    · intro q; by_cases hq : q = A <;> simp [hq]

/-- C25: take distinct pools `A` and `C` whose free lists `d :: LA` and
`c :: LC` share no descriptor, the head `d` being owned by `A`.  Then
`alloc_rtskb` on `A` hands out `d`, `rtskb_acquire(d, C)` returns 0, and
`kfree_rtskb(d)` returns; afterwards `A` holds `LA ++ [c]`, as many descriptors
as before the allocate, `C` holds `LC ++ [d]`, as many as before the acquire,
and `d` is the last entry of `C`'s free list and no entry of `A`'s.  The share
flag of `d` is clear because `alloc_rtskb` clears it. -/
theorem acquire_no_net_loss (cfg : Config) (size fuel A C d c : Nat) (LA LC : List Nat)
    (s : State) (hAC : A ≠ C) (hfuel : 0 < fuel) (hqA : IsQueue s A (d :: LA))
    (hqC : IsQueue s C (c :: LC)) (hdisj : ∀ x ∈ d :: LA, x ∉ c :: LC)
    (hown : (s.skb d).pool = some A) (hsz : cfg.checked = true → size ≤ cfg.capacity) :
    ∃ s1 s2 s3, alloc_rtskb cfg size A s = (some d, s1) ∧
      rtskb_acquire cfg d C s1 = .ok (0, s2) ∧ kfree_rtskb cfg fuel d s2 = .ok s3 ∧
      IsQueue s3 A (LA ++ [c]) ∧ (LA ++ [c]).length = (d :: LA).length ∧
      IsQueue s3 C (LC ++ [d]) ∧ (LC ++ [d]).length = (c :: LC).length ∧
      (LC ++ [d]).getLast? = some d ∧ d ∉ LA ++ [c] := by
  have hdLA : d ∉ LA := (List.nodup_cons.mp hqA.2.1).1
  have hcLC : c ∉ LC := (List.nodup_cons.mp hqC.2.1).1
  have hdc : d ≠ c := fun h =>
    hdisj d (List.mem_cons_self d LA) (h ▸ List.mem_cons_self d LC)
  have hdLC : d ∉ LC := fun h => hdisj d (List.mem_cons_self d LA) (List.mem_cons_of_mem c h)
  have hcLA : c ∉ LA := fun h => hdisj c (List.mem_cons_of_mem d h) (List.mem_cons_self c LC)
  have hLALC : ∀ x ∈ LA, x ∉ LC := fun x hx h =>
    hdisj x (List.mem_cons_of_mem d hx) (List.mem_cons_of_mem c h)
  -- allocate
  have hal := alloc_rtskb_cons cfg size hqA hsz
  obtain ⟨_, _, hd1, _, _, _⟩ := alloc_rtskb_some hal
  have hqA1 := isQueue_alloc hqA hal
  have hqC1 := alloc_frame hal (fun h => hAC h.symm) hqC
    (hdisj d (List.mem_cons_self d LA))
  generalize hs1 : (alloc_rtskb cfg size A s).2 = s1 at hd1 hqA1 hqC1
  have ha : alloc_rtskb cfg size A s = (some d, s1) := by rw [← hs1, ← hal]
  have hP1 : (s1.skb d).pool = some A := by rw [hd1]; exact hown
  -- acquire
  have hqA1d := dequeue_frame hqC1 hAC hqA1 hcLA
  have hqC1d := isQueue_dequeue hqC1
  obtain ⟨s2, hacq, hqA2, _, hd2, _, _, _, hfr2⟩ :=
    rtskb_acquire_spec cfg hP1 hqC1 hdc hqA1d hcLA
  have hqC2 := hfr2 C LC (fun h => hAC h.symm) hqC1d hcLC hLALC
  have hd2 := hd2 hdLA
  -- free
  have hP2 : (s2.skb d).pool = some C := by rw [hd2]
  have hce2 : (s2.skb d).chain_end = d := by rw [hd2, hd1]
  have hns2 : cfg.rtcap = true → (s2.skb d).cap_flags &&& RTSKB_CAP_SHARED = 0 := by
    intro hr; rw [hd2, hd1]; simp [hr]
  obtain ⟨s3, hk, hqC3, _, _, h3x, h3q, _⟩ := kfree_rtskb_single cfg fuel hfuel hP2 hqC2 hdLC hce2 hns2
  have hqA3 : IsQueue s3 A (LA ++ [c]) := by
    refine isQueue_frame (h3q A hAC) ?_ hqA2
    intro x hx
    have hx1 : x ≠ d := by
      rintro rfl
      rcases List.mem_append.mp hx with h | h
      · exact hdLA h
      · exact hdc (List.mem_singleton.mp h)
    have hx2 : x ∉ LC := by
      rcases List.mem_append.mp hx with h | h
      · exact hLALC x h
      · rw [List.mem_singleton.mp h]; exact hcLC
    simp [State.nextOf, h3x x hx1 hx2]
  refine ⟨s1, s2, s3, ha, hacq, hk, hqA3, by simp, hqC3, by simp, by simp, ?_⟩
  simp only [List.mem_append, List.mem_singleton, not_or]
  exact ⟨hdLA, hdc⟩

/-- C25 on the sample state with `A` pool 4 (free list `[40, 41]`) and `C`
pool 2 (free list `[20]`). -/
theorem acquire_no_net_loss_witness :
    ∃ s1 s2 s3, alloc_rtskb (sampleCfg true true) 64 4 sampleState = (some 40, s1) ∧
      rtskb_acquire (sampleCfg true true) 40 2 s1 = .ok (0, s2) ∧
      kfree_rtskb (sampleCfg true true) 1 40 s2 = .ok s3 ∧
      IsQueue s3 4 ([41] ++ [20]) ∧ ([41] ++ [20]).length = [40, 41].length ∧
      IsQueue s3 2 ([] ++ [40]) ∧ (([] : List Nat) ++ [40]).length = [20].length ∧
      (([] : List Nat) ++ [40]).getLast? = some 40 ∧ 40 ∉ [41] ++ [20] :=
  acquire_no_net_loss (sampleCfg true true) 64 1 4 2 40 20 [41] [] sampleState (by decide)
    (by decide) (by decide) (by decide) (by decide) (by decide) (by decide)

/-! ## Facts for `rtskb_pools_init` -/

/-- A longer run of requests obtains what the shorter run obtains, and more. -/
theorem granted_extends : ∀ (a b : Nat) (slab : List (Option Nat)),
    ∃ t, granted (a + b) slab = granted a slab ++ t
  | 0, b, slab => ⟨granted (0 + b) slab, by simp [granted]⟩
  | a + 1, b, [] => ⟨[], by rw [Nat.add_right_comm]; simp [granted]⟩
  | a + 1, b, none :: rest => ⟨[], by rw [Nat.add_right_comm]; simp [granted]⟩
  | a + 1, b, some d :: rest => by
    obtain ⟨t, ht⟩ := granted_extends a b rest
    exact ⟨t, by rw [Nat.add_right_comm]; simp [granted, ht]⟩

/-- When the first `a` requests all succeed, the next `b` requests continue
with the outcomes behind them. -/
theorem granted_add : ∀ (a b : Nat) (slab : List (Option Nat)),
    (granted a slab).length = a →
      granted (a + b) slab = granted a slab ++ granted b (slab.drop a)
  | 0, b, slab, _ => by simp [granted]
  | a + 1, b, [], h => by simp [granted] at h
  | a + 1, b, none :: rest, h => by simp [granted] at h
  | a + 1, b, some d :: rest, h => by
    have h1 : (granted a rest).length = a := by simpa [granted] using h
    rw [Nat.add_right_comm]
    simp [granted, granted_add a b rest h1]

/-- The first statements of the two init functions leave the high-water marks
alone. -/
theorem pool_init_head_max (cfg : Config) (pool : Nat) (s : State) :
    (pool_init_head cfg pool s).rtskb_amount_max = s.rtskb_amount_max ∧
      (pool_init_head cfg pool s).rtskb_pools_max = s.rtskb_pools_max := by
  unfold pool_init_head rtskb_queue_init
  cases cfg.checked <;> exact ⟨rfl, rfl⟩

/-- The high-water mark of the live buffers follows the counter through the
loop of `rtskb_pool_extend` when it starts level with it and the counter does
not wrap. -/
theorem extend_loop_max (cfg : Config) (pool : Nat) :
    ∀ (k i : Nat) (slab : List (Option Nat)) (s : State)
      (r : Nat × List (Option Nat) × State),
      rtskb_pool_extend_loop cfg pool k i slab s = .ok r →
      s.rtskb_amount_max = s.rtskb_amount → s.rtskb_amount + k < 4294967296 →
      r.2.2.rtskb_amount_max = r.2.2.rtskb_amount ∧
        r.2.2.rtskb_pools_max = s.rtskb_pools_max
  | 0, i, slab, s, r, h, hm, _ => by
    simp only [rtskb_pool_extend_loop, Except.ok.injEq] at h
    subst h; exact ⟨hm, rfl⟩
  | k + 1, i, slab, s, r, h, hm, hlt => by
    unfold rtskb_pool_extend_loop at h
    cases ha : kmem_cache_alloc slab with
    | mk o slab1 =>
      cases o with
      | none =>
        simp only [ha, Except.ok.injEq] at h
        subst h; exact ⟨hm, rfl⟩
      | some skb =>
        simp only [ha] at h
        split at h
        · cases h
        · rename_i s6 hs6
          obtain ⟨_, _, hpm, ham, hamm⟩ := queue_tail_globals hs6
          have e1 : s6.rtskb_amount = s.rtskb_amount := by
            rw [ham]; cases cfg.checked <;> rfl
          have e2 : s6.rtskb_amount_max = s.rtskb_amount_max := by
            rw [hamm]; cases cfg.checked <;> rfl
          have e3 : s6.rtskb_pools_max = s.rtskb_pools_max := by
            rw [hpm]; cases cfg.checked <;> rfl
          have hinc : inc32 s6.rtskb_amount = s6.rtskb_amount + 1 := by
            unfold inc32; rw [e1]; exact Nat.mod_eq_of_lt (by omega)
          have h1 : s6.amountInc.rtskb_amount = s6.rtskb_amount + 1 := by
            rw [amountInc_amount, hinc]
          have h2 : s6.amountInc.rtskb_amount_max = s6.rtskb_amount + 1 := by
            show (if inc32 s6.rtskb_amount > s6.rtskb_amount_max then inc32 s6.rtskb_amount
              else s6.rtskb_amount_max) = _
            rw [hinc, e2, hm, e1, if_pos (by omega)]
          obtain ⟨g1, g2⟩ := extend_loop_max cfg pool k (i + 1) slab1 s6.amountInc r h
            (by rw [h1, h2]) (by rw [h1, e1]; omega)
          exact ⟨g1, by rw [g2]; exact e3⟩

/-- The complete effect of `rtskb_pool_init` when the allocator hands out
distinct objects. -/
theorem pool_init_effect (cfg : Config) (pool n : Nat) (slab : List (Option Nat)) (s : State)
    (hfresh : (granted n slab).Nodup) :
    ∃ s1, rtskb_pool_init cfg pool n slab s =
        .ok ((granted n slab).length, slab.drop (min n ((granted n slab).length + 1)), s1) ∧
      IsQueue s1 pool (granted n slab) ∧
      (∀ d ∈ granted n slab, (s1.skb d).pool = some pool ∧ (s1.skb d).chain_end = d) ∧
      (∀ x, x ∉ granted n slab → s1.skb x = s.skb x) ∧
      (∀ q, q ≠ pool → s1.queue q = s.queue q) ∧
      s1.rtskb_amount = inc32^[(granted n slab).length] s.rtskb_amount ∧
      s1.rtskb_pools = inc32 s.rtskb_pools ∧
      (s.rtskb_amount_max = s.rtskb_amount → s.rtskb_amount + n < 4294967296 →
        s1.rtskb_amount_max = s1.rtskb_amount ∧
        s1.rtskb_pools_max =
          if inc32 s.rtskb_pools > s.rtskb_pools_max then inc32 s.rtskb_pools
          else s.rtskb_pools_max) := by
  obtain ⟨hp0, hk0, hq0, _, ha0, hpl0, _⟩ := pool_init_head_spec cfg pool s
  obtain ⟨hm0, hpm0⟩ := pool_init_head_max cfg pool s
  obtain ⟨s1, hloop, h1q, h1f, _, h1x, h1o, _, h1a, h1p, _⟩ :=
    extend_loop_spec cfg pool n 0 slab (pool_init_head cfg pool s) [] hp0
      (by simpa using hfresh)
  refine ⟨s1.poolsInc, ?_, isQueue_of_heaps rfl rfl (by simpa using h1q), ?_, ?_, ?_, ?_, ?_, ?_⟩
  · unfold rtskb_pool_init rtskb_pool_extend
    rw [hloop]
    simp
  · intro d hd
    exact ⟨(h1f d hd).1, (h1f d hd).2.1⟩
  · intro x hx
    rw [poolsInc_skb, h1x x hx (by simp), hk0]
  · intro q hq
    rw [poolsInc_queue, h1o q hq, hq0 q hq]
  · rw [poolsInc_amount, h1a, ha0]
  · rw [poolsInc_pools, h1p, hpl0]
  · intro hm hlt
    obtain ⟨g1, g2⟩ := extend_loop_max cfg pool n 0 slab (pool_init_head cfg pool s) _ hloop
      (by rw [hm0, ha0]; exact hm) (by rw [ha0]; exact hlt)
    refine ⟨g1, ?_⟩
    show (if inc32 s1.rtskb_pools > s1.rtskb_pools_max then inc32 s1.rtskb_pools
      else s1.rtskb_pools_max) = _
    have g2 : s1.rtskb_pools_max = s.rtskb_pools_max := by rw [← hpm0]; exact g2
    rw [h1p, hpl0, g2]

/-- Function `rtskb_pool_release` on a well-formed pool: with more fuel than
descriptors it returns and leaves the pool empty. -/
theorem pool_release_effect {pool : Nat} (fuel : Nat) {L : List Nat} {s : State}
    (hq : IsQueue s pool L) (hfuel : L.length < fuel) :
    ∃ s1, rtskb_pool_release fuel pool s = .ok s1 ∧ IsQueue s1 pool [] ∧
      (∀ x, x ∉ L → s1.skb x = s.skb x) ∧ (∀ q, q ≠ pool → s1.queue q = s.queue q) ∧
      s1.rtskb_amount = dec32^[L.length] s.rtskb_amount ∧
      s1.rtskb_pools = dec32 s.rtskb_pools := by
  obtain ⟨s1, hloop, h1q, h1x, h1o, h1a, h1p, _⟩ := release_loop_spec pool L fuel s hq hfuel
  refine ⟨s1.poolsDec, ?_, isQueue_of_heaps (poolsDec_skb _) (poolsDec_queue _) h1q, ?_, ?_, ?_, ?_⟩
  · unfold rtskb_pool_release __rtskb_pool_release
    rw [hloop]
  · intro x hx; rw [poolsDec_skb, h1x x hx]
  · intro q hq1; rw [poolsDec_queue, h1o q hq1]
  · rw [poolsDec_amount, h1a]
  · rw [poolsDec_pools, h1p]

/-! ## Claims on start-up and tear-down -/

/-- C27: let the allocator hand out distinct objects, and let `global_rtskbs`
fit its type `unsigned int`.  Then `rtskb_pools_init` returns (the fuel pays
for the release loops of its error exit), with 0 or `-ENOMEM`; it returns 0
exactly when `kmem_cache_create` gave a slab and the first `rtskb_cache_size +
global_rtskbs` allocations all succeeded; and on success the Reserve Cache
holds exactly the first `rtskb_cache_size` objects, the global pool exactly
the next `global_rtskbs`, and the statistics count the global pool alone:
`rtskb_pools = rtskb_pools_max = 1` and `rtskb_amount = rtskb_amount_max =
global_rtskbs`. -/
theorem rtskb_pools_init_spec (cfg : Config) (rtskb_cache_size global_rtskbs : Nat)
    (rtskb_slab_pool : Option Nat) (fuel : Nat) (slab : List (Option Nat)) (s : State)
    (hg : global_rtskbs < 4294967296) (hfuel : rtskb_cache_size + global_rtskbs < fuel)
    (hfresh : (granted (rtskb_cache_size + global_rtskbs) slab).Nodup) :
    ∃ r slab1 s1,
      rtskb_pools_init cfg rtskb_cache_size global_rtskbs rtskb_slab_pool fuel slab s =
        .ok (r, slab1, s1) ∧
      (r = 0 ∨ r = -ENOMEM) ∧
      (r = 0 ↔ rtskb_slab_pool.isSome = true ∧
        ∀ j, j < rtskb_cache_size + global_rtskbs → (slab.getD j none).isSome = true) ∧
      (r = 0 →
        IsQueue s1 rtskb_cache (granted rtskb_cache_size slab) ∧
        (granted rtskb_cache_size slab).length = rtskb_cache_size ∧
        IsQueue s1 global_pool (granted global_rtskbs (slab.drop rtskb_cache_size)) ∧
        (granted global_rtskbs (slab.drop rtskb_cache_size)).length = global_rtskbs ∧
        s1.rtskb_pools = 1 ∧ s1.rtskb_pools_max = 1 ∧
        s1.rtskb_amount = global_rtskbs ∧ s1.rtskb_amount_max = global_rtskbs) := by
  have hne : (-ENOMEM : Int) ≠ 0 := by decide
  have hcg : rtskb_cache ≠ global_pool := by decide
  cases hsp : rtskb_slab_pool with
  | none =>
    refine ⟨-ENOMEM, slab, s, rfl, Or.inr rfl, ⟨fun h => absurd h hne, fun h => ?_⟩,
      fun h => absurd h hne⟩
    simp at h
  | some v =>
    obtain ⟨t, ht⟩ := granted_extends rtskb_cache_size global_rtskbs slab
    have hfc : (granted rtskb_cache_size slab).Nodup := by
      rw [ht] at hfresh; exact (List.nodup_append.mp hfresh).1
    obtain ⟨s1, h1, h1q, _, _, _, _, _, _⟩ :=
      pool_init_effect cfg rtskb_cache rtskb_cache_size slab s hfc
    obtain ⟨_, hle, _⟩ := granted_spec rtskb_cache_size slab
    by_cases hlt : (granted rtskb_cache_size slab).length < rtskb_cache_size
    · -- the exit `err_out1`
      refine ⟨-ENOMEM,
        slab.drop (min rtskb_cache_size ((granted rtskb_cache_size slab).length + 1)), s1, ?_,
        Or.inr rfl, ⟨fun h => absurd h hne, fun h => ?_⟩, fun h => absurd h hne⟩
      · unfold rtskb_pools_init
        simp only [h1, hlt, if_true]
      · exfalso
        have := (granted_full_iff rtskb_cache_size slab).2
          (fun j hj => h.2 j (by omega))
        omega
    · have hfull : (granted rtskb_cache_size slab).length = rtskb_cache_size := by omega
      have hmin : min rtskb_cache_size ((granted rtskb_cache_size slab).length + 1) =
          rtskb_cache_size := by rw [hfull]; omega
      rw [hmin] at h1
      have hadd := granted_add rtskb_cache_size global_rtskbs slab hfull
      rw [hadd] at hfresh
      have hfg : (granted global_rtskbs (slab.drop rtskb_cache_size)).Nodup :=
        (List.nodup_append.mp hfresh).2.1
      have hcg2 : ∀ x ∈ granted rtskb_cache_size slab,
          x ∉ granted global_rtskbs (slab.drop rtskb_cache_size) :=
        fun x hx hx1 => List.disjoint_of_nodup_append hfresh hx hx1
      have h2q : IsQueue s1.resetStatistics rtskb_cache (granted rtskb_cache_size slab) :=
        isQueue_of_heaps rfl rfl h1q
      obtain ⟨s3, h3, h3q, _, h3x, h3o, h3a, h3p, h3m⟩ :=
        pool_init_effect cfg global_pool global_rtskbs (slab.drop rtskb_cache_size)
          s1.resetStatistics hfg
      have h3c : IsQueue s3 rtskb_cache (granted rtskb_cache_size slab) := by
        refine isQueue_frame (h3o rtskb_cache hcg) ?_ h2q
        intro d hd
        simp [State.nextOf, h3x d (hcg2 d hd)]
      obtain ⟨_, hle2, _⟩ := granted_spec global_rtskbs (slab.drop rtskb_cache_size)
      by_cases hlt2 : (granted global_rtskbs (slab.drop rtskb_cache_size)).length < global_rtskbs
      · -- the exit `err_out2`
        obtain ⟨s4, h4, _, h4x, h4o, _, _⟩ :=
          pool_release_effect fuel h3q (by omega)
        have h4c : IsQueue s4 rtskb_cache (granted rtskb_cache_size slab) := by
          refine isQueue_frame (h4o rtskb_cache hcg) ?_ h3c
          intro d hd
          simp [State.nextOf, h4x d (hcg2 d hd)]
        obtain ⟨s5, h5, _, _, _, _, _⟩ := pool_release_effect fuel h4c (by omega)
        refine ⟨-ENOMEM, (slab.drop rtskb_cache_size).drop (min global_rtskbs
            ((granted global_rtskbs (slab.drop rtskb_cache_size)).length + 1)), s5, ?_,
          Or.inr rfl, ⟨fun h => absurd h hne, fun h => ?_⟩, fun h => absurd h hne⟩
        · unfold rtskb_pools_init
          simp only [h1, hfull, Nat.lt_irrefl, if_false, h3, hlt2, if_true, h4, h5]
        · exfalso
          have := (granted_full_iff (rtskb_cache_size + global_rtskbs) slab).2 h.2
          rw [hadd, List.length_append] at this
          omega
      · have hfull2 : (granted global_rtskbs (slab.drop rtskb_cache_size)).length =
            global_rtskbs := by omega
        refine ⟨0, (slab.drop rtskb_cache_size).drop (min global_rtskbs
            ((granted global_rtskbs (slab.drop rtskb_cache_size)).length + 1)), s3, ?_,
          Or.inl rfl, ⟨fun _ => ⟨rfl, ?_⟩, fun _ => rfl⟩,
          fun _ => ⟨h3c, hfull, h3q, hfull2, ?_, ?_, ?_, ?_⟩⟩
        · unfold rtskb_pools_init
          simp only [h1, hfull, Nat.lt_irrefl, if_false, h3, hfull2]
        · apply (granted_full_iff (rtskb_cache_size + global_rtskbs) slab).1
          rw [hadd, List.length_append, hfull, hfull2]
        · rw [h3p]; rfl
        · rw [(h3m rfl (by simpa [State.resetStatistics] using hg)).2]; rfl
        · rw [h3a, hfull2]
          exact iterate_inc32_exact global_rtskbs 0 (by omega) |>.trans (by omega)
        · rw [(h3m rfl (by simpa [State.resetStatistics] using hg)).1, h3a, hfull2]
          exact iterate_inc32_exact global_rtskbs 0 (by omega) |>.trans (by omega)

/-- C27 on a start-up with a cache of two and a global pool of two, where the
allocator hands out the objects 100, 200, 300 and 400. -/
theorem rtskb_pools_init_spec_witness :
    ∃ slab1 s1,
      rtskb_pools_init (sampleCfg true true) 2 2 (some 5) 5
          [some 100, some 200, some 300, some 400] State.blank = .ok (0, slab1, s1) ∧
        IsQueue s1 rtskb_cache [100, 200] ∧ IsQueue s1 global_pool [300, 400] ∧
        s1.rtskb_pools = 1 ∧ s1.rtskb_pools_max = 1 ∧
        s1.rtskb_amount = 2 ∧ s1.rtskb_amount_max = 2 := by
  obtain ⟨r, slab1, s1, h, _, hiff, hs⟩ :=
    rtskb_pools_init_spec (sampleCfg true true) 2 2 (some 5) 5
      [some 100, some 200, some 300, some 400] State.blank (by decide) (by decide) (by decide)
  have hr : r = 0 := hiff.2 ⟨rfl, by decide⟩
  subst hr
  obtain ⟨g1, _, g2, _, g3, g4, g5, g6⟩ := hs rfl
  exact ⟨slab1, s1, h, g1, g2, g3, g4, g5, g6⟩

/-- C26 at its failing input: after a successful `rtskb_pools_init` (cache of
two, global pool of two) the statistics count the global pool alone, and
`rtskb_pools_release` then releases the Reserve Cache through the same
function as the global pool, which decrements the counters for the two
uncounted descriptors and the uncounted cache: `rtskb_pools` wraps to `2^32 -
1` above its high-water mark 1, and `rtskb_amount` wraps to `2^32 - 2` above
its high-water mark 2, while no descriptor is assigned to any pool. -/
theorem rtskb_pools_release_statistics :
    ∃ s1 s2,
      rtskb_pools_init (sampleCfg true true) 2 2 (some 5) 5
          [some 100, some 200, some 300, some 400] State.blank = .ok (0, [], s1) ∧
        s1.rtskb_pools = 1 ∧ s1.rtskb_pools_max = 1 ∧
        s1.rtskb_amount = 2 ∧ s1.rtskb_amount_max = 2 ∧
        rtskb_pools_release 5 s1 = .ok s2 ∧
        IsQueue s2 global_pool [] ∧ IsQueue s2 rtskb_cache [] ∧
        s2.rtskb_pools = 4294967295 ∧ s2.rtskb_pools_max = 1 ∧
        s2.rtskb_amount = 4294967294 ∧ s2.rtskb_amount_max = 2 ∧
        ¬ (s2.rtskb_pools ≤ s2.rtskb_pools_max) ∧ ¬ (s2.rtskb_amount ≤ s2.rtskb_amount_max) :=
  ⟨_, _, rfl, by decide, by decide, by decide, by decide, rfl, by decide, by decide, by decide,
    by decide, by decide, by decide, by decide, by decide⟩

/-! ## The membership invariant, call by call -/

/-- A non-empty pool: the free list starts with the descriptor `first` points to. -/
theorem isQueue_head {s : State} {q d : Nat} {L : List Nat} (h : IsQueue s q L)
    (hf : (s.queue q).first = some d) : ∃ L1, L = d :: L1 := by
  cases L with
  | nil =>
    have := (isQueue_nil_iff s q).1 h
    rw [hf] at this; cases this
  | cons a L1 =>
    have : (s.queue q).first = some a := h.1.1
    rw [hf] at this
    exact ⟨L1, by rw [Option.some.inj this]⟩

/-- Call `alloc_rtskb`: the head of the pool's free list goes in flight as a
single descriptor with a clear share flag; an empty pool changes nothing. -/
theorem memberInv_alloc (cfg : Config) (size pool : Nat) (st : Sys) (hI : MemberInv cfg st) :
    ∃ st1, sysStep cfg (.alloc size pool) st = .ok st1 ∧ MemberInv cfg st1 := by
  by_cases hp : pool ∈ st.pools
  swap
  · exact ⟨st, by simp [sysStep, hp], hI⟩
  cases ho : (alloc_rtskb cfg size pool st.s).1 with
  | none =>
    have h := alloc_rtskb_none ho
    refine ⟨st, ?_, hI⟩
    simp only [sysStep, hp, if_true, h]
  | some d =>
    obtain ⟨fl, h1, h2, h3, h4, h5, h6, h7⟩ := hI
    obtain ⟨hf, _, hd, hx, _, _⟩ := alloc_rtskb_some ho
    obtain ⟨L, hL⟩ := isQueue_head (h1 pool hp) hf
    have hqp : IsQueue st.s pool (d :: L) := hL ▸ h1 pool hp
    have hdL : d ∉ L := (List.nodup_cons.mp hqp.2.1).1
    have hdfl : d ∈ fl pool := by rw [hL]; exact List.mem_cons_self d L
    have hdo : ∀ p ∈ st.pools, p ≠ pool → d ∉ fl p := fun p hp1 hne =>
      h2 pool hp p hp1 (fun h => hne h.symm) d hdfl
    have hdout : d ∉ st.out := fun h => h4 d h pool hp hdfl
    obtain ⟨fl1, hA, hO⟩ : ∃ fl1 : Nat → List Nat, fl1 pool = L ∧ ∀ p, p ≠ pool → fl1 p = fl p :=
      ⟨fun p => if p = pool then L else fl p, by simp, fun p hp => by simp [hp]⟩
    have hsub : ∀ p x, x ∈ fl1 p → x ∈ fl p := by
      intro p x hx1
      by_cases hpp : p = pool
      · subst hpp; rw [hA] at hx1; rw [hL]; exact List.mem_cons_of_mem d hx1
      · rw [hO p hpp] at hx1; exact hx1
    have hpl : ∀ x, ((alloc_rtskb cfg size pool st.s).2.skb x).pool = (st.s.skb x).pool :=
      alloc_rtskb_pool_frame cfg size pool st.s
    refine ⟨{ st with s := (alloc_rtskb cfg size pool st.s).2, out := d :: st.out }, ?_,
      fl1, ?_, ?_, ?_, ?_, ?_, ?_, ?_⟩
    · have h : alloc_rtskb cfg size pool st.s = (some d, (alloc_rtskb cfg size pool st.s).2) := by
        rw [← ho]
      simp only [sysStep, hp, if_true]
      rw [h]
    · intro p hp1
      by_cases hpp : p = pool
      · subst hpp; rw [hA]; exact isQueue_alloc hqp ho
      · rw [hO p hpp]
        exact alloc_frame ho hpp (h1 p hp1) (hdo p hp1 hpp)
    · intro p hp1 q hq1 hne x hx1 hx2
      exact h2 p hp1 q hq1 hne x (hsub p x hx1) (hsub q x hx2)
    · exact List.nodup_cons.mpr ⟨hdout, h3⟩
    · intro x hx1 p hp1 hx2
      rcases List.mem_cons.mp hx1 with rfl | hxo
      · by_cases hpp : p = pool
        · subst hpp; rw [hA] at hx2; exact hdL hx2
        · rw [hO p hpp] at hx2; exact hdo p hp1 hpp hx2
      · exact h4 x hxo p hp1 (hsub p x hx2)
    · intro x
      show x ∈ st.live ↔ (x ∈ d :: st.out ∨ ∃ p ∈ st.pools, x ∈ fl1 p)
      rw [h5 x]
      constructor
      · rintro (hxo | ⟨p, hp1, hxp⟩)
        · exact Or.inl (List.mem_cons_of_mem d hxo)
        · by_cases hxd : x = d
          · exact Or.inl (hxd ▸ List.mem_cons_self d st.out)
          · refine Or.inr ⟨p, hp1, ?_⟩
            by_cases hpp : p = pool
            · subst hpp; rw [hA]
              rw [hL] at hxp
              exact (List.mem_cons.mp hxp).resolve_left hxd
            · rw [hO p hpp]; exact hxp
      · rintro (hxo | ⟨p, hp1, hxp⟩)
        · rcases List.mem_cons.mp hxo with rfl | hxo
          · exact Or.inr ⟨pool, hp, hdfl⟩
          · exact Or.inl hxo
        · exact Or.inr ⟨p, hp1, hsub p x hxp⟩
    · intro x hx1
      obtain ⟨q, hq, hpq⟩ := h6 x hx1
      exact ⟨q, hq, by rw [hpl x]; exact hpq⟩
    · intro x hx1
      rcases List.mem_cons.mp hx1 with rfl | hxo
      · show ((alloc_rtskb cfg size pool st.s).2.skb x).chain_end = x ∧ _
        rw [hd]
        exact ⟨rfl, fun hr => by simp [hr]⟩
      · have hxd : x ≠ d := fun h => hdout (h ▸ hxo)
        show ((alloc_rtskb cfg size pool st.s).2.skb x).chain_end = x ∧ _
        rw [hx x hxd]
        exact h7 x hxo

/-- The invariant survives a call that takes the block `T` off the head of
pool `X` and puts it behind the free list of another pool `Y`. -/
theorem memberInv_move (cfg : Config) {st : Sys} {fl : Nat → List Nat} {s1 : State}
    {X Y : Nat} {T R : List Nat}
    (h2 : ∀ p ∈ st.pools, ∀ q ∈ st.pools, p ≠ q → ∀ x ∈ fl p, x ∉ fl q)
    (h3 : st.out.Nodup) (h4 : ∀ d ∈ st.out, ∀ p ∈ st.pools, d ∉ fl p)
    (h5 : ∀ d, d ∈ st.live ↔ (d ∈ st.out ∨ ∃ p ∈ st.pools, d ∈ fl p))
    (hX : X ∈ st.pools) (hY : Y ∈ st.pools) (hXY : X ≠ Y) (hfl : fl X = T ++ R)
    (hnd : (T ++ R).Nodup) (hqX : IsQueue s1 X R) (hqY : IsQueue s1 Y (fl Y ++ T))
    (hqo : ∀ q ∈ st.pools, q ≠ X → q ≠ Y → IsQueue s1 q (fl q))
    (hown : ∀ x ∈ st.live, ∃ q ∈ st.pools, (s1.skb x).pool = some q)
    (hout : ∀ x ∈ st.out, (s1.skb x).chain_end = x ∧
      (cfg.rtcap = true → (s1.skb x).cap_flags &&& RTSKB_CAP_SHARED = 0)) :
    MemberInv cfg { st with s := s1 } := by
  obtain ⟨fl1, hfX, hfY, hfO⟩ : ∃ fl1 : Nat → List Nat, fl1 X = R ∧ fl1 Y = fl Y ++ T ∧
      ∀ p, p ≠ X → p ≠ Y → fl1 p = fl p :=
    ⟨fun p => if p = X then R else if p = Y then fl Y ++ T else fl p, by simp,
      by simp [hXY.symm], fun p h1 h2 => by simp [h1, h2]⟩
  have hTX : ∀ x ∈ T, x ∈ fl X := fun x hx => by rw [hfl]; exact List.mem_append_left R hx
  have hRX : ∀ x ∈ R, x ∈ fl X := fun x hx => by rw [hfl]; exact List.mem_append_right T hx
  have hTR : ∀ x ∈ T, x ∉ R := fun x hx hx1 => List.disjoint_of_nodup_append hnd hx hx1
  have horig : ∀ p x, x ∈ fl1 p → x ∈ fl p ∨ (p = Y ∧ x ∈ T) := by
    intro p x hx
    by_cases hpX : p = X
    · subst hpX; rw [hfX] at hx; exact Or.inl (hRX x hx)
    · by_cases hpY : p = Y
      · subst hpY; rw [hfY] at hx
        rcases List.mem_append.mp hx with h | h
        · exact Or.inl h
        · exact Or.inr ⟨rfl, h⟩
      · rw [hfO p hpX hpY] at hx; exact Or.inl hx
  have hTq : ∀ q ∈ st.pools, ∀ x ∈ T, x ∈ fl1 q → q = Y := by
    intro q hq x hxT hxq
    by_contra hqY1
    by_cases hqX1 : q = X
    · subst hqX1; rw [hfX] at hxq; exact hTR x hxT hxq
    · rw [hfO q hqX1 hqY1] at hxq
      exact h2 q hq X hX hqX1 x hxq (hTX x hxT)
  refine ⟨fl1, ?_, ?_, h3, ?_, ?_, hown, hout⟩
  · intro p hp
    by_cases hpX : p = X
    · subst hpX; rw [hfX]; exact hqX
    · by_cases hpY : p = Y
      · subst hpY; rw [hfY]; exact hqY
      · rw [hfO p hpX hpY]; exact hqo p hp hpX hpY
  · intro p hp q hq hne x hx1 hx2
    rcases horig p x hx1 with a | ⟨hpY, a⟩
    · rcases horig q x hx2 with b | ⟨hqY1, b⟩
      · exact h2 p hp q hq hne x a b
      · exact hne ((hTq p hp x b hx1).trans hqY1.symm)
    · exact hne (hpY.trans (hTq q hq x a hx2).symm)
  · intro x hx p hp hx1
    rcases horig p x hx1 with a | ⟨_, a⟩
    · exact h4 x hx p hp a
    · exact h4 x hx X hX (hTX x a)
  · intro x
    show x ∈ st.live ↔ (x ∈ st.out ∨ ∃ p ∈ st.pools, x ∈ fl1 p)
    rw [h5 x]
    constructor
    · rintro (hxo | ⟨p, hp, hxp⟩)
      · exact Or.inl hxo
      · right
        by_cases hpX : p = X
        · subst hpX
          rw [hfl] at hxp
          rcases List.mem_append.mp hxp with h | h
          · exact ⟨Y, hY, by rw [hfY]; exact List.mem_append_right _ h⟩
          · exact ⟨p, hp, by rw [hfX]; exact h⟩
        · by_cases hpY : p = Y
          · subst hpY
            exact ⟨p, hp, by rw [hfY]; exact List.mem_append_left _ hxp⟩
          · exact ⟨p, hp, by rw [hfO p hpX hpY]; exact hxp⟩
    · rintro (hxo | ⟨p, hp, hxp⟩)
      · exact Or.inl hxo
      · right
        rcases horig p x hxp with a | ⟨_, a⟩
        · exact ⟨p, hp, a⟩
        · exact ⟨X, hX, hTX x a⟩

/-- The invariant survives a call that rearranges the free lists without
changing which descriptors each of them holds. -/
theorem memberInv_same_members (cfg : Config) (fl1 : Nat → List Nat) {st : Sys}
    {fl : Nat → List Nat} {s1 : State}
    (h2 : ∀ p ∈ st.pools, ∀ q ∈ st.pools, p ≠ q → ∀ x ∈ fl p, x ∉ fl q)
    (h3 : st.out.Nodup) (h4 : ∀ d ∈ st.out, ∀ p ∈ st.pools, d ∉ fl p)
    (h5 : ∀ d, d ∈ st.live ↔ (d ∈ st.out ∨ ∃ p ∈ st.pools, d ∈ fl p))
    (hm : ∀ p ∈ st.pools, ∀ x, x ∈ fl1 p ↔ x ∈ fl p)
    (hq : ∀ p ∈ st.pools, IsQueue s1 p (fl1 p))
    (hown : ∀ x ∈ st.live, ∃ q ∈ st.pools, (s1.skb x).pool = some q)
    (hout : ∀ x ∈ st.out, (s1.skb x).chain_end = x ∧
      (cfg.rtcap = true → (s1.skb x).cap_flags &&& RTSKB_CAP_SHARED = 0)) :
    MemberInv cfg { st with s := s1 } := by
  refine ⟨fl1, hq, ?_, h3, ?_, ?_, hown, hout⟩
  · intro p hp q hq1 hne x hx1 hx2
    exact h2 p hp q hq1 hne x ((hm p hp x).1 hx1) ((hm q hq1 x).1 hx2)
  · intro x hx p hp hx1
    exact h4 x hx p hp ((hm p hp x).1 hx1)
  · intro x
    show x ∈ st.live ↔ (x ∈ st.out ∨ ∃ p ∈ st.pools, x ∈ fl1 p)
    rw [h5 x]
    constructor
    · rintro (hxo | ⟨p, hp, hxp⟩)
      · exact Or.inl hxo
      · exact Or.inr ⟨p, hp, (hm p hp x).2 hxp⟩
    · rintro (hxo | ⟨p, hp, hxp⟩)
      · exact Or.inl hxo
      · exact Or.inr ⟨p, hp, (hm p hp x).1 hxp⟩

/-- Call `kfree_rtskb` on a descriptor in flight: it goes to the tail of the
free list of its owner. -/
theorem memberInv_free (cfg : Config) (d : Nat) (st : Sys) (hI : MemberInv cfg st) :
    ∃ st1, sysStep cfg (.free d) st = .ok st1 ∧ MemberInv cfg st1 := by
  by_cases hd : d ∈ st.out
  swap
  · exact ⟨st, by simp [sysStep, hd], hI⟩
  obtain ⟨fl, h1, h2, h3, h4, h5, h6, h7⟩ := hI
  obtain ⟨P, hP, hown⟩ := h6 d ((h5 d).2 (Or.inl hd))
  have hdP : d ∉ fl P := h4 d hd P hP
  obtain ⟨s1, hk, hq1, hd1, hnn, hxx, hqo, _⟩ :=
    kfree_rtskb_single cfg 1 (by decide) hown (h1 P hP) hdP (h7 d hd).1 (h7 d hd).2
  have hall : ∀ x, (s1.skb x).noNext = (st.s.skb x).noNext := by
    intro x
    by_cases hx : x = d
    · subst hx; rw [hd1]; simp [Rtskb.noNext]
    · exact hnn x hx
  obtain ⟨fl1, hA, hO⟩ : ∃ fl1 : Nat → List Nat, fl1 P = fl P ++ [d] ∧
      ∀ p, p ≠ P → fl1 p = fl p :=
    ⟨fun p => if p = P then fl P ++ [d] else fl p, by simp, fun p hp => by simp [hp]⟩
  have horig : ∀ p x, x ∈ fl1 p → x ∈ fl p ∨ (p = P ∧ x = d) := by
    intro p x hx
    by_cases hpp : p = P
    · subst hpp; rw [hA] at hx
      rcases List.mem_append.mp hx with h | h
      · exact Or.inl h
      · exact Or.inr ⟨rfl, List.mem_singleton.mp h⟩
    · rw [hO p hpp] at hx; exact Or.inl hx
  have hkeep : ∀ p x, x ∈ fl p → x ∈ fl1 p := by
    intro p x hx
    by_cases hpp : p = P
    · subst hpp; rw [hA]; exact List.mem_append_left _ hx
    · rw [hO p hpp]; exact hx
  have hdq : ∀ q ∈ st.pools, d ∉ fl q := fun q hq => h4 d hd q hq
  refine ⟨{ st with s := s1, out := st.out.erase d }, ?_, fl1, ?_, ?_, ?_, ?_, ?_, ?_, ?_⟩
  · simp only [sysStep, hd, if_true, hk]
  · intro p hp
    by_cases hpp : p = P
    · subst hpp; rw [hA]; exact hq1
    · rw [hO p hpp]
      refine isQueue_frame (hqo p hpp) ?_ (h1 p hp)
      intro x hx
      have hx1 : x ≠ d := fun h => hdq p hp (h ▸ hx)
      have hx2 : x ∉ fl P := h2 p hp P hP hpp x hx
      simp [State.nextOf, hxx x hx1 hx2]
  · intro p hp q hq hne x hx1 hx2
    rcases horig p x hx1 with a | ⟨hpP, a⟩
    · rcases horig q x hx2 with b | ⟨hqP, b⟩
      · exact h2 p hp q hq hne x a b
      · exact hdq p hp (b ▸ a)
    · rcases horig q x hx2 with b | ⟨hqP, b⟩
      · exact hdq q hq (a ▸ b)
      · exact hne (hpP.trans hqP.symm)
  · exact h3.erase d
  · intro x hx p hp hx1
    have hxo : x ∈ st.out := List.mem_of_mem_erase hx
    have hxd : x ≠ d := fun h => by
      rw [h] at hx
      exact (List.Nodup.not_mem_erase h3) hx
    rcases horig p x hx1 with a | ⟨_, a⟩
    · exact h4 x hxo p hp a
    · exact hxd a
  · intro x
    show x ∈ st.live ↔ (x ∈ st.out.erase d ∨ ∃ p ∈ st.pools, x ∈ fl1 p)
    rw [h5 x]
    constructor
    · rintro (hxo | ⟨p, hp, hxp⟩)
      · by_cases hxd : x = d
        · subst hxd
          exact Or.inr ⟨P, hP, by rw [hA]; simp⟩
        · exact Or.inl ((List.mem_erase_of_ne hxd).2 hxo)
      · exact Or.inr ⟨p, hp, hkeep p x hxp⟩
    · rintro (hxo | ⟨p, hp, hxp⟩)
      · exact Or.inl (List.mem_of_mem_erase hxo)
      · rcases horig p x hxp with a | ⟨_, a⟩
        · exact Or.inr ⟨p, hp, a⟩
        · exact Or.inl (a ▸ hd)
  · intro x hx
    obtain ⟨q, hq, hpq⟩ := h6 x hx
    exact ⟨q, hq, by
      show (s1.skb x).pool = some q
      rw [(noNext_fields (hall x)).1]; exact hpq⟩
  · intro x hx
    have hxo : x ∈ st.out := List.mem_of_mem_erase hx
    obtain ⟨g1, g2, _, g3⟩ := noNext_fields (hall x)
    show (s1.skb x).chain_end = x ∧ (cfg.rtcap = true → (s1.skb x).cap_flags &&& _ = 0)
    rw [g2, g3]
    exact h7 x hxo

/-- Call `rtskb_acquire` on a descriptor in flight: the head of the companion
pool goes to the tail of the owner's free list, and with an empty companion
pool nothing changes. -/
theorem memberInv_acquire (cfg : Config) (d C : Nat) (st : Sys) (hI : MemberInv cfg st) :
    ∃ st1, sysStep cfg (.acquire d C) st = .ok st1 ∧ MemberInv cfg st1 := by
  by_cases hg : d ∈ st.out ∧ C ∈ st.pools
  swap
  · exact ⟨st, by simp only [sysStep]; rw [if_neg hg], hI⟩
  obtain ⟨hd, hC⟩ := hg
  obtain ⟨fl, h1, h2, h3, h4, h5, h6, h7⟩ := hI
  obtain ⟨A, hA, hown⟩ := h6 d ((h5 d).2 (Or.inl hd))
  cases hfl : fl C with
  | nil =>
    have hq := h1 C hC
    rw [hfl] at hq
    refine ⟨st, ?_, ⟨fl, h1, h2, h3, h4, h5, h6, h7⟩⟩
    simp only [sysStep]
    rw [if_pos ⟨hd, hC⟩, rtskb_acquire_empty cfg d C st.s hq]
  | cons c LC =>
    have hqC : IsQueue st.s C (c :: LC) := hfl ▸ h1 C hC
    have hcC : c ∈ fl C := by rw [hfl]; exact List.mem_cons_self c LC
    have hLC : ∀ x ∈ LC, x ∈ fl C := fun x hx => by rw [hfl]; exact List.mem_cons_of_mem c hx
    have hcLC : c ∉ LC := (List.nodup_cons.mp hqC.2.1).1
    have hdc : d ≠ c := fun h => h4 d hd C hC (h ▸ hcC)
    have hco : c ∉ st.out := fun h => h4 c h C hC hcC
    have hcq : ∀ q ∈ st.pools, q ≠ C → c ∉ fl q := fun q hq hne =>
      h2 C hC q hq (fun h => hne h.symm) c hcC
    have hq0C := isQueue_dequeue hqC
    have hq0o : ∀ p ∈ st.pools, p ≠ C → IsQueue (rtskb_dequeue C st.s).2 p (fl p) :=
      fun p hp hne => dequeue_frame hqC hne (h1 p hp) (hcq p hp hne)
    obtain ⟨LA, hLA, hcLA, hLAsub⟩ : ∃ LA, IsQueue (rtskb_dequeue C st.s).2 A LA ∧ c ∉ LA ∧
        ((A = C ∧ LA = LC) ∨ (A ≠ C ∧ LA = fl A)) := by
      by_cases hAC : A = C
      · exact ⟨LC, hAC ▸ hq0C, hcLC, Or.inl ⟨hAC, rfl⟩⟩
      · exact ⟨fl A, hq0o A hA hAC, hcq A hA hAC, Or.inr ⟨hAC, rfl⟩⟩
    obtain ⟨s1, hacq, hq1A, hdn, _, hcp, _, hxn, hfr⟩ :=
      rtskb_acquire_spec cfg hown hqC hdc hLA hcLA
    have hstep : sysStep cfg (.acquire d C) st = .ok { st with s := s1 } := by
      simp only [sysStep]
      rw [if_pos ⟨hd, hC⟩, hacq]
    have hown1 : ∀ x ∈ st.live, ∃ q ∈ st.pools, (s1.skb x).pool = some q := by
      intro x hx
      by_cases hxd : x = d
      · subst hxd
        exact ⟨C, hC, (noNext_fields hdn).1⟩
      · by_cases hxc : x = c
        · subst hxc; exact ⟨A, hA, hcp⟩
        · obtain ⟨q, hq, hpq⟩ := h6 x hx
          exact ⟨q, hq, by rw [(noNext_fields (hxn x hxd hxc)).1]; exact hpq⟩
    have hout1 : ∀ x ∈ st.out, (s1.skb x).chain_end = x ∧
        (cfg.rtcap = true → (s1.skb x).cap_flags &&& RTSKB_CAP_SHARED = 0) := by
      intro x hx
      by_cases hxd : x = d
      · subst hxd
        obtain ⟨_, g2, _, g3⟩ := noNext_fields hdn
        rw [g2, g3]
        exact h7 x hx
      · have hxc : x ≠ c := fun h => hco (h ▸ hx)
        obtain ⟨_, g2, _, g3⟩ := noNext_fields (hxn x hxd hxc)
        rw [g2, g3]
        exact h7 x hx
    refine ⟨_, hstep, ?_⟩
    rcases hLAsub with ⟨hAC, rfl⟩ | ⟨hAC, rfl⟩
    · -- the companion pool is the owner: its free list is rotated
      subst hAC
      obtain ⟨fl1, hfA, hfO⟩ : ∃ fl1 : Nat → List Nat, fl1 A = LA ++ [c] ∧
          ∀ p, p ≠ A → fl1 p = fl p :=
        ⟨fun p => if p = A then LA ++ [c] else fl p, by simp, fun p hp => by simp [hp]⟩
      refine memberInv_same_members cfg fl1 h2 h3 h4 h5 ?_ ?_ hown1 hout1
      · intro p _ x
        by_cases hpA : p = A
        · subst hpA; rw [hfA, hfl]; simp [or_comm]
        · rw [hfO p hpA]
      · intro p hp
        by_cases hpA : p = A
        · subst hpA; rw [hfA]; exact hq1A
        · rw [hfO p hpA]
          refine hfr p (fl p) hpA (hq0o p hp hpA) (hcq p hp hpA) ?_
          intro x hx
          exact h2 A hA p hp (fun h => hpA h.symm) x (hLC x hx)
    · refine memberInv_move cfg (X := C) (Y := A) (T := [c]) (R := LC) h2 h3 h4 h5 hC hA
        (fun h => hAC h.symm) hfl hqC.2.1 ?_ hq1A ?_ hown1 hout1
      · refine hfr C LC (fun h => hAC h.symm) hq0C hcLC ?_
        intro x hx hx1
        exact h2 A hA C hC hAC x hx (hLC x hx1)
      · intro q hq hqC1 hqA1
        refine hfr q (fl q) hqA1 (hq0o q hq hqC1) (hcq q hq hqC1) ?_
        intro x hx
        exact h2 A hA q hq (fun h => hqA1 h.symm) x hx

/-- The invariant does not look at the byte memory or the statistics. -/
theorem memberInv_heaps (cfg : Config) (s1 : State) {st : Sys} (hI : MemberInv cfg st)
    (hk : s1.skb = st.s.skb) (hq : s1.queue = st.s.queue) :
    MemberInv cfg { st with s := s1 } := by
  obtain ⟨fl, h1, h2, h3, h4, h5, h6, h7⟩ := hI
  refine ⟨fl, fun p hp => isQueue_of_heaps hk hq (h1 p hp), h2, h3, h4, h5, ?_, ?_⟩
  · intro x hx
    show ∃ q ∈ st.pools, (s1.skb x).pool = some q
    rw [hk]; exact h6 x hx
  · intro x hx
    show (s1.skb x).chain_end = x ∧ (cfg.rtcap = true → (s1.skb x).cap_flags &&& _ = 0)
    rw [hk]; exact h7 x hx

/-- The first statements of the two init functions add an empty pool. -/
theorem memberInv_new_pool (cfg : Config) (pool : Nat) {st : Sys} (hI : MemberInv cfg st)
    (hp : pool ∉ st.pools) :
    MemberInv cfg { st with s := pool_init_head cfg pool st.s, pools := pool :: st.pools } := by
  obtain ⟨fl, h1, h2, h3, h4, h5, h6, h7⟩ := hI
  obtain ⟨hq0, hk0, hqo, _⟩ := pool_init_head_spec cfg pool st.s
  obtain ⟨fl1, hA, hO⟩ : ∃ fl1 : Nat → List Nat, fl1 pool = [] ∧ ∀ p, p ≠ pool → fl1 p = fl p :=
    ⟨fun p => if p = pool then [] else fl p, by simp, fun p hp => by simp [hp]⟩
  have hne : ∀ q ∈ st.pools, q ≠ pool := fun q hq h => hp (h ▸ hq)
  have hmem : ∀ x, (∃ q ∈ pool :: st.pools, x ∈ fl1 q) ↔ ∃ q ∈ st.pools, x ∈ fl q := by
    intro x
    constructor
    · rintro ⟨q, hq, hx⟩
      rcases List.mem_cons.mp hq with rfl | hq
      · rw [hA] at hx; cases hx
      · exact ⟨q, hq, by rw [← hO q (hne q hq)]; exact hx⟩
    · rintro ⟨q, hq, hx⟩
      exact ⟨q, List.mem_cons_of_mem _ hq, by rw [hO q (hne q hq)]; exact hx⟩
  refine ⟨fl1, ?_, ?_, h3, ?_, ?_, ?_, ?_⟩
  · intro q hq
    rcases List.mem_cons.mp hq with rfl | hq
    · rw [hA]; exact hq0
    · rw [hO q (hne q hq)]
      exact isQueue_frame (hqo q (hne q hq)) (fun x _ => by simp [State.nextOf, hk0]) (h1 q hq)
  · intro p hp1 q hq1 hpq x hx1 hx2
    rcases List.mem_cons.mp hp1 with rfl | hp1
    · rw [hA] at hx1; cases hx1
    · rcases List.mem_cons.mp hq1 with rfl | hq1
      · rw [hA] at hx2; cases hx2
      · rw [hO p (hne p hp1)] at hx1
        rw [hO q (hne q hq1)] at hx2
        exact h2 p hp1 q hq1 hpq x hx1 hx2
  · intro x hx q hq hx1
    rcases List.mem_cons.mp hq with rfl | hq
    · rw [hA] at hx1; cases hx1
    · rw [hO q (hne q hq)] at hx1
      exact h4 x hx q hq hx1
  · intro x
    show x ∈ st.live ↔ (x ∈ st.out ∨ ∃ q ∈ pool :: st.pools, x ∈ fl1 q)
    rw [hmem x]; exact h5 x
  · intro x hx
    obtain ⟨q, hq, hpq⟩ := h6 x hx
    exact ⟨q, List.mem_cons_of_mem _ hq, by
      show ((pool_init_head cfg pool st.s).skb x).pool = some q
      rw [hk0]; exact hpq⟩
  · intro x hx
    show ((pool_init_head cfg pool st.s).skb x).chain_end = x ∧
      (cfg.rtcap = true → ((pool_init_head cfg pool st.s).skb x).cap_flags &&& _ = 0)
    rw [hk0]; exact h7 x hx

/-- Function `rtskb_pool_extend` with a fresh allocator outcome keeps the
invariant. -/
theorem memberInv_extend_state (cfg : Config) (pool n : Nat) (slab : List (Option Nat))
    {st : Sys} (hI : MemberInv cfg st) (hp : pool ∈ st.pools) (hfresh : st.fresh n slab) :
    ∃ i slab1 s1, rtskb_pool_extend cfg pool n slab st.s = .ok (i, slab1, s1) ∧
      MemberInv cfg { st with s := s1, live := st.live ++ granted n slab } := by
  obtain ⟨fl, h1, h2, h3, h4, h5, h6, h7⟩ := hI
  obtain ⟨hG, hGl⟩ := hfresh
  have hGfl : ∀ q ∈ st.pools, ∀ x ∈ granted n slab, x ∉ fl q := fun q hq x hx hx1 =>
    hGl x hx ((h5 x).2 (Or.inr ⟨q, hq, hx1⟩))
  have hGout : ∀ x ∈ granted n slab, x ∉ st.out := fun x hx hx1 =>
    hGl x hx ((h5 x).2 (Or.inl hx1))
  have hnd : (fl pool ++ granted n slab).Nodup :=
    List.nodup_append.mpr ⟨(h1 pool hp).2.1, hG, fun x hx hxG => hGfl pool hp x hxG hx⟩
  obtain ⟨s1, hloop, hq1, hmem, hnn, hxx, hqo, _⟩ :=
    extend_loop_spec cfg pool n 0 slab st.s (fl pool) (h1 pool hp) hnd
  obtain ⟨fl1, hA, hO⟩ : ∃ fl1 : Nat → List Nat, fl1 pool = fl pool ++ granted n slab ∧
      ∀ p, p ≠ pool → fl1 p = fl p :=
    ⟨fun p => if p = pool then fl pool ++ granted n slab else fl p, by simp,
      fun p hp => by simp [hp]⟩
  have horig : ∀ p x, x ∈ fl1 p → x ∈ fl p ∨ (p = pool ∧ x ∈ granted n slab) := by
    intro p x hx
    by_cases hpp : p = pool
    · subst hpp; rw [hA] at hx
      rcases List.mem_append.mp hx with h | h
      · exact Or.inl h
      · exact Or.inr ⟨rfl, h⟩
    · rw [hO p hpp] at hx; exact Or.inl hx
  have hkeep : ∀ p x, x ∈ fl p → x ∈ fl1 p := by
    intro p x hx
    by_cases hpp : p = pool
    · subst hpp; rw [hA]; exact List.mem_append_left _ hx
    · rw [hO p hpp]; exact hx
  refine ⟨_, _, s1, hloop, fl1, ?_, ?_, h3, ?_, ?_, ?_, ?_⟩
  · intro p hp1
    by_cases hpp : p = pool
    · subst hpp; rw [hA]; exact hq1
    · rw [hO p hpp]
      refine isQueue_frame (hqo p hpp) ?_ (h1 p hp1)
      intro x hx
      simp [State.nextOf, hxx x (fun h => hGfl p hp1 x h hx) (h2 p hp1 pool hp hpp x hx)]
  · intro p hp1 q hq1 hne x hx1 hx2
    rcases horig p x hx1 with a | ⟨hpP, a⟩
    · rcases horig q x hx2 with b | ⟨_, b⟩
      · exact h2 p hp1 q hq1 hne x a b
      · exact hGfl p hp1 x b a
    · rcases horig q x hx2 with b | ⟨hqP, b⟩
      · exact hGfl q hq1 x a b
      · exact hne (hpP.trans hqP.symm)
  · intro x hx p hp1 hx1
    rcases horig p x hx1 with a | ⟨_, a⟩
    · exact h4 x hx p hp1 a
    · exact hGout x a hx
  · intro x
    show x ∈ st.live ++ granted n slab ↔ (x ∈ st.out ∨ ∃ p ∈ st.pools, x ∈ fl1 p)
    rw [List.mem_append, h5 x]
    constructor
    · rintro ((hxo | ⟨p, hp1, hxp⟩) | hxG)
      · exact Or.inl hxo
      · exact Or.inr ⟨p, hp1, hkeep p x hxp⟩
      · exact Or.inr ⟨pool, hp, by rw [hA]; exact List.mem_append_right _ hxG⟩
    · rintro (hxo | ⟨p, hp1, hxp⟩)
      · exact Or.inl (Or.inl hxo)
      · rcases horig p x hxp with a | ⟨_, a⟩
        · exact Or.inl (Or.inr ⟨p, hp1, a⟩)
        · exact Or.inr a
  · intro x hx
    show ∃ q ∈ st.pools, (s1.skb x).pool = some q
    by_cases hxG : x ∈ granted n slab
    · exact ⟨pool, hp, (hmem x hxG).1⟩
    · have hxl : x ∈ st.live := (List.mem_append.mp hx).resolve_right hxG
      obtain ⟨q, hq, hpq⟩ := h6 x hxl
      exact ⟨q, hq, by rw [(noNext_fields (hnn x hxG)).1]; exact hpq⟩
  · intro x hx
    show (s1.skb x).chain_end = x ∧ (cfg.rtcap = true → (s1.skb x).cap_flags &&& _ = 0)
    obtain ⟨_, g2, _, g3⟩ := noNext_fields (hnn x (fun h => hGout x h hx))
    rw [g2, g3]
    exact h7 x hx

/-- Walking a free list from its head reads off its first entries. -/
theorem takeChain_eq {nx : Nat → Option Nat} :
    ∀ (n : Nat) (L : List Nat) (p : Option Nat), chainSeg nx p L none →
      takeChain nx n p = L.take n
  | 0, _, _, _ => by simp [takeChain]
  | n + 1, [], p, h => by
    have : p = none := h
    subst this; simp [takeChain]
  | n + 1, d :: L, p, h => by
    have hp : p = some d := h.1
    subst hp
    simp [takeChain, takeChain_eq n L (nx d) h.2]

/-- Function `rtskb_pool_extend_rt` keeps the invariant. -/
theorem memberInv_extend_rt_state (cfg : Config) (pool n : Nat) {st : Sys}
    (hI : MemberInv cfg st) (hp : pool ∈ st.pools) (hne : pool ≠ rtskb_cache)
    (hc : rtskb_cache ∈ st.pools) :
    ∃ i s1, rtskb_pool_extend_rt pool n st.s = .ok (i, s1) ∧
      MemberInv cfg { st with s := s1 } := by
  obtain ⟨fl, h1, h2, h3, h4, h5, h6, h7⟩ := hI
  have hdisj : ∀ x ∈ fl pool, x ∉ fl rtskb_cache := h2 pool hp rtskb_cache hc hne
  obtain ⟨s1, hloop, hq1c, hq1p, hmem, hnn, hxx, hqo, _⟩ :=
    extend_rt_loop_spec pool hne n 0 st.s (fl rtskb_cache) (fl pool) (h1 _ hc) (h1 _ hp) hdisj
  have hT : ∀ x ∈ (fl rtskb_cache).take n, x ∈ fl rtskb_cache :=
    fun x hx => List.mem_of_mem_take hx
  refine ⟨_, s1, hloop, ?_⟩
  refine memberInv_move cfg (X := rtskb_cache) (Y := pool) (T := (fl rtskb_cache).take n)
    (R := (fl rtskb_cache).drop n) h2 h3 h4 h5 hc hp (fun h => hne h.symm)
    (List.take_append_drop n _).symm ?_ hq1c hq1p ?_ ?_ ?_
  · rw [List.take_append_drop]; exact (h1 _ hc).2.1
  · intro q hq hqc hqp
    refine isQueue_frame (hqo q hqp hqc) ?_ (h1 q hq)
    intro x hx
    have hx1 : x ∉ (fl rtskb_cache).take n := fun h => h2 q hq rtskb_cache hc hqc x hx (hT x h)
    simp [State.nextOf, hxx x hx1 (h2 q hq pool hp hqp x hx)]
  · intro x hx
    by_cases hxT : x ∈ (fl rtskb_cache).take n
    · exact ⟨pool, hp, (hmem x hxT).1⟩
    · obtain ⟨q, hq, hpq⟩ := h6 x hx
      exact ⟨q, hq, by rw [(noNext_fields (hnn x hxT)).1]; exact hpq⟩
  · intro x hx
    have hxT : x ∉ (fl rtskb_cache).take n := fun h => h4 x hx rtskb_cache hc (hT x h)
    obtain ⟨_, g2, _, g3⟩ := noNext_fields (hnn x hxT)
    rw [g2, g3]
    exact h7 x hx

/-- Call `rtskb_pool_shrink_rt`: the first entries of the pool's free list go to
the tail of the Reserve Cache. -/
theorem memberInv_shrink_rt (cfg : Config) (pool n : Nat) (st : Sys) (hI : MemberInv cfg st) :
    ∃ st1, sysStep cfg (.shrink_rt pool n) st = .ok st1 ∧ MemberInv cfg st1 := by
  by_cases hg : pool ∈ st.pools ∧ pool ≠ rtskb_cache ∧ rtskb_cache ∈ st.pools
  swap
  · exact ⟨st, by simp only [sysStep]; rw [if_neg hg], hI⟩
  obtain ⟨hp, hne, hc⟩ := hg
  obtain ⟨fl, h1, h2, h3, h4, h5, h6, h7⟩ := hI
  have hdisj : ∀ x ∈ fl rtskb_cache, x ∉ fl pool :=
    h2 rtskb_cache hc pool hp (fun h => hne h.symm)
  obtain ⟨s1, hloop, hq1p, hq1c, hmem, hnn, hxx, hqo, _⟩ :=
    shrink_rt_loop_spec pool hne n 0 st.s (fl pool) (fl rtskb_cache) (h1 _ hp) (h1 _ hc) hdisj
  have hT : ∀ x ∈ (fl pool).take n, x ∈ fl pool := fun x hx => List.mem_of_mem_take hx
  refine ⟨{ st with s := s1 }, ?_, ?_⟩
  · simp only [sysStep]
    rw [if_pos ⟨hp, hne, hc⟩]
    unfold rtskb_pool_shrink_rt
    rw [hloop]
  refine memberInv_move cfg (X := pool) (Y := rtskb_cache) (T := (fl pool).take n)
    (R := (fl pool).drop n) h2 h3 h4 h5 hp hc hne
    (List.take_append_drop n _).symm ?_ hq1p hq1c ?_ ?_ ?_
  · rw [List.take_append_drop]; exact (h1 _ hp).2.1
  · intro q hq hqp hqc
    refine isQueue_frame (hqo q hqp hqc) ?_ (h1 q hq)
    intro x hx
    have hx1 : x ∉ (fl pool).take n := fun h => h2 q hq pool hp hqp x hx (hT x h)
    simp [State.nextOf, hxx x hx1 (h2 q hq rtskb_cache hc hqc x hx)]
  · intro x hx
    obtain ⟨q, hq, hpq⟩ := h6 x hx
    by_cases hxT : x ∈ (fl pool).take n
    · exact ⟨q, hq, by rw [(hmem x hxT).2]; exact hpq⟩
    · exact ⟨q, hq, by rw [(noNext_fields (hnn x hxT)).1]; exact hpq⟩
  · intro x hx
    have hxT : x ∉ (fl pool).take n := fun h => h4 x hx pool hp (hT x h)
    obtain ⟨_, g2, _, g3⟩ := noNext_fields (hnn x hxT)
    rw [g2, g3]
    exact h7 x hx

/-- Call `rtskb_pool_shrink`: the first entries of the pool's free list go back
to the kernel. -/
theorem memberInv_shrink (cfg : Config) (pool n : Nat) (st : Sys) (hI : MemberInv cfg st) :
    ∃ st1, sysStep cfg (.shrink pool n) st = .ok st1 ∧ MemberInv cfg st1 := by
  by_cases hp : pool ∈ st.pools
  swap
  · exact ⟨st, by simp [sysStep, hp], hI⟩
  obtain ⟨fl, h1, h2, h3, h4, h5, h6, h7⟩ := hI
  obtain ⟨_, hq1, hxx, hnn, hqo, _⟩ := shrink_loop_spec pool n 0 st.s (fl pool) (h1 pool hp)
  have htc : takeChain st.s.nextOf n (st.s.queue pool).first = (fl pool).take n :=
    takeChain_eq n (fl pool) _ (h1 pool hp).1
  have hT : ∀ x ∈ (fl pool).take n, x ∈ fl pool := fun x hx => List.mem_of_mem_take hx
  have hD : ∀ x ∈ (fl pool).drop n, x ∈ fl pool := fun x hx => List.mem_of_mem_drop hx
  have hTD : ∀ x ∈ (fl pool).take n, x ∉ (fl pool).drop n := by
    have hnd : ((fl pool).take n ++ (fl pool).drop n).Nodup := by
      rw [List.take_append_drop]; exact (h1 pool hp).2.1
    exact fun x hx hx1 => List.disjoint_of_nodup_append hnd hx hx1
  obtain ⟨fl1, hA, hO⟩ : ∃ fl1 : Nat → List Nat, fl1 pool = (fl pool).drop n ∧
      ∀ p, p ≠ pool → fl1 p = fl p :=
    ⟨fun p => if p = pool then (fl pool).drop n else fl p, by simp, fun p hp => by simp [hp]⟩
  have hsub : ∀ p x, x ∈ fl1 p → x ∈ fl p := by
    intro p x hx
    by_cases hpp : p = pool
    · subst hpp; rw [hA] at hx; exact hD x hx
    · rw [hO p hpp] at hx; exact hx
  have hTfl1 : ∀ p ∈ st.pools, ∀ x ∈ (fl pool).take n, x ∉ fl1 p := by
    intro p hp1 x hx hx1
    by_cases hpp : p = pool
    · subst hpp; rw [hA] at hx1; exact hTD x hx hx1
    · rw [hO p hpp] at hx1
      exact h2 p hp1 pool hp hpp x hx1 (hT x hx)
  refine ⟨{ st with
      s := (rtskb_pool_shrink pool n st.s).2
      live := st.live.filter
        (fun x => decide (x ∉ takeChain st.s.nextOf n (st.s.queue pool).first)) }, ?_,
    fl1, ?_, ?_, h3, ?_, ?_, ?_, ?_⟩
  · simp only [sysStep, hp, if_true]
  · intro p hp1
    by_cases hpp : p = pool
    · subst hpp; rw [hA]; exact hq1
    · rw [hO p hpp]
      refine isQueue_frame (hqo p hpp) ?_ (h1 p hp1)
      intro x hx
      have hx1 : x ∉ (fl pool).take n := fun h => h2 p hp1 pool hp hpp x hx (hT x h)
      show ((rtskb_pool_shrink_loop pool n 0 st.s).2.skb x).next = _
      rw [hxx x hx1]; rfl
  · intro p hp1 q hq1' hne x hx1 hx2
    exact h2 p hp1 q hq1' hne x (hsub p x hx1) (hsub q x hx2)
  · intro x hx p hp1 hx1
    exact h4 x hx p hp1 (hsub p x hx1)
  · intro x
    show x ∈ st.live.filter
        (fun x => decide (x ∉ takeChain st.s.nextOf n (st.s.queue pool).first)) ↔
      (x ∈ st.out ∨ ∃ p ∈ st.pools, x ∈ fl1 p)
    rw [htc, List.mem_filter, h5 x]
    simp only [decide_eq_true_eq]
    constructor
    · rintro ⟨hxo | ⟨p, hp1, hxp⟩, hxT⟩
      · exact Or.inl hxo
      · refine Or.inr ⟨p, hp1, ?_⟩
        by_cases hpp : p = pool
        · subst hpp; rw [hA]
          rw [← List.take_append_drop n (fl p)] at hxp
          exact (List.mem_append.mp hxp).resolve_left hxT
        · rw [hO p hpp]; exact hxp
    · rintro (hxo | ⟨p, hp1, hxp⟩)
      · exact ⟨Or.inl hxo, fun h => h4 x hxo pool hp (hT x h)⟩
      · exact ⟨Or.inr ⟨p, hp1, hsub p x hxp⟩, fun h => hTfl1 p hp1 x h hxp⟩
  · intro x hx
    have hxl : x ∈ st.live := List.mem_of_mem_filter hx
    obtain ⟨q, hq, hpq⟩ := h6 x hxl
    exact ⟨q, hq, by
      show ((rtskb_pool_shrink_loop pool n 0 st.s).2.skb x).pool = some q
      rw [(noNext_fields (hnn x)).1]; exact hpq⟩
  · intro x hx
    show ((rtskb_pool_shrink_loop pool n 0 st.s).2.skb x).chain_end = x ∧
      (cfg.rtcap = true → ((rtskb_pool_shrink_loop pool n 0 st.s).2.skb x).cap_flags &&& _ = 0)
    obtain ⟨_, g2, _, g3⟩ := noNext_fields (hnn x)
    rw [g2, g3]
    exact h7 x hx

/-- Call `rtskb_pool_extend`: fresh objects join the pool's free list. -/
theorem memberInv_extend (cfg : Config) (pool n : Nat) (slab : List (Option Nat)) (st : Sys)
    (hI : MemberInv cfg st) :
    ∃ st1, sysStep cfg (.extend pool n slab) st = .ok st1 ∧ MemberInv cfg st1 := by
  by_cases hg : pool ∈ st.pools ∧ st.fresh n slab
  swap
  · exact ⟨st, by simp only [sysStep]; rw [if_neg hg], hI⟩
  obtain ⟨i, slab1, s1, hext, hI1⟩ := memberInv_extend_state cfg pool n slab hI hg.1 hg.2
  refine ⟨_, ?_, hI1⟩
  simp only [sysStep]
  rw [if_pos hg, hext]

/-- Call `rtskb_pool_extend_rt`: the first entries of the Reserve Cache go to
the tail of the pool's free list. -/
theorem memberInv_extend_rt (cfg : Config) (pool n : Nat) (st : Sys) (hI : MemberInv cfg st) :
    ∃ st1, sysStep cfg (.extend_rt pool n) st = .ok st1 ∧ MemberInv cfg st1 := by
  by_cases hg : pool ∈ st.pools ∧ pool ≠ rtskb_cache ∧ rtskb_cache ∈ st.pools
  swap
  · exact ⟨st, by simp only [sysStep]; rw [if_neg hg], hI⟩
  obtain ⟨i, s1, hext, hI1⟩ := memberInv_extend_rt_state cfg pool n hI hg.1 hg.2.1 hg.2.2
  refine ⟨_, ?_, hI1⟩
  simp only [sysStep]
  rw [if_pos hg, hext]

/-- Call `rtskb_pool_init` for a new pool. -/
theorem memberInv_create (cfg : Config) (pool n : Nat) (slab : List (Option Nat)) (st : Sys)
    (hI : MemberInv cfg st) :
    ∃ st1, sysStep cfg (.create pool n slab) st = .ok st1 ∧ MemberInv cfg st1 := by
  by_cases hg : pool ∉ st.pools ∧ st.fresh n slab
  swap
  · exact ⟨st, by simp only [sysStep]; rw [if_neg hg], hI⟩
  have hI0 := memberInv_new_pool cfg pool hI hg.1
  obtain ⟨i, slab1, s1, hext, hI1⟩ :=
    memberInv_extend_state cfg pool n slab hI0 (List.mem_cons_self pool st.pools) hg.2
  have hI2 := memberInv_heaps cfg s1.poolsInc hI1 (poolsInc_skb s1) (poolsInc_queue s1)
  refine ⟨_, ?_, hI2⟩
  have hinit : rtskb_pool_init cfg pool n slab st.s = .ok (i, slab1, s1.poolsInc) := by
    unfold rtskb_pool_init
    have : rtskb_pool_extend cfg pool n slab (pool_init_head cfg pool st.s) =
        .ok (i, slab1, s1) := hext
    rw [this]
  simp only [sysStep]
  rw [if_pos hg, hinit]

/-- Call `rtskb_pool_init_rt` for a new pool. -/
theorem memberInv_create_rt (cfg : Config) (pool n : Nat) (st : Sys) (hI : MemberInv cfg st) :
    ∃ st1, sysStep cfg (.create_rt pool n) st = .ok st1 ∧ MemberInv cfg st1 := by
  by_cases hg : pool ∉ st.pools ∧ pool ≠ rtskb_cache ∧ rtskb_cache ∈ st.pools
  swap
  · exact ⟨st, by simp only [sysStep]; rw [if_neg hg], hI⟩
  have hI0 := memberInv_new_pool cfg pool hI hg.1
  obtain ⟨i, s1, hext, hI1⟩ :=
    memberInv_extend_rt_state cfg pool n hI0 (List.mem_cons_self pool st.pools) hg.2.1
      (List.mem_cons_of_mem pool hg.2.2)
  have hI2 := memberInv_heaps cfg s1.poolsInc hI1 (poolsInc_skb s1) (poolsInc_queue s1)
  refine ⟨_, ?_, hI2⟩
  have hinit : rtskb_pool_init_rt cfg pool n st.s = .ok (i, s1.poolsInc) := by
    unfold rtskb_pool_init_rt
    have : rtskb_pool_extend_rt pool n (pool_init_head cfg pool st.s) = .ok (i, s1) := hext
    rw [this]
  simp only [sysStep]
  rw [if_pos hg, hinit]

/-- Every call keeps the invariant, and none of them faults. -/
theorem memberInv_step (cfg : Config) (op : SysOp) (st : Sys) (hI : MemberInv cfg st) :
    ∃ st1, sysStep cfg op st = .ok st1 ∧ MemberInv cfg st1 := by
  cases op with
  | create pool n slab => exact memberInv_create cfg pool n slab st hI
  | create_rt pool n => exact memberInv_create_rt cfg pool n st hI
  | alloc size pool => exact memberInv_alloc cfg size pool st hI
  | free d => exact memberInv_free cfg d st hI
  | acquire d C => exact memberInv_acquire cfg d C st hI
  | extend pool n slab => exact memberInv_extend cfg pool n slab st hI
  | extend_rt pool n => exact memberInv_extend_rt cfg pool n st hI
  | shrink pool n => exact memberInv_shrink cfg pool n st hI
  | shrink_rt pool n => exact memberInv_shrink_rt cfg pool n st hI

/-- Every finite run returns and keeps the invariant. -/
theorem memberInv_run (cfg : Config) :
    ∀ (ops : List SysOp) (st : Sys), MemberInv cfg st →
      ∃ st1, runSys cfg ops st = .ok st1 ∧ MemberInv cfg st1
  | [], st, hI => ⟨st, rfl, hI⟩
  | op :: ops, st, hI => by
    obtain ⟨st1, h1, hI1⟩ := memberInv_step cfg op st hI
    obtain ⟨st2, h2, hI2⟩ := memberInv_run cfg ops st1 hI1
    exact ⟨st2, by simp only [runSys, h1, h2], hI2⟩

/-- Before any pool exists the invariant holds. -/
theorem memberInv_start (cfg : Config) (s : State) : MemberInv cfg (Sys.start s) := by
  refine ⟨fun _ => [], ?_, ?_, List.nodup_nil, ?_, ?_, ?_, ?_⟩
  · intro p hp; cases hp
  · intro p hp; cases hp
  · intro d hd; cases hd
  · intro d
    constructor
    · intro h; cases h
    · rintro (h | ⟨p, hp, _⟩)
      · cases h
      · cases hp
  · intro d hd; cases hd
  · intro d hd; cases hd

/-! ## The membership invariant -/

/-- C21: start before any pool exists and run any finite sequence of calls of
pool creation (both variants), `alloc_rtskb`, `kfree_rtskb` on a descriptor in
flight, `rtskb_acquire` on a descriptor in flight, and extend and shrink (both
variants), the kernel allocator handing out fresh objects.  The run never
faults, and in the state it reaches every created pool, the Reserve Cache
included, has a well-formed free list `fl p` such that no descriptor occurs
twice in one free list, no descriptor occurs in the free lists of two pools,
and no descriptor in flight occurs in any free list.  In these states every
in-flight chain is its head alone, because none of the calls links
descriptors. -/
theorem membership_invariant (cfg : Config) (s0 : State) (ops : List SysOp) :
    ∃ st, runSys cfg ops (Sys.start s0) = .ok st ∧
      ∃ fl : Nat → List Nat,
        (∀ p ∈ st.pools, IsQueue st.s p (fl p)) ∧
        (∀ p ∈ st.pools, (fl p).Nodup) ∧
        (∀ p ∈ st.pools, ∀ q ∈ st.pools, p ≠ q → ∀ x ∈ fl p, x ∉ fl q) ∧
        st.out.Nodup ∧
        (∀ d ∈ st.out, ∀ p ∈ st.pools, d ∉ fl p) := by
  obtain ⟨st, hrun, fl, h1, h2, h3, h4, _⟩ := memberInv_run cfg ops _ (memberInv_start cfg s0)
  exact ⟨st, hrun, fl, h1, fun p hp => (h1 p hp).2.1, h2, h3, h4⟩

/-- C21 on the sample run: it ends with the pools 6, 5 and the cache, with
descriptor 81 in flight, and with the free lists `[71, 72, 70]` (cache), `[]`
(pool 5) and `[90]` (pool 6). -/
theorem membership_invariant_witness :
    ∃ st, runSys (sampleCfg true true) sampleRun (Sys.start State.blank) = .ok st ∧
      st.pools = [6, 5, 0] ∧ st.out = [81] ∧ IsQueue st.s rtskb_cache [71, 72, 70] ∧
      IsQueue st.s 5 [] ∧ IsQueue st.s 6 [90] ∧
      ∃ fl : Nat → List Nat,
        (∀ p ∈ st.pools, IsQueue st.s p (fl p)) ∧
        (∀ p ∈ st.pools, (fl p).Nodup) ∧
        (∀ p ∈ st.pools, ∀ q ∈ st.pools, p ≠ q → ∀ x ∈ fl p, x ∉ fl q) ∧
        st.out.Nodup ∧
        (∀ d ∈ st.out, ∀ p ∈ st.pools, d ∉ fl p) := by
  obtain ⟨st, h, hfl⟩ := membership_invariant (sampleCfg true true) State.blank sampleRun
  obtain ⟨st0, h0, g1, g2, g3, g4, g5⟩ :
      ∃ st0, runSys (sampleCfg true true) sampleRun (Sys.start State.blank) = .ok st0 ∧
        st0.pools = [6, 5, 0] ∧ st0.out = [81] ∧ IsQueue st0.s rtskb_cache [71, 72, 70] ∧
        IsQueue st0.s 5 [] ∧ IsQueue st0.s 6 [90] :=
    ⟨_, rfl, by decide, by decide, by decide, by decide, by decide⟩
  rw [h0] at h
  have e : st0 = st := Except.ok.inj h
  subst e
  exact ⟨st0, h0, g1, g2, g3, g4, g5, hfl⟩

/-! ## The window and the header pointers of a clone -/

/-- C23 at its failing input.  The sample packet 30 has `len = 100 = tail -
data`, and a descriptor fresh from `alloc_rtskb` has `len = 0 = tail - data`;
but the clone of 30 taken from pool 1 is returned with `len = 100`, `data`
moved 14 bytes into the storage and `tail` still at the start of the storage:
`rtskb_clone` copies the length and never advances `tail`, so `tail - data` is
`-14`, not `len`. -/
theorem rtskb_clone_cached_length :
    (samplePacket.skb 30).len = 100 ∧
      ((samplePacket.skb 30).tail : Int) - (samplePacket.skb 30).data = 100 ∧
      (alloc_rtskb (sampleCfg true true) 114 1 samplePacket).1 = some 10 ∧
      (((alloc_rtskb (sampleCfg true true) 114 1 samplePacket).2.skb 10).len : Int) =
        ((alloc_rtskb (sampleCfg true true) 114 1 samplePacket).2.skb 10).tail -
          ((alloc_rtskb (sampleCfg true true) 114 1 samplePacket).2.skb 10).data ∧
      (rtskb_clone (sampleCfg true true) 30 1 samplePacket).1 = some 10 ∧
      ((rtskb_clone (sampleCfg true true) 30 1 samplePacket).2.skb 10).len = 100 ∧
      ((rtskb_clone (sampleCfg true true) 30 1 samplePacket).2.skb 10).data = 10014 ∧
      ((rtskb_clone (sampleCfg true true) 30 1 samplePacket).2.skb 10).tail = 10000 ∧
      (((rtskb_clone (sampleCfg true true) 30 1 samplePacket).2.skb 10).tail : Int) -
          ((rtskb_clone (sampleCfg true true) 30 1 samplePacket).2.skb 10).data = -14 := by
  decide

/-- C29 at its failing input.  The sample packet 30 has its MAC header at
offset 2 of the storage, `data` and the network header 14 bytes behind it and
the transport header 34 bytes behind it.  Its clone has `mac.raw` at the start
of the storage and `data` 14 bytes behind it, as the source, but `nh.raw` is
`mac.raw + (data - nh.raw) = mac.raw + 0` and `h.raw` is `mac.raw + (data -
h.raw) = mac.raw - 20`, in front of the storage: the offsets 14 and 34 of the
source are lost. -/
theorem rtskb_clone_header_offsets :
    (samplePacket.skb 30).buf_start = 30000 ∧ (samplePacket.skb 30).mac_raw = 30002 ∧
      (samplePacket.skb 30).data = 30016 ∧ (samplePacket.skb 30).nh_raw = 30016 ∧
      (samplePacket.skb 30).h_raw = 30036 ∧
      (rtskb_clone (sampleCfg true true) 30 1 samplePacket).1 = some 10 ∧
      ((rtskb_clone (sampleCfg true true) 30 1 samplePacket).2.skb 10).buf_start = 10000 ∧
      ((rtskb_clone (sampleCfg true true) 30 1 samplePacket).2.skb 10).mac_raw = 10000 ∧
      ((rtskb_clone (sampleCfg true true) 30 1 samplePacket).2.skb 10).data = 10014 ∧
      ((rtskb_clone (sampleCfg true true) 30 1 samplePacket).2.skb 10).nh_raw = 10000 ∧
      ((rtskb_clone (sampleCfg true true) 30 1 samplePacket).2.skb 10).h_raw = 9980 := by
  decide

end RTnet
